import Mathlib

/-!
# canvas-app: the server-side history ledger, room directory and event handlers

A shallow embedding of `src/server/drawing-state.js`, `src/server/rooms.js` and the
socket handlers of `src/server/server.js`.

Modelling conventions.

* A JavaScript `Map` is an insertion-ordered association list (`JsMap`): `set` on a
  present key replaces the value in place, `set` on a new key appends, `delete` removes.
* Array indices and `historyIndex` are integers (`Int`), because the source moves the
  cursor below zero (`-1` is the empty cursor); array lengths are naturals.
* `Array.prototype.slice` is `jsSlice`, with the clamping of negative and oversized
  bounds that the language defines.
* `Date.now()` is an explicit argument `now` of every operation that reads the clock; the
  reads within one call get the same reading. Only `createdAt`, `lastModified`, `addedAt`,
  `joinedAt` and `timestamp` hold a reading, and no control flow depends on one.
* Payloads are well-typed: ids, names and colours are strings, and an absent `roomId` or
  `username` is `none`.
* Mutation of an object held in a `Map` is a `set` of the updated object at its key.
-/

namespace CanvasApp

/-! ## JavaScript primitives -/

/-- An insertion-ordered map, as the JavaScript `Map`. -/
abbrev JsMap (K V : Type) := List (K × V)

namespace JsMap

variable {K V : Type} [DecidableEq K]

/-- The method `Map.prototype.get`; `none` stands for `undefined`. -/
def get? : JsMap K V → K → Option V
  | [], _ => none
  | (k, v) :: rest, key => if k = key then some v else get? rest key

/-- The method `Map.prototype.has`. -/
def has (m : JsMap K V) (key : K) : Bool := (get? m key).isSome

/-- The method `Map.prototype.set`: replace in place, or append a new key at the end. -/
def set : JsMap K V → K → V → JsMap K V
  | [], key, val => [(key, val)]
  | (k, v) :: rest, key, val =>
    if k = key then (key, val) :: rest else (k, v) :: set rest key val

/-- The method `Map.prototype.delete`. -/
def delete (m : JsMap K V) (key : K) : JsMap K V := m.filter (fun kv => decide (kv.1 ≠ key))

/-- The values in insertion order, as `Array.from(map.values())`. -/
def values (m : JsMap K V) : List V := m.map Prod.snd

/-- The keys in insertion order, as `Array.from(map.keys())`. -/
def keys (m : JsMap K V) : List K := m.map Prod.fst

end JsMap

/-- Clamp one bound of `slice` against an array of length `len`: a negative bound counts
from the end and stops at zero, a bound past the end stops at the length. -/
def jsSliceBound (len : Nat) (i : Int) : Nat :=
  if i < 0 then ((len : Int) + i).toNat else min i.toNat len

/-- The call `xs.slice(start, stop)`. -/
def jsSlice {α : Type} (xs : List α) (start stop : Int) : List α :=
  (xs.drop (jsSliceBound xs.length start)).take
    (jsSliceBound xs.length stop - jsSliceBound xs.length start)

/-- The call `xs.slice(start)`, whose end defaults to the length. -/
def jsSliceFrom {α : Type} (xs : List α) (start : Int) : List α :=
  jsSlice xs start xs.length

/-- The expression `xs[i]`; `none` stands for `undefined`. -/
def jsIndex {α : Type} (xs : List α) (i : Int) : Option α :=
  if i < 0 then none else xs.get? i.toNat

/-- The expression `a || b` on an optional string: `undefined` and `''` are falsy. -/
def jsOr (a : Option String) (b : String) : String :=
  match a with
  | none => b
  | some s => if s = "" then b else s

/-! ## Data model -/

/-- A canvas point `{x, y}`. -/
structure Point where
  x : Int
  y : Int
  deriving DecidableEq, Repr

/-- The object `completeStroke` built by the `drawing_end` handler and handed to `addStroke`.
The field `userColor` copies `userData.color`, an array read that may be `undefined`. -/
structure Stroke where
  id : String
  userId : String
  username : String
  userColor : Option String
  points : List Point
  color : String
  width : Nat
  tool : String
  timestamp : Nat
  deriving DecidableEq, Repr

/-- A history entry `{...stroke, addedAt: Date.now()}`. -/
structure Entry extends Stroke where
  addedAt : Nat
  deriving DecidableEq, Repr

/-- The per-room object stored in `roomStates`. -/
structure RoomState where
  history : List Entry
  historyIndex : Int
  createdAt : Nat
  lastModified : Nat
  deriving DecidableEq, Repr

/-- The constant `this.MAX_HISTORY_LENGTH` set by the constructor. -/
def MAX_HISTORY_LENGTH : Nat := 500

/-- The class `DrawingStateManager`: its `roomStates` map. -/
structure DrawingStateManager where
  roomStates : JsMap String RoomState
  deriving DecidableEq, Repr

/-- The result object of `undo`. -/
inductive UndoResult where
  | failure (reason : String)
  | success (historyIndex : Int) (undoneStroke : Option Entry)
  deriving DecidableEq, Repr

/-- The result object of `redo`. -/
inductive RedoResult where
  | failure (reason : String)
  | success (historyIndex : Int) (redoneStroke : Option Entry)
  deriving DecidableEq, Repr

/-! ## `drawing-state.js` -/

namespace DrawingStateManager

/-- The constructor: an empty `roomStates`. -/
def new : DrawingStateManager := { roomStates := [] }

/-- The method `initializeRoom(roomId)`. -/
def initializeRoom (m : DrawingStateManager) (roomId : String) (now : Nat) :
    DrawingStateManager :=
  { roomStates := m.roomStates.set roomId
      { history := [], historyIndex := -1, createdAt := now, lastModified := now } }

/-- Lines 24-27 of `addStroke`: drop the undone entries after the cursor. -/
def truncateFuture (state : RoomState) : RoomState :=
  if state.historyIndex < (state.history.length : Int) - 1 then
    { state with history := jsSlice state.history 0 (state.historyIndex + 1) }
  else state

/-- Lines 29-34 of `addStroke`: push the entry and move the cursor to the last index. -/
def pushStroke (state : RoomState) (stroke : Stroke) (now : Nat) : RoomState :=
  let history := state.history ++ [{ toStroke := stroke, addedAt := now }]
  { state with history := history, historyIndex := (history.length : Int) - 1,
               lastModified := now }

/-- Lines 36-41 of `addStroke`: drop the oldest entries beyond the capacity. -/
def trimOld (state : RoomState) : RoomState :=
  if state.history.length > MAX_HISTORY_LENGTH then
    let removeCount : Int := (state.history.length : Int) - (MAX_HISTORY_LENGTH : Int)
    { state with history := jsSliceFrom state.history removeCount,
                 historyIndex := state.historyIndex - removeCount }
  else state

/-- The body of `addStroke` on the room object found in the map. -/
def addStrokeState (state : RoomState) (stroke : Stroke) (now : Nat) : RoomState :=
  trimOld (pushStroke (truncateFuture state) stroke now)

/-- The method `addStroke(roomId, stroke)`. The first component is the value the call
returns: `none` is `undefined`, which both the early `return;` and the fall off the end
of the function body produce. -/
def addStroke (m : DrawingStateManager) (roomId : String) (stroke : Stroke) (now : Nat) :
    Option Int × DrawingStateManager :=
  match m.roomStates.get? roomId with
  | none => (none, m)
  | some state =>
    (none, { roomStates := m.roomStates.set roomId (addStrokeState state stroke now) })

/-- The method `undo(roomId)`. -/
def undo (m : DrawingStateManager) (roomId : String) (now : Nat) :
    UndoResult × DrawingStateManager :=
  match m.roomStates.get? roomId with
  | none => (UndoResult.failure "Room not found", m)
  | some state =>
    if state.historyIndex < 0 then (UndoResult.failure "Nothing to undo", m)
    else
      let undoneStroke := jsIndex state.history state.historyIndex
      let state1 := { state with historyIndex := state.historyIndex - 1, lastModified := now }
      (UndoResult.success state1.historyIndex undoneStroke,
        { roomStates := m.roomStates.set roomId state1 })

/-- The method `redo(roomId)`. -/
def redo (m : DrawingStateManager) (roomId : String) (now : Nat) :
    RedoResult × DrawingStateManager :=
  match m.roomStates.get? roomId with
  | none => (RedoResult.failure "Room not found", m)
  | some state =>
    if state.historyIndex ≥ (state.history.length : Int) - 1 then
      (RedoResult.failure "Nothing to redo", m)
    else
      let state1 := { state with historyIndex := state.historyIndex + 1 }
      let redoneStroke := jsIndex state1.history state1.historyIndex
      let state2 := { state1 with lastModified := now }
      (RedoResult.success state2.historyIndex redoneStroke,
        { roomStates := m.roomStates.set roomId state2 })

/-- The method `getHistory(roomId)`. -/
def getHistory (m : DrawingStateManager) (roomId : String) : List Entry :=
  match m.roomStates.get? roomId with
  | none => []
  | some state => jsSlice state.history 0 (state.historyIndex + 1)

/-- The method `getHistoryIndex(roomId)`. -/
def getHistoryIndex (m : DrawingStateManager) (roomId : String) : Int :=
  match m.roomStates.get? roomId with
  | none => -1
  | some state => state.historyIndex

/-- The method `clearHistory(roomId)`. -/
def clearHistory (m : DrawingStateManager) (roomId : String) (now : Nat) :
    DrawingStateManager :=
  match m.roomStates.get? roomId with
  | none => m
  | some state =>
    { roomStates := m.roomStates.set roomId
        { state with history := [], historyIndex := -1, lastModified := now } }

/-- The method `deleteRoom(roomId)`. -/
def deleteRoom (m : DrawingStateManager) (roomId : String) : DrawingStateManager :=
  { roomStates := m.roomStates.delete roomId }

end DrawingStateManager

/-! ## `rooms.js` -/

/-- The object `userData` built by the `join_room` handler. The field `color` is the array
read `USER_COLORS[colorIndex]`; `none` stands for `undefined`. -/
structure UserData where
  id : String
  username : String
  color : Option String
  cursorPosition : Point
  deriving DecidableEq, Repr

/-- A member record `{...userData, joinedAt: Date.now()}` of `room.users`. -/
structure Member extends UserData where
  joinedAt : Nat
  deriving DecidableEq, Repr

/-- A room object `{id, users, createdAt}`. -/
structure Room where
  id : String
  users : JsMap String Member
  createdAt : Nat
  deriving DecidableEq, Repr

/-- The class `RoomManager`: its `rooms` map. -/
structure RoomManager where
  rooms : JsMap String Room
  deriving DecidableEq, Repr

namespace RoomManager

/-- The constructor: an empty `rooms`. -/
def new : RoomManager := { rooms := [] }

/-- The method `createRoom(roomId)`; the first component is the returned room. -/
def createRoom (m : RoomManager) (roomId : String) (now : Nat) : Option Room × RoomManager :=
  let m1 : RoomManager :=
    if !(m.rooms.has roomId) then
      { rooms := m.rooms.set roomId { id := roomId, users := [], createdAt := now } }
    else m
  (m1.rooms.get? roomId, m1)

/-- The method `roomExists(roomId)`. -/
def roomExists (m : RoomManager) (roomId : String) : Bool := m.rooms.has roomId

/-- The method `addUserToRoom(roomId, userData)`. -/
def addUserToRoom (m : RoomManager) (roomId : String) (userData : UserData) (now : Nat) :
    RoomManager :=
  match m.rooms.get? roomId with
  | none => m
  | some room =>
    let member : Member := { toUserData := userData, joinedAt := now }
    let room1 : Room := { room with users := room.users.set userData.id member }
    { rooms := m.rooms.set roomId room1 }

/-- The method `removeUserFromRoom(roomId, userId)`. -/
def removeUserFromRoom (m : RoomManager) (roomId userId : String) : RoomManager :=
  match m.rooms.get? roomId with
  | none => m
  | some room =>
    let room1 : Room := { room with users := room.users.delete userId }
    { rooms := m.rooms.set roomId room1 }

/-- The method `updateUserCursor(roomId, userId, position)`. -/
def updateUserCursor (m : RoomManager) (roomId userId : String) (position : Point) :
    RoomManager :=
  match m.rooms.get? roomId with
  | none => m
  | some room =>
    match room.users.get? userId with
    | none => m
    | some user =>
      let user1 : Member := { user with cursorPosition := position }
      let room1 : Room := { room with users := room.users.set userId user1 }
      { rooms := m.rooms.set roomId room1 }

/-- The method `getRoomUsers(roomId)`. -/
def getRoomUsers (m : RoomManager) (roomId : String) : List Member :=
  match m.rooms.get? roomId with
  | none => []
  | some room => room.users.values

/-- The method `getUser(roomId, userId)`; `none` stands for both `undefined` and `null`. -/
def getUser (m : RoomManager) (roomId userId : String) : Option Member :=
  match m.rooms.get? roomId with
  | none => none
  | some room => room.users.get? userId

/-- The method `deleteRoom(roomId)`. -/
def deleteRoom (m : RoomManager) (roomId : String) : RoomManager :=
  { rooms := m.rooms.delete roomId }

/-- The method `getAllRooms()`. -/
def getAllRooms (m : RoomManager) : List String := m.rooms.keys

end RoomManager

/-! ## `server.js` -/

/-- The palette `USER_COLORS`. -/
def USER_COLORS : List String :=
  ["#FF6B6B", "#4ECDC4", "#45B7D1", "#96CEB4", "#FFEAA7",
   "#DDA0DD", "#98D8C8", "#F7DC6F", "#BB8FCE", "#85C1E9",
   "#F8B500", "#00CED1", "#FF69B4", "#32CD32", "#FF4500"]

/-- The events a client sends on its socket, with their payloads. An absent `roomId` or
`username` of `join_room` is `none`. -/
inductive ClientEvent where
  | join_room (roomId username : Option String)
  | drawing_start (id : String) (point : Point) (color : String) (width : Nat) (tool : String)
  | drawing_step (strokeId : String) (point : Point)
  | drawing_end (strokeId : String) (points : List Point) (color : String) (width : Nat)
      (tool : String)
  | cursor_move (position : Point)
  | undo_request
  | redo_request
  | clear_canvas
  | disconnect
  deriving DecidableEq, Repr

/-- The messages the server emits, with their payloads. -/
inductive ServerMsg where
  | room_joined (roomId : String) (user : UserData) (users : List Member)
      (drawingHistory : List Entry) (historyIndex : Int)
  | user_joined (user : UserData) (users : List Member)
  | drawing_start (strokeData : Stroke)
  | drawing_step (strokeId userId : String) (point : Point)
  | stroke_complete (stroke : Stroke) (historyIndex : Int)
  | cursor_update (userId username : String) (color : Option String) (position : Point)
  | undo_performed (initiatedBy : String) (historyIndex : Int) (undoneStroke : Option Entry)
  | undo_failed (reason : String)
  | redo_performed (initiatedBy : String) (historyIndex : Int) (redoneStroke : Option Entry)
  | redo_failed (reason : String)
  | canvas_cleared (initiatedBy : String) (timestamp : Nat) (historyIndex : Int)
  | user_left (userId username : String) (users : List Member)
  deriving DecidableEq, Repr

/-- The addressee of an emit: `socket.emit`, `socket.to(room).emit` and `io.to(room).emit`. -/
inductive Target where
  | socket (socketId : String)
  | roomExcept (roomId socketId : String)
  | room (roomId : String)
  deriving DecidableEq, Repr

/-- The closure variables `currentRoom` and `userData` of one connection; `none` is `null`. -/
structure ConnState where
  currentRoom : Option String
  userData : Option UserData
  deriving DecidableEq, Repr

/-- The whole server: the two managers, the closure of every connection keyed by socket id,
the transport rooms each socket was put in by `socket.join`, and the emitted messages in
order. -/
structure ServerState where
  roomManager : RoomManager
  drawingStateManager : DrawingStateManager
  conns : JsMap String ConnState
  adapterRooms : List (String × String)
  outbox : List (Target × ServerMsg)
  deriving DecidableEq, Repr

namespace ServerState

/-- The server right after start: no room, no ledger, no connection, nothing sent. -/
def empty : ServerState :=
  { roomManager := RoomManager.new, drawingStateManager := DrawingStateManager.new,
    conns := [], adapterRooms := [], outbox := [] }

/-- The closure of a connection; a socket that has run no handler yet holds the initial
`currentRoom = null`, `userData = null`. -/
def conn (s : ServerState) (socketId : String) : ConnState :=
  (s.conns.get? socketId).getD { currentRoom := none, userData := none }

/-- Append one emitted message. -/
def emit (s : ServerState) (target : Target) (msg : ServerMsg) : ServerState :=
  { s with outbox := s.outbox ++ [(target, msg)] }

end ServerState

/-- Truthiness of `currentRoom`: `null` and the empty string are falsy. -/
def truthy (room : Option String) : Bool :=
  match room with
  | none => false
  | some r => decide (r ≠ "")

/-- The call `socket.join(room)` on the transport: membership is a set. -/
def adapterJoin (rooms : List (String × String)) (roomId socketId : String) :
    List (String × String) :=
  if (roomId, socketId) ∈ rooms then rooms else rooms ++ [(roomId, socketId)]

/-- The handler of `join_room`. -/
def onJoinRoom (s : ServerState) (socketId : String) (roomId username : Option String)
    (now : Nat) : ServerState :=
  let currentRoom := jsOr roomId "default"
  let created : RoomManager × DrawingStateManager :=
    if !(s.roomManager.roomExists currentRoom) then
      ((s.roomManager.createRoom currentRoom now).2,
        s.drawingStateManager.initializeRoom currentRoom now)
    else (s.roomManager, s.drawingStateManager)
  let roomUsers := created.1.getRoomUsers currentRoom
  let colorIndex := roomUsers.length % USER_COLORS.length
  let userData : UserData :=
    { id := socketId,
      username := jsOr username ("User_" ++ socketId.take 4),
      color := USER_COLORS.get? colorIndex,
      cursorPosition := { x := 0, y := 0 } }
  let adapter := adapterJoin s.adapterRooms currentRoom socketId
  let rm := created.1.addUserToRoom currentRoom userData now
  let s1 : ServerState :=
    { roomManager := rm, drawingStateManager := created.2,
      conns := s.conns.set socketId { currentRoom := some currentRoom, userData := some userData },
      adapterRooms := adapter, outbox := s.outbox }
  let s2 := s1.emit (Target.socket socketId)
    (ServerMsg.room_joined currentRoom userData (rm.getRoomUsers currentRoom)
      (created.2.getHistory currentRoom) (created.2.getHistoryIndex currentRoom))
  s2.emit (Target.roomExcept currentRoom socketId)
    (ServerMsg.user_joined userData (rm.getRoomUsers currentRoom))

/-- The handler of `drawing_start`. -/
def onDrawingStart (s : ServerState) (socketId : String) (id : String) (point : Point)
    (color : String) (width : Nat) (tool : String) (now : Nat) : ServerState :=
  match (s.conn socketId).currentRoom, (s.conn socketId).userData with
  | some currentRoom, some userData =>
    if !(truthy (some currentRoom)) then s
    else
      let strokeData : Stroke :=
        { id := id, userId := socketId, username := userData.username,
          userColor := userData.color, points := [point], color := color, width := width,
          tool := tool, timestamp := now }
      s.emit (Target.roomExcept currentRoom socketId)
        (ServerMsg.drawing_start { strokeData with userId := socketId })
  | _, _ => s

/-- The handler of `drawing_step`. -/
def onDrawingStep (s : ServerState) (socketId : String) (strokeId : String) (point : Point) :
    ServerState :=
  match (s.conn socketId).currentRoom, (s.conn socketId).userData with
  | some currentRoom, some _ =>
    if !(truthy (some currentRoom)) then s
    else
      s.emit (Target.roomExcept currentRoom socketId)
        (ServerMsg.drawing_step strokeId socketId point)
  | _, _ => s

/-- The handler of `drawing_end`. -/
def onDrawingEnd (s : ServerState) (socketId : String) (strokeId : String)
    (points : List Point) (color : String) (width : Nat) (tool : String) (now : Nat) :
    ServerState :=
  match (s.conn socketId).currentRoom, (s.conn socketId).userData with
  | some currentRoom, some userData =>
    if !(truthy (some currentRoom)) then s
    else
      let completeStroke : Stroke :=
        { id := strokeId, userId := socketId, username := userData.username,
          userColor := userData.color, points := points, color := color, width := width,
          tool := tool, timestamp := now }
      let dsm := (s.drawingStateManager.addStroke currentRoom completeStroke now).2
      let s1 := { s with drawingStateManager := dsm }
      s1.emit (Target.room currentRoom)
        (ServerMsg.stroke_complete completeStroke (dsm.getHistoryIndex currentRoom))
  | _, _ => s

/-- The handler of `cursor_move`. -/
def onCursorMove (s : ServerState) (socketId : String) (position : Point) : ServerState :=
  match (s.conn socketId).currentRoom, (s.conn socketId).userData with
  | some currentRoom, some userData =>
    if !(truthy (some currentRoom)) then s
    else
      let userData1 := { userData with cursorPosition := position }
      let s1 : ServerState :=
        { s with
          conns := s.conns.set socketId
            { currentRoom := some currentRoom, userData := some userData1 },
          roomManager := s.roomManager.updateUserCursor currentRoom socketId position }
      s1.emit (Target.roomExcept currentRoom socketId)
        (ServerMsg.cursor_update socketId userData1.username userData1.color position)
  | _, _ => s

/-- The handler of `undo_request`. It guards on `currentRoom` only; reading
`userData.username` from a `null` identity throws, which is the result `none`. -/
def onUndoRequest (s : ServerState) (socketId : String) (now : Nat) : Option ServerState :=
  match (s.conn socketId).currentRoom with
  | none => some s
  | some currentRoom =>
    if !(truthy (some currentRoom)) then some s
    else
      let result := s.drawingStateManager.undo currentRoom now
      let s1 := { s with drawingStateManager := result.2 }
      match result.1 with
      | UndoResult.success historyIndex undoneStroke =>
        match (s.conn socketId).userData with
        | none => none
        | some userData =>
          some (s1.emit (Target.room currentRoom)
            (ServerMsg.undo_performed userData.username historyIndex undoneStroke))
      | UndoResult.failure _ =>
        some (s1.emit (Target.socket socketId) (ServerMsg.undo_failed "Nothing to undo"))

/-- The handler of `redo_request`, with the same guard as `undo_request`. -/
def onRedoRequest (s : ServerState) (socketId : String) (now : Nat) : Option ServerState :=
  match (s.conn socketId).currentRoom with
  | none => some s
  | some currentRoom =>
    if !(truthy (some currentRoom)) then some s
    else
      let result := s.drawingStateManager.redo currentRoom now
      let s1 := { s with drawingStateManager := result.2 }
      match result.1 with
      | RedoResult.success historyIndex redoneStroke =>
        match (s.conn socketId).userData with
        | none => none
        | some userData =>
          some (s1.emit (Target.room currentRoom)
            (ServerMsg.redo_performed userData.username historyIndex redoneStroke))
      | RedoResult.failure _ =>
        some (s1.emit (Target.socket socketId) (ServerMsg.redo_failed "Nothing to redo"))

/-- The handler of `clear_canvas`. -/
def onClearCanvas (s : ServerState) (socketId : String) (now : Nat) : ServerState :=
  match (s.conn socketId).currentRoom, (s.conn socketId).userData with
  | some currentRoom, some userData =>
    if !(truthy (some currentRoom)) then s
    else
      let s1 := { s with drawingStateManager := s.drawingStateManager.clearHistory currentRoom now }
      s1.emit (Target.room currentRoom)
        (ServerMsg.canvas_cleared userData.username now (-1))
  | _, _ => s

/-- The handler of `disconnect`. The transport has taken the socket out of every transport
room before the handler runs. -/
def onDisconnect (s : ServerState) (socketId : String) : ServerState :=
  let s0 := { s with adapterRooms := s.adapterRooms.filter (fun p => decide (p.2 ≠ socketId)) }
  match (s0.conn socketId).currentRoom, (s0.conn socketId).userData with
  | some currentRoom, some userData =>
    if !(truthy (some currentRoom)) then s0
    else
      let rm := s0.roomManager.removeUserFromRoom currentRoom socketId
      let s1 := { s0 with roomManager := rm }
      let s2 := s1.emit (Target.roomExcept currentRoom socketId)
        (ServerMsg.user_left socketId userData.username (rm.getRoomUsers currentRoom))
      if (rm.getRoomUsers currentRoom).length = 0 then
        { s2 with roomManager := rm.deleteRoom currentRoom,
                  drawingStateManager := s2.drawingStateManager.deleteRoom currentRoom }
      else s2
  | _, _ => s0

/-- Dispatch one client event of connection `socketId` to its handler; `none` is a handler
that threw. -/
def handle (s : ServerState) (socketId : String) (ev : ClientEvent) (now : Nat) :
    Option ServerState :=
  match ev with
  | ClientEvent.join_room roomId username => some (onJoinRoom s socketId roomId username now)
  | ClientEvent.drawing_start id point color width tool =>
    some (onDrawingStart s socketId id point color width tool now)
  | ClientEvent.drawing_step strokeId point => some (onDrawingStep s socketId strokeId point)
  | ClientEvent.drawing_end strokeId points color width tool =>
    some (onDrawingEnd s socketId strokeId points color width tool now)
  | ClientEvent.cursor_move position => some (onCursorMove s socketId position)
  | ClientEvent.undo_request => onUndoRequest s socketId now
  | ClientEvent.redo_request => onRedoRequest s socketId now
  | ClientEvent.clear_canvas => some (onClearCanvas s socketId now)
  | ClientEvent.disconnect => some (onDisconnect s socketId)

/-- One input of the server: which connection, which event, and the clock reading. -/
structure Input where
  socketId : String
  event : ClientEvent
  now : Nat
  deriving DecidableEq, Repr

/-- Process the inputs in arrival order, one handler to completion after the other. -/
def run : ServerState → List Input → Option ServerState
  | s, [] => some s
  | s, i :: rest =>
    match handle s i.socketId i.event i.now with
    | none => none
    | some s1 => run s1 rest

/-! ## Predicates and call sequences used by the claims -/

/-- Ledger well-formedness: `-1 <= historyIndex < history.length <= 500`. -/
def RoomState.WellFormed (state : RoomState) : Prop :=
  -1 ≤ state.historyIndex ∧ state.historyIndex < (state.history.length : Int) ∧
    state.history.length ≤ MAX_HISTORY_LENGTH

instance (state : RoomState) : Decidable state.WellFormed := by
  unfold RoomState.WellFormed; infer_instance

/-- The room exists in the manager and its ledger is well-formed. -/
def DrawingStateManager.RoomWellFormed (m : DrawingStateManager) (roomId : String) : Prop :=
  match m.roomStates.get? roomId with
  | none => False
  | some state => state.WellFormed

instance (m : DrawingStateManager) (roomId : String) : Decidable (m.RoomWellFormed roomId) := by
  unfold DrawingStateManager.RoomWellFormed
  split <;> infer_instance

/-- Constructor of a history entry from a stroke and the clock reading of its append. -/
def mkEntry (p : Stroke × Nat) : Entry := { toStroke := p.1, addedAt := p.2 }

/-- A run of `addStroke` calls on one room, with nothing in between. -/
def addStrokes (m : DrawingStateManager) (roomId : String) (l : List (Stroke × Nat)) :
    DrawingStateManager :=
  l.foldl (fun acc p => (acc.addStroke roomId p.1 p.2).2) m

/-- A run of `n` calls of `redo` on one room. -/
def redoTimes (m : DrawingStateManager) (roomId : String) (now : Nat) : Nat → DrawingStateManager
  | 0 => m
  | n + 1 => redoTimes (m.redo roomId now).2 roomId now n

/-- One call of the undo/redo pair. -/
inductive HistoryOp where
  | undo
  | redo
  deriving DecidableEq, Repr

/-- A run of `undo` and `redo` calls on one room, in order. -/
def applyOps (m : DrawingStateManager) (roomId : String) (now : Nat) :
    List HistoryOp → DrawingStateManager
  | [] => m
  | HistoryOp.undo :: rest => applyOps (m.undo roomId now).2 roomId now rest
  | HistoryOp.redo :: rest => applyOps (m.redo roomId now).2 roomId now rest

/-- The identity a `join_room` event of `socketId` gets in state `s`, with the colour index
counted on the members the directory reports before the handler runs. -/
def joinUserData (s : ServerState) (socketId : String) (roomId username : Option String) :
    UserData :=
  { id := socketId,
    username := jsOr username ("User_" ++ socketId.take 4),
    color := USER_COLORS.get?
      ((s.roomManager.getRoomUsers (jsOr roomId "default")).length % USER_COLORS.length),
    cursorPosition := { x := 0, y := 0 } }

/-- The events of the claim on later traffic: `join_room` and `disconnect`. -/
def Input.isJoinOrDisconnect (i : Input) : Bool :=
  match i.event with
  | ClientEvent.join_room _ _ => true
  | ClientEvent.disconnect => true
  | _ => false

/-! ## Sample data -/

/-- Sample traffic after a join of `sock-A`: `sock-B` joins `r1` and leaves again, and
`sock-C` joins `r1`. -/
def sampleLater : List Input :=
  [{ socketId := "sock-B", event := ClientEvent.join_room (some "r1") (some "bob"), now := 2 },
   { socketId := "sock-B", event := ClientEvent.disconnect, now := 3 },
   { socketId := "sock-C", event := ClientEvent.join_room (some "r1") none, now := 4 }]

/-- A sample stroke with the given id. -/
def sampleStroke (id : String) : Stroke :=
  { id := id, userId := "sock-A", username := "ann", userColor := some "#FF6B6B",
    points := [{ x := 0, y := 0 }, { x := 3, y := 4 }], color := "#000000", width := 2,
    tool := "brush", timestamp := 10 }

/-- A sample room object: two entries, the second one undone. -/
def sampleRoomState : RoomState :=
  { history := [mkEntry (sampleStroke "s1", 11), mkEntry (sampleStroke "s2", 12)],
    historyIndex := 0, createdAt := 1, lastModified := 13 }

/-- A sample manager holding `sampleRoomState` as room `r1`. -/
def sampleManager : DrawingStateManager := { roomStates := [("r1", sampleRoomState)] }

/-! ## Reachable states and their invariant -/

/-- The sockets an emit reaches, by the transport rooms that `socket.join` filled:
`socket.emit` reaches the socket itself, `io.to(room)` every socket in the room,
`socket.to(room)` every socket in the room but the sender. The room that the transport
keeps for every socket under the socket's own id is not part of `adapterRooms`, so for a room
id that equals a socket id the result is a lower bound of the receivers. -/
def recipients (adapterRooms : List (String × String)) : Target → List String
  | Target.socket socketId => [socketId]
  | Target.roomExcept roomId socketId =>
    (adapterRooms.filter (fun p => decide (p.1 = roomId ∧ p.2 ≠ socketId))).map Prod.snd
  | Target.room roomId =>
    (adapterRooms.filter (fun p => decide (p.1 = roomId))).map Prod.snd

/-- The states the server reaches from its start through a sequence of client inputs. -/
def Reachable (s : ServerState) : Prop :=
  ∃ inputs : List Input, run ServerState.empty inputs = some s

/-- Every member record of every room is stored under its own socket id. -/
def RoomManager.IdsOk (rm : RoomManager) : Prop :=
  ∀ r room, rm.rooms.get? r = some room → ∀ p ∈ room.users, p.2.id = p.1

/-- A step of the ledger registry that neither makes nor deletes a room and keeps the
ledgers well-formed. -/
def LedgerStep (m m1 : DrawingStateManager) : Prop :=
  (∀ q, m1.roomStates.has q = m.roomStates.has q) ∧
  ((∀ q x, m.roomStates.get? q = some x → x.WellFormed) →
    ∀ q x, m1.roomStates.get? q = some x → x.WellFormed)

/-- The facts that hold in every reachable state. -/
structure Inv (s : ServerState) : Prop where
  /-- A room id is in the directory exactly when it is in the ledger registry. -/
  lock : ∀ r, s.roomManager.rooms.has r = s.drawingStateManager.roomStates.has r
  /-- Every ledger is well-formed. -/
  wf : ∀ r st, s.drawingStateManager.roomStates.get? r = some st → st.WellFormed
  /-- A member of some room is a connection that has joined. -/
  members : ∀ r u, s.roomManager.getUser r u ≠ none → (s.conn u).currentRoom ≠ none
  /-- A member record is stored under its own socket id. -/
  ids : s.roomManager.IdsOk
  /-- A connection with `currentRoom` set has a non-empty room id and its identity set. -/
  joined : ∀ u r, (s.conn u).currentRoom = some r →
    r ≠ "" ∧ ∃ ud, (s.conn u).userData = some ud ∧ ud.id = u
  /-- A member of its current room is in the transport room of that id. -/
  adapter : ∀ u r, (s.conn u).currentRoom = some r → s.roomManager.getUser r u ≠ none →
    (r, u) ∈ s.adapterRooms

/-- The member map of a room is a map: no key twice, every record under its own id. -/
def Room.UsersWF (room : Room) : Prop :=
  (JsMap.keys room.users).Nodup ∧ ∀ p ∈ room.users, p.2.id = p.1

/-- A sample room object: `r1` with the member `sock-A`. -/
def sampleRoom : Room :=
  { id := "r1",
    users := [("sock-A",
      { id := "sock-A", username := "ann", color := some "#FF6B6B",
        cursorPosition := { x := 0, y := 0 }, joinedAt := 1 })],
    createdAt := 1 }

/-- A sample directory holding `sampleRoom` as room `r1`. -/
def sampleDirectory : RoomManager := { rooms := [("r1", sampleRoom)] }

/-- A sample identity for a second connection `sock-B`. -/
def sampleUserB : UserData :=
  { id := "sock-B", username := "bob", color := some "#4ECDC4",
    cursorPosition := { x := 0, y := 0 } }

/-- The guard `currentRoom && userData` of the handlers. -/
def ConnState.isJoined (c : ConnState) : Bool :=
  truthy c.currentRoom && c.userData.isSome

/-- Sample traffic: `sock-A` and `sock-B` join room `r1` and `sock-A` commits stroke `S1`. -/
def sampleInputs : List Input :=
  [{ socketId := "sock-A", event := ClientEvent.join_room (some "r1") (some "ann"), now := 1 },
   { socketId := "sock-B", event := ClientEvent.join_room (some "r1") (some "bob"), now := 2 },
   { socketId := "sock-A",
     event := ClientEvent.drawing_end "S1" [{ x := 0, y := 0 }, { x := 3, y := 4 }] "#000000"
       2 "brush",
     now := 3 }]

/-- The server state after `sampleInputs`. -/
def sampleServer : ServerState :=
  (run ServerState.empty sampleInputs).getD ServerState.empty

/-- The server state after `sampleInputs` and the disconnect of `sock-B`: `sock-A` is the
last member of `r1`, whose ledger holds `S1`. -/
def sampleLastMember : ServerState :=
  (run sampleServer
    [{ socketId := "sock-B", event := ClientEvent.disconnect, now := 4 }]).getD
    ServerState.empty

/-- The stroke `S1` that `sock-A` commits in `sampleInputs`. -/
def sampleS1 : Stroke :=
  { id := "S1", userId := "sock-A", username := "ann", userColor := some "#FF6B6B",
    points := [{ x := 0, y := 0 }, { x := 3, y := 4 }], color := "#000000", width := 2,
    tool := "brush", timestamp := 3 }

/-- Room `r2` is the same in `m1` as in `m`: the same room object or none in both, hence
the same `getHistory`, `getHistoryIndex` and existence. -/
def RoomUntouched (m m1 : DrawingStateManager) (r2 : String) : Prop :=
  m1.roomStates.get? r2 = m.roomStates.get? r2 ∧
  m1.getHistory r2 = m.getHistory r2 ∧
  m1.getHistoryIndex r2 = m.getHistoryIndex r2 ∧
  m1.roomStates.has r2 = m.roomStates.has r2

/-- The events that touch neither the room directory nor a connection closure. -/
def ClientEvent.isLedgerOnly (ev : ClientEvent) : Bool :=
  match ev with
  | ClientEvent.join_room _ _ => false
  | ClientEvent.cursor_move _ => false
  | ClientEvent.disconnect => false
  | _ => true

/-- Connection `sid` is a member of the room its `currentRoom` names, if set. -/
def MemberOfCurrent (s : ServerState) (sid : String) : Prop :=
  ∀ r, (s.conn sid).currentRoom = some r → s.roomManager.getUser r sid ≠ none

/-! ## `client/canvas.js` and the message wiring of `client/main.js` -/

/-- A stroke object in the client's `strokes` list: a completed stroke as `stroke_complete`
carries it has no `addedAt`, a history entry of a snapshot or a redo has one. -/
structure CanvasStroke extends Stroke where
  addedAt : Option Nat
  deriving DecidableEq, Repr

/-- The stroke object of a `stroke_complete` message, as the client stores it. -/
def CanvasStroke.ofStroke (stroke : Stroke) : CanvasStroke :=
  { toStroke := stroke, addedAt := none }

/-- A history entry of the server, as the client stores it. -/
def CanvasStroke.ofEntry (e : Entry) : CanvasStroke :=
  { toStroke := e.toStroke, addedAt := some e.addedAt }

/-- An in-flight stroke of another user, a value of `remoteStrokes`. -/
structure RemoteStroke where
  id : String
  userId : String
  points : List Point
  color : String
  width : Nat
  tool : String
  deriving DecidableEq, Repr

/-- The stroke being drawn locally, `currentStroke`. -/
structure LocalStroke where
  id : String
  points : List Point
  color : String
  width : Nat
  tool : String
  deriving DecidableEq, Repr

/-- The class `CanvasManager`: the fields its stroke bookkeeping reads and writes. The
canvases and their contexts, the tool settings and the animation frame serve the rendering
only. An element `none` of `strokes` is an `undefined` that `handleRedo` pushed. -/
structure CanvasManager where
  strokes : List (Option CanvasStroke)
  remoteStrokes : JsMap String RemoteStroke
  isDrawing : Bool
  currentStroke : Option LocalStroke
  pendingPoints : List Point
  lastPoint : Option Point
  deriving DecidableEq, Repr

namespace CanvasManager

/-- The constructor: no stroke, no remote stroke, not drawing. -/
def new : CanvasManager :=
  { strokes := [], remoteStrokes := [], isDrawing := false, currentStroke := none,
    pendingPoints := [], lastPoint := none }

/-- The method `setStrokes(strokes)`. -/
def setStrokes (c : CanvasManager) (strokes : List (Option CanvasStroke)) : CanvasManager :=
  { c with strokes := strokes }

/-- The method `addStroke(stroke)` of the client. -/
def addStroke (c : CanvasManager) (stroke : Option CanvasStroke) : CanvasManager :=
  { c with strokes := c.strokes ++ [stroke] }

/-- The method `handleUndo(historyIndex)`. -/
def handleUndo (c : CanvasManager) (historyIndex : Int) : CanvasManager :=
  { c with strokes := jsSlice c.strokes 0 (historyIndex + 1) }

/-- The method `handleRedo(stroke)`. -/
def handleRedo (c : CanvasManager) (stroke : Option CanvasStroke) : CanvasManager :=
  { c with strokes := c.strokes ++ [stroke] }

/-- The method `clearAll()`. -/
def clearAll (c : CanvasManager) : CanvasManager :=
  let c1 := if c.isDrawing then { c with isDrawing := false } else c
  { c1 with strokes := [], remoteStrokes := [], currentStroke := none, pendingPoints := [],
            lastPoint := none }

/-- The method `remoteStrokeStart(data)` on the payload of a `drawing_start` message, whose
`points` is an array and so taken as it is. -/
def remoteStrokeStart (c : CanvasManager) (data : Stroke) : CanvasManager :=
  let remote : RemoteStroke :=
    { id := data.id, userId := data.userId, points := data.points, color := data.color,
      width := data.width, tool := data.tool }
  { c with remoteStrokes := c.remoteStrokes.set data.id remote }

/-- The method `remoteStrokeStep(data)`. -/
def remoteStrokeStep (c : CanvasManager) (strokeId : String) (point : Point) : CanvasManager :=
  match c.remoteStrokes.get? strokeId with
  | none => c
  | some stroke =>
    let stroke1 : RemoteStroke := { stroke with points := stroke.points ++ [point] }
    { c with remoteStrokes := c.remoteStrokes.set strokeId stroke1 }

/-- The method `remoteStrokeComplete(stroke)`. -/
def remoteStrokeComplete (c : CanvasManager) (stroke : Stroke) : CanvasManager :=
  { c with remoteStrokes := c.remoteStrokes.delete stroke.id,
           strokes := c.strokes ++ [some (CanvasStroke.ofStroke stroke)] }

end CanvasManager

/-- The callbacks that `main.js` wires to the server messages, as far as they call the
canvas; the messages `user_joined`, `user_left`, `cursor_update`, `undo_failed` and
`redo_failed` reach the user interface only. -/
def clientReceive (c : CanvasManager) : ServerMsg → CanvasManager
  | ServerMsg.room_joined _ _ _ drawingHistory _ =>
    if drawingHistory.length > 0 then
      c.setStrokes (drawingHistory.map (fun e => some (CanvasStroke.ofEntry e)))
    else c
  | ServerMsg.drawing_start strokeData => c.remoteStrokeStart strokeData
  | ServerMsg.drawing_step strokeId _ point => c.remoteStrokeStep strokeId point
  | ServerMsg.stroke_complete stroke _ => c.remoteStrokeComplete stroke
  | ServerMsg.undo_performed _ historyIndex _ => c.handleUndo historyIndex
  | ServerMsg.redo_performed _ _ redoneStroke =>
    c.handleRedo (redoneStroke.map CanvasStroke.ofEntry)
  | ServerMsg.canvas_cleared _ _ _ => c.clearAll
  | _ => c

/-- Hand the client behind socket `cid` the emitted messages that reach it, in order. -/
def deliverTo (cid : String) (adapterRooms : List (String × String)) (c : CanvasManager)
    (msgs : List (Target × ServerMsg)) : CanvasManager :=
  msgs.foldl
    (fun acc p => if cid ∈ recipients adapterRooms p.1 then clientReceive acc p.2 else acc) c

/-- One input of the server together with the client behind socket `cid`: the handler
runs, and the messages it emitted are delivered by the transport rooms it left. -/
def coStep (cid : String) (sc : ServerState × CanvasManager) (i : Input) :
    Option (ServerState × CanvasManager) :=
  match handle sc.1 i.socketId i.event i.now with
  | none => none
  | some s1 =>
    some (s1, deliverTo cid s1.adapterRooms sc.2 (s1.outbox.drop sc.1.outbox.length))

/-- The server and the client behind socket `cid` over a sequence of inputs. -/
def coRun (cid : String) : ServerState × CanvasManager → List Input →
    Option (ServerState × CanvasManager)
  | sc, [] => some sc
  | sc, i :: rest =>
    match coStep cid sc i with
    | none => none
    | some sc1 => coRun cid sc1 rest

/-- The stroke ids of the client's `strokes` list, in order. -/
def clientIds (c : CanvasManager) : List (Option String) :=
  c.strokes.map (fun x => x.map (fun st => st.id))

/-- The stroke ids of the server's `getHistory` for a room, in order. -/
def serverIds (s : ServerState) (r : String) : List (Option String) :=
  (s.drawingStateManager.getHistory r).map (fun e => some e.id)

/-- The payload of one `drawing_end` event with the clock reading of its handling. -/
structure DrawPayload where
  strokeId : String
  points : List Point
  color : String
  width : Nat
  tool : String
  now : Nat
  deriving DecidableEq, Repr

/-- The `drawing_end` input of socket `cid` with the given payload. -/
def DrawPayload.toInput (cid : String) (p : DrawPayload) : Input :=
  { socketId := cid,
    event := ClientEvent.drawing_end p.strokeId p.points p.color p.width p.tool,
    now := p.now }

/-- The stroke the `drawing_end` handler builds from a payload and the sender's identity,
with the clock reading of its append. -/
def DrawPayload.toStroke (cid : String) (ud : UserData) (p : DrawPayload) : Stroke × Nat :=
  ({ id := p.strokeId, userId := cid, username := ud.username, userColor := ud.color,
     points := p.points, color := p.color, width := p.width, tool := p.tool,
     timestamp := p.now }, p.now)

/-- The traffic that overflows the ledger: 501 strokes with the ids `0` to `500`. -/
def overflowPayloads : List DrawPayload :=
  (List.range 501).map (fun (k : Nat) =>
    { strokeId := toString k, points := [{ x := Int.ofNat k, y := Int.ofNat k }],
      color := "#000000", width := 2, tool := "brush", now := k + 2 })

/-- The failing input: `sock-A` joins room `r1` and commits the 501 strokes. -/
def overflowInputs : List Input :=
  { socketId := "sock-A", event := ClientEvent.join_room (some "r1") (some "ann"), now := 1 }
    :: overflowPayloads.map (DrawPayload.toInput "sock-A")

/-- The input after the failing input: `sock-A` requests one undo. -/
def overflowUndo : Input :=
  { socketId := "sock-A", event := ClientEvent.undo_request, now := 900 }

/-- The server state after `sampleLastMember` and a second `join_room` of `sock-A`, this
time for room `r2`. -/
def sampleRejoined : ServerState :=
  (run sampleLastMember
    [{ socketId := "sock-A", event := ClientEvent.join_room (some "r2") (some "ann"),
       now := 5 }]).getD ServerState.empty

/-- The server state after `sampleRejoined` and the disconnect of `sock-A`. -/
def sampleRejoinedLeft : ServerState :=
  (run sampleRejoined
    [{ socketId := "sock-A", event := ClientEvent.disconnect, now := 6 }]).getD
    ServerState.empty

/-! ## Lemmas on the primitives -/

theorem jsMap_get_set_self {K V : Type} [DecidableEq K] (m : JsMap K V) (k : K) (v : V) :
    JsMap.get? (JsMap.set m k v) k = some v := by
  induction m with
  | nil => simp [JsMap.set, JsMap.get?]
  | cons hd tl ih =>
    obtain ⟨k1, v1⟩ := hd
    by_cases h : k1 = k
    · simp [JsMap.set, JsMap.get?, h]
    · simp [JsMap.set, JsMap.get?, h, ih]

theorem jsMap_get_set_other {K V : Type} [DecidableEq K] (m : JsMap K V) (k k2 : K) (v : V)
    (hne : k2 ≠ k) : JsMap.get? (JsMap.set m k v) k2 = JsMap.get? m k2 := by
  induction m with
  | nil =>
    have h : ¬ k = k2 := fun e => hne e.symm
    simp [JsMap.set, JsMap.get?, h]
  | cons hd tl ih =>
    obtain ⟨k1, v1⟩ := hd
    by_cases h : k1 = k
    · subst h
      have h2 : ¬ k1 = k2 := fun e => hne e.symm
      simp [JsMap.set, JsMap.get?, h2]
    · by_cases h3 : k1 = k2
      · subst h3
        simp [JsMap.set, JsMap.get?, hne]
      · simp [JsMap.set, JsMap.get?, h, h3, ih]

theorem jsSlice_zero_eq_take {α : Type} (xs : List α) (stop : Int) (h : 0 ≤ stop) :
    jsSlice xs 0 stop = xs.take stop.toNat := by
  unfold jsSlice jsSliceBound
  have h1 : ¬ stop < 0 := by omega
  simp only [h1, if_false, lt_irrefl, Int.toNat_zero, Nat.zero_min, List.drop_zero, Nat.sub_zero]
  by_cases hl : stop.toNat ≤ xs.length
  · rw [Nat.min_eq_left hl]
  · have hl2 : xs.length ≤ stop.toNat := by omega
    rw [Nat.min_eq_right hl2, List.take_of_length_le (le_refl _), List.take_of_length_le hl2]

theorem jsSliceFrom_eq_drop {α : Type} (xs : List α) (start : Int) (h : 0 ≤ start) :
    jsSliceFrom xs start = xs.drop start.toNat := by
  unfold jsSliceFrom jsSlice jsSliceBound
  have h1 : ¬ start < 0 := by omega
  have h2 : ¬ ((xs.length : Int) < 0) := by omega
  simp only [h1, h2, if_false, Int.toNat_ofNat, Nat.min_self]
  by_cases hl : start.toNat ≤ xs.length
  · rw [Nat.min_eq_left hl, List.take_of_length_le (by simp)]
  · have hl2 : xs.length ≤ start.toNat := by omega
    rw [Nat.min_eq_right hl2, List.drop_of_length_le (le_refl _),
      List.drop_of_length_le hl2]
    simp

/-! ## Lemmas on the ledger operations -/

open DrawingStateManager

theorem truncateFuture_history (state : RoomState) (h1 : -1 ≤ state.historyIndex)
    (h2 : state.historyIndex < (state.history.length : Int)) :
    (truncateFuture state).history = state.history.take (state.historyIndex + 1).toNat := by
  unfold truncateFuture
  split
  · simp only
    exact jsSlice_zero_eq_take _ _ (by omega)
  · rw [List.take_of_length_le]
    omega

theorem truncateFuture_rest (state : RoomState) :
    (truncateFuture state).historyIndex = state.historyIndex ∧
      (truncateFuture state).createdAt = state.createdAt := by
  unfold truncateFuture
  split <;> simp

theorem trimOld_history (state : RoomState) :
    (trimOld state).history = state.history.drop (state.history.length - MAX_HISTORY_LENGTH) := by
  unfold trimOld
  simp only [MAX_HISTORY_LENGTH]
  split
  · rename_i h
    simp only
    rw [jsSliceFrom_eq_drop _ _ (by omega)]
    have hk : ((state.history.length : Int) - ((500 : Nat) : Int)).toNat =
        state.history.length - 500 := by omega
    rw [hk]
  · rename_i h
    have h0 : state.history.length - 500 = 0 := by omega
    rw [h0, List.drop_zero]

theorem trimOld_index (state : RoomState) :
    (trimOld state).historyIndex =
      state.historyIndex -
        ((state.history.length - MAX_HISTORY_LENGTH : Nat) : Int) := by
  unfold trimOld
  simp only [MAX_HISTORY_LENGTH]
  split
  · rename_i h
    simp only
    omega
  · rename_i h
    have h0 : state.history.length - 500 = 0 := by omega
    rw [h0]
    simp

theorem addStrokeState_history (state : RoomState) (stroke : Stroke) (now : Nat)
    (h1 : -1 ≤ state.historyIndex)
    (h2 : state.historyIndex < (state.history.length : Int)) :
    (addStrokeState state stroke now).history =
      (state.history.take (state.historyIndex + 1).toNat ++ [mkEntry (stroke, now)]).drop
        ((state.historyIndex + 1).toNat + 1 - MAX_HISTORY_LENGTH) := by
  unfold addStrokeState
  rw [trimOld_history]
  simp only [pushStroke, truncateFuture_history state h1 h2, mkEntry, List.length_append,
    List.length_take, List.length_singleton, MAX_HISTORY_LENGTH]
  have hk : min (state.historyIndex + 1).toNat state.history.length + 1 - 500 =
      (state.historyIndex + 1).toNat + 1 - 500 := by omega
  rw [hk]

theorem addStrokeState_index (state : RoomState) (stroke : Stroke) (now : Nat) :
    (addStrokeState state stroke now).historyIndex =
      ((addStrokeState state stroke now).history.length : Int) - 1 := by
  unfold addStrokeState
  rw [trimOld_history, trimOld_index]
  simp only [pushStroke, List.length_append, List.length_singleton, List.length_drop,
    MAX_HISTORY_LENGTH]
  omega

theorem addStrokeState_length_le (state : RoomState) (stroke : Stroke) (now : Nat) :
    (addStrokeState state stroke now).history.length ≤ MAX_HISTORY_LENGTH ∧
      0 < (addStrokeState state stroke now).history.length := by
  unfold addStrokeState
  rw [trimOld_history]
  simp only [pushStroke, List.length_append, List.length_singleton, List.length_drop,
    MAX_HISTORY_LENGTH]
  omega

theorem addStrokeState_wellFormed (state : RoomState) (stroke : Stroke) (now : Nat) :
    (addStrokeState state stroke now).WellFormed := by
  have h1 := addStrokeState_index state stroke now
  have h2 := addStrokeState_length_le state stroke now
  unfold RoomState.WellFormed
  simp only [MAX_HISTORY_LENGTH] at h2 ⊢
  omega

theorem addStroke_of_get (m : DrawingStateManager) (roomId : String) (state : RoomState)
    (stroke : Stroke) (now : Nat) (hget : m.roomStates.get? roomId = some state) :
    m.addStroke roomId stroke now =
      (none, { roomStates := m.roomStates.set roomId (addStrokeState state stroke now) }) := by
  simp [addStroke, hget]

theorem roomWellFormed_iff (m : DrawingStateManager) (roomId : String) :
    m.RoomWellFormed roomId ↔
      ∃ state, m.roomStates.get? roomId = some state ∧ state.WellFormed := by
  unfold RoomWellFormed
  cases h : m.roomStates.get? roomId <;> simp

theorem addStrokeState_at_tip (state : RoomState) (stroke : Stroke) (now : Nat)
    (htip : state.historyIndex = (state.history.length : Int) - 1) :
    (addStrokeState state stroke now).history =
      (state.history ++ [mkEntry (stroke, now)]).drop
        (state.history.length + 1 - MAX_HISTORY_LENGTH) := by
  rw [addStrokeState_history state stroke now (by omega) (by omega)]
  have hk : (state.historyIndex + 1).toNat = state.history.length := by omega
  rw [hk, List.take_of_length_le (le_refl _)]

theorem drop_congr_count {α : Type} (l : List α) {n k : Nat} (h : n = k) :
    l.drop n = l.drop k := by rw [h]

theorem drop_window_step {α : Type} (h rest : List α) (e : α) (hlen : h.length ≤ 500) :
    ((h ++ [e]).drop (h.length + 1 - 500) ++ rest).drop
        (((h ++ [e]).drop (h.length + 1 - 500)).length + rest.length - 500) =
      (h ++ e :: rest).drop (h.length + (rest.length + 1) - 500) := by
  by_cases hlt : h.length < 500
  · have h0 : h.length + 1 - 500 = 0 := by omega
    rw [h0]
    simp only [List.drop_zero, List.length_append, List.length_singleton, List.append_assoc,
      List.singleton_append]
    apply drop_congr_count
    omega
  · have h1 : h.length + 1 - 500 = 1 := by omega
    rw [h1]
    have hl : ((h ++ [e]).drop 1).length = 500 := by
      simp only [List.length_drop, List.length_append, List.length_singleton]
      omega
    rw [hl]
    have h2 : 500 + rest.length - 500 = rest.length := by omega
    have h3 : h.length + (rest.length + 1) - 500 = rest.length + 1 := by omega
    rw [h2, h3]
    have h4 : (h ++ [e]).drop 1 ++ rest = (h ++ e :: rest).drop 1 := by
      cases h with
      | nil => simp at hlt
      | cons a tl => simp
    rw [h4, List.drop_drop]
    apply drop_congr_count
    omega

theorem addStrokes_from_tip (roomId : String) (l : List (Stroke × Nat)) :
    ∀ (m : DrawingStateManager) (state : RoomState),
      m.roomStates.get? roomId = some state →
      state.historyIndex = (state.history.length : Int) - 1 →
      state.history.length ≤ 500 →
      ∃ st, (addStrokes m roomId l).roomStates.get? roomId = some st ∧
        st.history = (state.history ++ l.map mkEntry).drop
          (state.history.length + l.length - 500) ∧
        st.historyIndex = (st.history.length : Int) - 1 := by
  induction l with
  | nil =>
    intro m state hget htip hlen
    refine ⟨state, hget, ?_, htip⟩
    have h0 : state.history.length + ([] : List (Stroke × Nat)).length - 500 = 0 := by
      simp only [List.length_nil]
      omega
    rw [h0]
    simp
  | cons p rest ih =>
    intro m state hget htip hlen
    have hstep : addStrokes m roomId (p :: rest) =
        addStrokes (m.addStroke roomId p.1 p.2).2 roomId rest := by
      simp [addStrokes]
    rw [hstep, addStroke_of_get m roomId state p.1 p.2 hget]
    have hh := addStrokeState_at_tip state p.1 p.2 htip
    have hi := addStrokeState_index state p.1 p.2
    have hl := (addStrokeState_length_le state p.1 p.2).1
    simp only [MAX_HISTORY_LENGTH] at hh hl
    obtain ⟨st, hst, hhist, hidx⟩ :=
      ih _ (addStrokeState state p.1 p.2) (jsMap_get_set_self _ _ _) hi hl
    refine ⟨st, hst, ?_, hidx⟩
    rw [hhist, hh]
    have hw := drop_window_step state.history (rest.map mkEntry) (mkEntry (p.1, p.2)) hlen
    simp only [List.length_map] at hw
    simpa [mkEntry] using hw

theorem getHistory_of_get (m : DrawingStateManager) (roomId : String) (state : RoomState)
    (hget : m.roomStates.get? roomId = some state) (h1 : -1 ≤ state.historyIndex) :
    m.getHistory roomId = state.history.take (state.historyIndex + 1).toNat := by
  unfold getHistory
  rw [hget]
  exact jsSlice_zero_eq_take _ _ (by omega)

theorem redo_at_tip (m : DrawingStateManager) (roomId : String) (state : RoomState)
    (now : Nat) (hget : m.roomStates.get? roomId = some state)
    (htip : state.historyIndex ≥ (state.history.length : Int) - 1) :
    m.redo roomId now = (RedoResult.failure "Nothing to redo", m) := by
  unfold redo
  rw [hget]
  simp only [htip, if_true]

theorem redoTimes_at_tip (m : DrawingStateManager) (roomId : String) (state : RoomState)
    (now : Nat) (hget : m.roomStates.get? roomId = some state)
    (htip : state.historyIndex ≥ (state.history.length : Int) - 1) (n : Nat) :
    redoTimes m roomId now n = m := by
  induction n with
  | zero => rfl
  | succ k ih =>
    unfold redoTimes
    rw [redo_at_tip m roomId state now hget htip]
    exact ih

/-! ## Lemmas on the room directory and the handlers -/

theorem jsMap_get_delete_self {K V : Type} [DecidableEq K] (m : JsMap K V) (k : K) :
    JsMap.get? (JsMap.delete m k) k = none := by
  induction m with
  | nil => rfl
  | cons hd tl ih =>
    obtain ⟨k1, v1⟩ := hd
    unfold JsMap.delete at ih ⊢
    rw [List.filter_cons]
    by_cases h : k1 = k
    · rw [if_neg (by simp [h])]
      exact ih
    · rw [if_pos (by simp [h])]
      unfold JsMap.get?
      rw [if_neg h]
      exact ih

theorem jsMap_get_delete_other {K V : Type} [DecidableEq K] (m : JsMap K V) (k k2 : K)
    (hne : k2 ≠ k) : JsMap.get? (JsMap.delete m k) k2 = JsMap.get? m k2 := by
  induction m with
  | nil => rfl
  | cons hd tl ih =>
    obtain ⟨k1, v1⟩ := hd
    unfold JsMap.delete at ih ⊢
    rw [List.filter_cons]
    by_cases h : k1 = k
    · rw [if_neg (by simp [h])]
      have h2 : ¬ k1 = k2 := fun e => hne (e.symm.trans h)
      rw [ih]
      conv_rhs => unfold JsMap.get?
      rw [if_neg h2]
    · rw [if_pos (by simp [h])]
      unfold JsMap.get?
      by_cases h3 : k1 = k2
      · rw [if_pos h3, if_pos h3]
      · rw [if_neg h3, if_neg h3]
        exact ih

theorem jsMap_get_of_values_nil {K V : Type} [DecidableEq K] (m : JsMap K V) (k : K)
    (h : (JsMap.values m).length = 0) : JsMap.get? m k = none := by
  cases m with
  | nil => rfl
  | cons hd tl => simp [JsMap.values] at h

theorem getUser_createRoom (rm : RoomManager) (roomId r u : String) (now : Nat) :
    (rm.createRoom roomId now).2.getUser r u = rm.getUser r u := by
  unfold RoomManager.createRoom RoomManager.getUser
  simp only
  by_cases hex : rm.rooms.has roomId = true
  · simp [hex]
  · have hnone : rm.rooms.get? roomId = none := by
      unfold JsMap.has at hex
      cases hg : rm.rooms.get? roomId with
      | none => rfl
      | some v => simp [hg] at hex
    simp only [hex, Bool.not_false, if_true, Bool.false_eq_true, not_false_eq_true]
    by_cases hr : r = roomId
    · subst hr
      rw [jsMap_get_set_self, hnone]
      rfl
    · rw [jsMap_get_set_other _ _ _ _ hr]

theorem getUser_addUser_other (rm : RoomManager) (roomId r u : String) (userData : UserData)
    (now : Nat) (hne : u ≠ userData.id) :
    (rm.addUserToRoom roomId userData now).getUser r u = rm.getUser r u := by
  unfold RoomManager.addUserToRoom RoomManager.getUser
  cases hg : rm.rooms.get? roomId with
  | none => rfl
  | some room =>
    simp only
    by_cases hr : r = roomId
    · subst hr
      rw [jsMap_get_set_self, hg]
      simp only
      exact jsMap_get_set_other _ _ _ _ hne
    · rw [jsMap_get_set_other _ _ _ _ hr]

theorem getUser_removeUser_other (rm : RoomManager) (roomId r u userId : String)
    (hne : u ≠ userId) :
    (rm.removeUserFromRoom roomId userId).getUser r u = rm.getUser r u := by
  unfold RoomManager.removeUserFromRoom RoomManager.getUser
  cases hg : rm.rooms.get? roomId with
  | none => rfl
  | some room =>
    simp only
    by_cases hr : r = roomId
    · subst hr
      rw [jsMap_get_set_self, hg]
      simp only
      exact jsMap_get_delete_other _ _ _ hne
    · rw [jsMap_get_set_other _ _ _ _ hr]

theorem getUser_updateCursor_other (rm : RoomManager) (roomId r u userId : String)
    (position : Point) (hne : u ≠ userId) :
    (rm.updateUserCursor roomId userId position).getUser r u = rm.getUser r u := by
  unfold RoomManager.updateUserCursor RoomManager.getUser
  cases hg : rm.rooms.get? roomId with
  | none => rfl
  | some room =>
    simp only
    cases hu : room.users.get? userId with
    | none => rfl
    | some user =>
      simp only
      by_cases hr : r = roomId
      · subst hr
        rw [jsMap_get_set_self, hg]
        simp only
        exact jsMap_get_set_other _ _ _ _ hne
      · rw [jsMap_get_set_other _ _ _ _ hr]

theorem getUser_deleteRoom_empty (rm : RoomManager) (roomId r u : String)
    (hempty : (rm.getRoomUsers roomId).length = 0) :
    (rm.deleteRoom roomId).getUser r u = rm.getUser r u := by
  unfold RoomManager.deleteRoom RoomManager.getUser
  simp only
  by_cases hr : r = roomId
  · subst hr
    rw [jsMap_get_delete_self]
    unfold RoomManager.getRoomUsers at hempty
    cases hg : rm.rooms.get? r with
    | none => rfl
    | some room =>
      rw [hg] at hempty
      simp only at hempty ⊢
      exact (jsMap_get_of_values_nil _ _ hempty).symm
  · rw [jsMap_get_delete_other _ _ _ hr]

theorem has_false_get_none {V : Type} (m : JsMap String V) (k : String)
    (h : ¬ m.has k = true) : m.get? k = none := by
  unfold JsMap.has at h
  cases hg : m.get? k with
  | none => rfl
  | some v => simp [hg] at h

theorem createRoom_rooms (rm : RoomManager) (roomId : String) (now : Nat) :
    (rm.createRoom roomId now).2.rooms.has roomId = true ∧
    (rm.createRoom roomId now).2.getRoomUsers roomId = rm.getRoomUsers roomId := by
  unfold RoomManager.createRoom RoomManager.getRoomUsers
  simp only
  by_cases hex : rm.rooms.has roomId = true
  · simp [hex]
  · have hnone := has_false_get_none rm.rooms roomId hex
    simp only [hex, Bool.not_false, if_true, Bool.false_eq_true, not_false_eq_true]
    refine ⟨?_, ?_⟩
    · unfold JsMap.has
      rw [jsMap_get_set_self]
      rfl
    · rw [jsMap_get_set_self, hnone]
      rfl

theorem addUser_getUser_self (rm : RoomManager) (roomId : String) (userData : UserData)
    (now : Nat) (hex : rm.rooms.has roomId = true) :
    (rm.addUserToRoom roomId userData now).getUser roomId userData.id =
      some { toUserData := userData, joinedAt := now } := by
  unfold RoomManager.addUserToRoom RoomManager.getUser
  cases hg : rm.rooms.get? roomId with
  | none =>
    unfold JsMap.has at hex
    simp [hg] at hex
  | some room =>
    simp only
    rw [jsMap_get_set_self]
    simp only
    rw [jsMap_get_set_self]

theorem onJoinRoom_conns (s : ServerState) (socketId : String)
    (roomId username : Option String) (now : Nat) :
    (onJoinRoom s socketId roomId username now).conns =
      s.conns.set socketId
        { currentRoom := some (jsOr roomId "default"),
          userData := some (joinUserData s socketId roomId username) } := by
  unfold onJoinRoom joinUserData
  simp only [ServerState.emit]
  by_cases hex : s.roomManager.roomExists (jsOr roomId "default") = true
  · simp [hex]
  · have h1 := (createRoom_rooms s.roomManager (jsOr roomId "default") now).2
    simp [hex, h1]

theorem onJoinRoom_roomManager (s : ServerState) (socketId : String)
    (roomId username : Option String) (now : Nat) :
    ∃ rm : RoomManager,
      (onJoinRoom s socketId roomId username now).roomManager =
        rm.addUserToRoom (jsOr roomId "default") (joinUserData s socketId roomId username)
          now ∧
      rm.rooms.has (jsOr roomId "default") = true ∧
      (∀ r u, rm.getUser r u = s.roomManager.getUser r u) := by
  unfold onJoinRoom joinUserData
  simp only [ServerState.emit]
  by_cases hex : s.roomManager.roomExists (jsOr roomId "default") = true
  · refine ⟨s.roomManager, ?_, hex, fun _ _ => rfl⟩
    simp only [hex, Bool.not_true, Bool.false_eq_true, if_false]
  · have h1 := createRoom_rooms s.roomManager (jsOr roomId "default") now
    refine ⟨(s.roomManager.createRoom (jsOr roomId "default") now).2, ?_, h1.1,
      fun r u => getUser_createRoom _ _ r u now⟩
    simp only [hex, Bool.not_false, if_true, Bool.false_eq_true, not_false_eq_true, h1.2]

theorem conn_of_conns_set_other (s s2 : ServerState) (sid sid2 : String) (c : ConnState)
    (hne : sid ≠ sid2) (h : s2.conns = s.conns.set sid2 c) : s2.conn sid = s.conn sid := by
  unfold ServerState.conn
  rw [h, jsMap_get_set_other _ _ _ _ hne]

theorem conn_of_conns_eq (s s2 : ServerState) (sid : String) (h : s2.conns = s.conns) :
    s2.conn sid = s.conn sid := by
  unfold ServerState.conn
  rw [h]

theorem onJoinRoom_other (s : ServerState) (sid sid2 : String)
    (roomId username : Option String) (now : Nat) (hne : sid ≠ sid2) :
    (onJoinRoom s sid2 roomId username now).conn sid = s.conn sid ∧
    ∀ r, (onJoinRoom s sid2 roomId username now).roomManager.getUser r sid =
      s.roomManager.getUser r sid := by
  refine ⟨conn_of_conns_set_other _ _ _ _ _ hne (onJoinRoom_conns s sid2 roomId username now),
    ?_⟩
  intro r
  obtain ⟨rm, hrm, _, hsame⟩ := onJoinRoom_roomManager s sid2 roomId username now
  rw [hrm, getUser_addUser_other rm _ r sid _ now hne]
  exact hsame r sid

theorem onDisconnect_other (s : ServerState) (sid sid2 : String) (hne : sid ≠ sid2) :
    (onDisconnect s sid2).conn sid = s.conn sid ∧
    ∀ r, (onDisconnect s sid2).roomManager.getUser r sid = s.roomManager.getUser r sid := by
  unfold onDisconnect
  simp only [ServerState.emit]
  split
  · split
    · exact ⟨rfl, fun _ => rfl⟩
    · split
      · rename_i hempty
        refine ⟨rfl, fun r => ?_⟩
        simp only
        rw [getUser_deleteRoom_empty _ _ r sid hempty]
        exact getUser_removeUser_other _ _ r sid sid2 hne
      · refine ⟨rfl, fun r => ?_⟩
        exact getUser_removeUser_other _ _ r sid sid2 hne
  · exact ⟨rfl, fun _ => rfl⟩

theorem run_others_frame (sid : String) (later : List Input) :
    ∀ s : ServerState,
      (∀ i ∈ later, i.socketId ≠ sid ∧ i.isJoinOrDisconnect = true) →
      ∃ s2, run s later = some s2 ∧ s2.conn sid = s.conn sid ∧
        ∀ r, s2.roomManager.getUser r sid = s.roomManager.getUser r sid := by
  induction later with
  | nil =>
    intro s _
    exact ⟨s, rfl, rfl, fun _ => rfl⟩
  | cons i rest ih =>
    intro s hall
    have hi := hall i (List.mem_cons_self _ _)
    have hrest : ∀ j ∈ rest, j.socketId ≠ sid ∧ j.isJoinOrDisconnect = true :=
      fun j hj => hall j (List.mem_cons_of_mem _ hj)
    have hne : sid ≠ i.socketId := fun e => hi.1 e.symm
    have hstep : ∃ s1, handle s i.socketId i.event i.now = some s1 ∧
        s1.conn sid = s.conn sid ∧
        ∀ r, s1.roomManager.getUser r sid = s.roomManager.getUser r sid := by
      have hk := hi.2
      unfold Input.isJoinOrDisconnect at hk
      cases hev : i.event with
      | join_room roomId username =>
        exact ⟨_, rfl, onJoinRoom_other s sid i.socketId roomId username i.now hne⟩
      | disconnect => exact ⟨_, rfl, onDisconnect_other s sid i.socketId hne⟩
      | drawing_start a b c d e => rw [hev] at hk; cases hk
      | drawing_step a b => rw [hev] at hk; cases hk
      | drawing_end a b c d e => rw [hev] at hk; cases hk
      | cursor_move a => rw [hev] at hk; cases hk
      | undo_request => rw [hev] at hk; cases hk
      | redo_request => rw [hev] at hk; cases hk
      | clear_canvas => rw [hev] at hk; cases hk
    obtain ⟨s1, hs1, hc1, hu1⟩ := hstep
    obtain ⟨s2, hs2, hc2, hu2⟩ := ih s1 hrest
    refine ⟨s2, ?_, hc2.trans hc1, fun r => (hu2 r).trans (hu1 r)⟩
    unfold run
    rw [hs1]
    exact hs2

/-! ## The claims -/

/-- C1. Ledger well-formedness `-1 <= historyIndex < history.length <= 500` is an invariant:
the room made by `initializeRoom` is well-formed in every manager, whether or not the room
existed before, and from every manager whose room is well-formed the room is again
well-formed after `addStroke` (any stroke), `undo`, `redo` and `clearHistory`. -/
theorem ledger_wellFormed_invariant (m : DrawingStateManager) (roomId : String)
    (stroke : Stroke) (now : Nat) :
    (m.initializeRoom roomId now).RoomWellFormed roomId ∧
    (m.RoomWellFormed roomId →
      (m.addStroke roomId stroke now).2.RoomWellFormed roomId ∧
      (m.undo roomId now).2.RoomWellFormed roomId ∧
      (m.redo roomId now).2.RoomWellFormed roomId ∧
      (m.clearHistory roomId now).RoomWellFormed roomId) := by
  refine ⟨?_, fun hwf => ?_⟩
  · rw [roomWellFormed_iff]
    refine ⟨_, jsMap_get_set_self _ _ _, ?_⟩
    simp [RoomState.WellFormed]
  obtain ⟨state, hget, h1, h2, h3⟩ := (roomWellFormed_iff m roomId).1 hwf
  refine ⟨?_, ?_, ?_, ?_⟩
  · rw [roomWellFormed_iff, addStroke_of_get m roomId state stroke now hget]
    exact ⟨_, jsMap_get_set_self _ _ _, addStrokeState_wellFormed state stroke now⟩
  · rw [roomWellFormed_iff]
    unfold undo
    rw [hget]
    simp only
    split
    · exact ⟨state, hget, h1, h2, h3⟩
    · refine ⟨_, jsMap_get_set_self _ _ _, ?_⟩
      simp only [RoomState.WellFormed]
      omega
  · rw [roomWellFormed_iff]
    unfold redo
    rw [hget]
    simp only
    split
    · exact ⟨state, hget, h1, h2, h3⟩
    · refine ⟨_, jsMap_get_set_self _ _ _, ?_⟩
      simp only [RoomState.WellFormed]
      omega
  · rw [roomWellFormed_iff]
    unfold clearHistory
    rw [hget]
    refine ⟨_, jsMap_get_set_self _ _ _, ?_⟩
    simp [RoomState.WellFormed]

/-- Witness of C1: `initializeRoom` on the new manager, where room `r1` does not exist yet,
and the four operations on the sample manager, whose room `r1` holds one visible and one
undone entry. -/
theorem ledger_wellFormed_invariant_witness :
    DrawingStateManager.new.roomStates.get? "r1" = none ∧
    (DrawingStateManager.new.initializeRoom "r1" 20).RoomWellFormed "r1" ∧
    sampleManager.RoomWellFormed "r1" ∧
    (sampleManager.addStroke "r1" (sampleStroke "s3") 20).2.RoomWellFormed "r1" ∧
    (sampleManager.undo "r1" 20).2.RoomWellFormed "r1" ∧
    (sampleManager.redo "r1" 20).2.RoomWellFormed "r1" ∧
    (sampleManager.clearHistory "r1" 20).RoomWellFormed "r1" :=
  ⟨by decide,
    (ledger_wellFormed_invariant DrawingStateManager.new "r1" (sampleStroke "s3") 20).1,
    by decide,
    (ledger_wellFormed_invariant sampleManager "r1" (sampleStroke "s3") 20).2 (by decide)⟩

/-- C2. On a freshly initialised room, `n` calls of `addStroke` with no undo in between leave
`history` equal to the last `min(n, 500)` strokes in append order, each extended by its
`addedAt` only, `historyIndex = min(n, 500) - 1`, and `getHistory` equal to the whole history;
for `n = 501` these are the 500 entries of the 2nd to the 501st stroke with cursor 499. -/
theorem addStrokes_fresh_room (m0 : DrawingStateManager) (roomId : String) (t0 : Nat)
    (l : List (Stroke × Nat)) :
    ((addStrokes (m0.initializeRoom roomId t0) roomId l).roomStates.get? roomId).map
        RoomState.history = some ((l.map mkEntry).drop (l.length - 500)) ∧
    ((l.map mkEntry).drop (l.length - 500)).length = min l.length 500 ∧
    (addStrokes (m0.initializeRoom roomId t0) roomId l).getHistoryIndex roomId =
      ((min l.length 500 : Nat) : Int) - 1 ∧
    (addStrokes (m0.initializeRoom roomId t0) roomId l).getHistory roomId =
      (l.map mkEntry).drop (l.length - 500) ∧
    (∀ f : Fin 501 → Stroke × Nat,
      ((addStrokes (m0.initializeRoom roomId t0) roomId (List.ofFn f)).roomStates.get?
          roomId).map RoomState.history =
        some (List.ofFn (fun i : Fin 500 => mkEntry (f i.succ))) ∧
      (List.ofFn (fun i : Fin 500 => mkEntry (f i.succ))).length = 500 ∧
      (addStrokes (m0.initializeRoom roomId t0) roomId (List.ofFn f)).getHistoryIndex roomId
        = 499) := by
  have key : ∀ l : List (Stroke × Nat),
      ∃ st, (addStrokes (m0.initializeRoom roomId t0) roomId l).roomStates.get? roomId =
          some st ∧ st.history = (l.map mkEntry).drop (l.length - 500) ∧
        st.historyIndex = (st.history.length : Int) - 1 := by
    intro l
    obtain ⟨st, hst, hh, hi⟩ := addStrokes_from_tip roomId l (m0.initializeRoom roomId t0)
      { history := [], historyIndex := -1, createdAt := t0, lastModified := t0 }
      (jsMap_get_set_self _ _ _) (by simp) (by simp)
    refine ⟨st, hst, ?_, hi⟩
    rw [hh]
    simp
  have hlen : ∀ l : List (Stroke × Nat),
      ((l.map mkEntry).drop (l.length - 500)).length = min l.length 500 := by
    intro l
    simp only [List.length_drop, List.length_map]
    omega
  obtain ⟨st, hst, hh, hi⟩ := key l
  refine ⟨?_, hlen l, ?_, ?_, ?_⟩
  · rw [hst, Option.map_some', hh]
  · unfold getHistoryIndex
    rw [hst]
    simp only
    rw [hi, hh, hlen l]
  · unfold getHistory
    rw [hst]
    simp only
    rw [jsSlice_zero_eq_take _ _ (by omega), ← hh]
    apply List.take_of_length_le
    omega
  · intro f
    obtain ⟨st2, hst2, hh2, hi2⟩ := key (List.ofFn f)
    have hcons : List.ofFn f = f 0 :: List.ofFn (fun i : Fin 500 => f i.succ) :=
      List.ofFn_succ f
    have hdrop : ((List.ofFn f).map mkEntry).drop ((List.ofFn f).length - 500) =
        List.ofFn (fun i : Fin 500 => mkEntry (f i.succ)) := by
      have h1 : (List.ofFn f).length - 500 = 1 := by
        rw [List.length_ofFn]
      rw [h1, hcons, List.map_cons, List.drop_succ_cons, List.drop_zero, List.map_ofFn]
      rfl
    refine ⟨?_, List.length_ofFn _, ?_⟩
    · rw [hst2, Option.map_some', hh2, hdrop]
    · unfold getHistoryIndex
      rw [hst2]
      simp only
      rw [hi2, hh2, hdrop, List.length_ofFn]
      rfl

/-- C3. Single-branch rule. From a well-formed room, after `addStroke(s2)` the visible history
is the previously visible history followed by the entry of `s2`, without its oldest element
exactly when 500 entries were visible before; its last element is the entry of `s2`; the
stored history is that visible history and nothing else, so no undone entry is kept; and a
`redo` right after fails with `Nothing to redo` and changes nothing. In particular after
`addStroke(s1); undo; addStroke(s2)` on a fresh room the history, visible or not, is `[s2]`
and stays so under any number of `redo` calls. -/
theorem single_branch_rule (m : DrawingStateManager) (roomId : String) (s2 : Stroke)
    (now now2 : Nat) (hwf : m.RoomWellFormed roomId) :
    (m.addStroke roomId s2 now).2.getHistory roomId =
      (m.getHistory roomId ++ [mkEntry (s2, now)]).drop
        (if (m.getHistory roomId).length = 500 then 1 else 0) ∧
    ((m.addStroke roomId s2 now).2.getHistory roomId).getLast? = some (mkEntry (s2, now)) ∧
    ((m.addStroke roomId s2 now).2.roomStates.get? roomId).map RoomState.history =
      some ((m.addStroke roomId s2 now).2.getHistory roomId) ∧
    (m.addStroke roomId s2 now).2.redo roomId now2 =
      (RedoResult.failure "Nothing to redo", (m.addStroke roomId s2 now).2) ∧
    (∀ (m0 : DrawingStateManager) (s1 : Stroke) (t0 t1 t2 t3 t4 n : Nat),
      ((((m0.initializeRoom roomId t0).addStroke roomId s1 t1).2.undo roomId t2).2.addStroke
          roomId s2 t3).2.getHistory roomId = [mkEntry (s2, t3)] ∧
      (redoTimes ((((m0.initializeRoom roomId t0).addStroke roomId s1 t1).2.undo roomId
          t2).2.addStroke roomId s2 t3).2 roomId t4 n).roomStates.get? roomId =
        some { history := [mkEntry (s2, t3)], historyIndex := 0, createdAt := t0,
               lastModified := t3 }) := by
  obtain ⟨state, hget, h1, h2, h3⟩ := (roomWellFormed_iff m roomId).1 hwf
  simp only [MAX_HISTORY_LENGTH] at h3
  have hvis := getHistory_of_get m roomId state hget h1
  have hm1 := addStroke_of_get m roomId state s2 now hget
  have hget1 : (m.addStroke roomId s2 now).2.roomStates.get? roomId =
      some (addStrokeState state s2 now) := by
    rw [hm1]
    exact jsMap_get_set_self _ _ _
  have hidx := addStrokeState_index state s2 now
  have hpos := (addStrokeState_length_le state s2 now).2
  have hhist := addStrokeState_history state s2 now h1 h2
  simp only [MAX_HISTORY_LENGTH] at hhist
  have hvis1 : (m.addStroke roomId s2 now).2.getHistory roomId =
      (addStrokeState state s2 now).history := by
    rw [getHistory_of_get _ roomId _ hget1 (by omega)]
    apply List.take_of_length_le
    omega
  have hcount : (if (m.getHistory roomId).length = 500 then 1 else 0) =
      (state.historyIndex + 1).toNat + 1 - 500 := by
    rw [hvis, List.length_take]
    split <;> omega
  have hfirst : (m.addStroke roomId s2 now).2.getHistory roomId =
      (m.getHistory roomId ++ [mkEntry (s2, now)]).drop
        (if (m.getHistory roomId).length = 500 then 1 else 0) := by
    rw [hvis1, hhist, hcount, hvis]
  refine ⟨hfirst, ?_, ?_, ?_, ?_⟩
  · rw [hfirst, List.getLast?_drop, List.getLast?_concat]
    have hle : ¬ (m.getHistory roomId ++ [mkEntry (s2, now)]).length ≤
        (if (m.getHistory roomId).length = 500 then 1 else 0) := by
      rw [List.length_append, List.length_singleton]
      split <;> omega
    rw [if_neg hle]
  · rw [hget1, hvis1, Option.map_some']
  · exact redo_at_tip _ roomId _ now2 hget1 (by omega)
  · intro m0 s1 t0 t1 t2 t3 t4 n
    have e1 : ((m0.initializeRoom roomId t0).addStroke roomId s1 t1).2.roomStates.get? roomId =
        some { history := [mkEntry (s1, t1)], historyIndex := 0, createdAt := t0,
               lastModified := t1 } := by
      have e0 : (m0.initializeRoom roomId t0).roomStates.get? roomId =
          some { history := [], historyIndex := -1, createdAt := t0, lastModified := t0 } :=
        jsMap_get_set_self _ _ _
      rw [addStroke_of_get _ roomId _ s1 t1 e0]
      simp only
      rw [jsMap_get_set_self]
      rfl
    have e2 : (((m0.initializeRoom roomId t0).addStroke roomId s1 t1).2.undo roomId
        t2).2.roomStates.get? roomId =
        some { history := [mkEntry (s1, t1)], historyIndex := -1, createdAt := t0,
               lastModified := t2 } := by
      unfold undo
      rw [e1]
      simp only
      rw [if_neg (by decide)]
      simp only
      rw [jsMap_get_set_self]
      rfl
    have e3 : ((((m0.initializeRoom roomId t0).addStroke roomId s1 t1).2.undo roomId
        t2).2.addStroke roomId s2 t3).2.roomStates.get? roomId =
        some { history := [mkEntry (s2, t3)], historyIndex := 0, createdAt := t0,
               lastModified := t3 } := by
      rw [addStroke_of_get _ roomId _ s2 t3 e2]
      simp only
      rw [jsMap_get_set_self]
      rfl
    refine ⟨?_, ?_⟩
    · rw [getHistory_of_get _ roomId _ e3 (by simp)]
      rfl
    · rw [redoTimes_at_tip _ roomId _ t4 e3 (by simp) n]
      exact e3

/-- Witness of C3 on the sample manager: `s1` is visible and `s2` undone; after appending
`s3` the visible history is `s1` then `s3`. -/
theorem single_branch_rule_witness :
    sampleManager.RoomWellFormed "r1" ∧
    (sampleManager.addStroke "r1" (sampleStroke "s3") 20).2.getHistory "r1" =
      [mkEntry (sampleStroke "s1", 11), mkEntry (sampleStroke "s3", 20)] :=
  ⟨by decide,
    (single_branch_rule sampleManager "r1" (sampleStroke "s3") 20 21 (by decide)).1.trans
      (by decide)⟩

/-- C4. Undo/redo round trip. From a well-formed room with `historyIndex >= 0`, `undo` then
`redo` both succeed, the stroke `redo` returns is the entry `undo` returned, and `history`,
`historyIndex`, `getHistory` and `getHistoryIndex` are what they were before the `undo`. -/
theorem undo_redo_round_trip (m : DrawingStateManager) (roomId : String) (t1 t2 : Nat)
    (state : RoomState) (hget : m.roomStates.get? roomId = some state)
    (hwf : state.WellFormed) (hpos : 0 ≤ state.historyIndex) :
    ∃ e : Entry,
      (m.undo roomId t1).1 = UndoResult.success (state.historyIndex - 1) (some e) ∧
      ((m.undo roomId t1).2.redo roomId t2).1 =
        RedoResult.success state.historyIndex (some e) ∧
      ((m.undo roomId t1).2.redo roomId t2).2.roomStates.get? roomId =
        some { state with lastModified := t2 } ∧
      ((m.undo roomId t1).2.redo roomId t2).2.getHistory roomId = m.getHistory roomId ∧
      ((m.undo roomId t1).2.redo roomId t2).2.getHistoryIndex roomId =
        m.getHistoryIndex roomId := by
  obtain ⟨h1, h2, h3⟩ := hwf
  have hlt : state.historyIndex.toNat < state.history.length := by omega
  have hidx : jsIndex state.history state.historyIndex =
      some (state.history.get ⟨state.historyIndex.toNat, hlt⟩) := by
    unfold jsIndex
    rw [if_neg (by omega), List.get?_eq_get hlt]
  have hundo : m.undo roomId t1 =
      (UndoResult.success (state.historyIndex - 1)
          (some (state.history.get ⟨state.historyIndex.toNat, hlt⟩)),
        { roomStates := m.roomStates.set roomId
            { state with historyIndex := state.historyIndex - 1, lastModified := t1 } }) := by
    unfold undo
    rw [hget]
    simp only
    rw [if_neg (by omega), hidx]
  have hredo : (m.undo roomId t1).2.redo roomId t2 =
      (RedoResult.success state.historyIndex
          (some (state.history.get ⟨state.historyIndex.toNat, hlt⟩)),
        { roomStates := (m.undo roomId t1).2.roomStates.set roomId
            { state with lastModified := t2 } }) := by
    unfold redo
    rw [hundo]
    simp only
    rw [jsMap_get_set_self]
    simp only
    rw [if_neg (by omega)]
    simp only [sub_add_cancel, hidx]
  have hfinal : ((m.undo roomId t1).2.redo roomId t2).2.roomStates.get? roomId =
      some { state with lastModified := t2 } := by
    rw [hredo]
    exact jsMap_get_set_self _ _ _
  refine ⟨state.history.get ⟨state.historyIndex.toNat, hlt⟩, ?_, ?_, hfinal, ?_, ?_⟩
  · rw [hundo]
  · rw [hredo]
  · rw [getHistory_of_get _ roomId _ hfinal (by simpa using h1),
      getHistory_of_get _ roomId _ hget h1]
  · unfold getHistoryIndex
    rw [hfinal, hget]

/-- Witness of C4 on the sample manager: the visible `s1` is undone and redone. -/
theorem undo_redo_round_trip_witness :
    ∃ e : Entry,
      (sampleManager.undo "r1" 20).1 = UndoResult.success (0 - 1) (some e) ∧
      ((sampleManager.undo "r1" 20).2.redo "r1" 21).1 = RedoResult.success 0 (some e) ∧
      ((sampleManager.undo "r1" 20).2.redo "r1" 21).2.roomStates.get? "r1" =
        some { sampleRoomState with lastModified := 21 } ∧
      ((sampleManager.undo "r1" 20).2.redo "r1" 21).2.getHistory "r1" =
        sampleManager.getHistory "r1" ∧
      ((sampleManager.undo "r1" 20).2.redo "r1" 21).2.getHistoryIndex "r1" =
        sampleManager.getHistoryIndex "r1" :=
  undo_redo_round_trip sampleManager "r1" 20 21 sampleRoomState (by decide) (by decide)
    (by decide)

/-- C5. On an existing room `undo` fails exactly when `historyIndex < 0`; then it returns the
reason `Nothing to undo` and leaves the manager as it was. Otherwise it returns success with
`undoneStroke = history[old historyIndex]` and `historyIndex = old historyIndex - 1`, stores
that decremented cursor, and leaves the `history` array as it was, the undone entry still at
its index. -/
theorem undo_spec (m : DrawingStateManager) (roomId : String) (now : Nat)
    (state : RoomState) (hget : m.roomStates.get? roomId = some state) :
    ((∃ reason, (m.undo roomId now).1 = UndoResult.failure reason) ↔
      state.historyIndex < 0) ∧
    m.undo roomId now =
      (if state.historyIndex < 0 then (UndoResult.failure "Nothing to undo", m)
       else (UndoResult.success (state.historyIndex - 1)
              (jsIndex state.history state.historyIndex),
             { roomStates := m.roomStates.set roomId
                 { state with historyIndex := state.historyIndex - 1,
                              lastModified := now } })) ∧
    ((m.undo roomId now).2.roomStates.get? roomId).map RoomState.history =
      some state.history ∧
    (m.undo roomId now).2.getHistoryIndex roomId =
      (if state.historyIndex < 0 then state.historyIndex else state.historyIndex - 1) ∧
    ((m.undo roomId now).2.roomStates.get? roomId).map
        (fun st => jsIndex st.history state.historyIndex) =
      some (jsIndex state.history state.historyIndex) := by
  have hdef : m.undo roomId now =
      (if state.historyIndex < 0 then (UndoResult.failure "Nothing to undo", m)
       else (UndoResult.success (state.historyIndex - 1)
              (jsIndex state.history state.historyIndex),
             { roomStates := m.roomStates.set roomId
                 { state with historyIndex := state.historyIndex - 1,
                              lastModified := now } })) := by
    unfold undo
    rw [hget]
  by_cases hneg : state.historyIndex < 0
  · rw [if_pos hneg] at hdef
    refine ⟨?_, ?_, ?_, ?_, ?_⟩
    · rw [hdef]
      exact ⟨fun _ => hneg, fun _ => ⟨_, rfl⟩⟩
    · rw [hdef, if_pos hneg]
    · rw [hdef, hget, Option.map_some']
    · unfold getHistoryIndex
      rw [hdef, hget, if_pos hneg]
    · rw [hdef, hget, Option.map_some']
  · rw [if_neg hneg] at hdef
    refine ⟨?_, ?_, ?_, ?_, ?_⟩
    · rw [hdef]
      constructor
      · rintro ⟨reason, hr⟩
        cases hr
      · intro h
        exact absurd h hneg
    · rw [hdef, if_neg hneg]
    · rw [hdef]
      simp only
      rw [jsMap_get_set_self, Option.map_some']
    · unfold getHistoryIndex
      rw [hdef]
      simp only
      rw [jsMap_get_set_self, if_neg hneg]
    · rw [hdef]
      simp only
      rw [jsMap_get_set_self, Option.map_some']

/-- Witness of C5 on the sample manager, where `undo` succeeds and returns `s1`. -/
theorem undo_spec_witness :
    sampleManager.roomStates.get? "r1" = some sampleRoomState ∧
    (sampleManager.undo "r1" 20).1 =
      UndoResult.success (-1) (some (mkEntry (sampleStroke "s1", 11))) ∧
    ((sampleManager.undo "r1" 20).2.roomStates.get? "r1").map RoomState.history =
      some sampleRoomState.history :=
  ⟨by decide,
    (congrArg Prod.fst (undo_spec sampleManager "r1" 20 sampleRoomState (by decide)).2.1).trans
      (by decide),
    (undo_spec sampleManager "r1" 20 sampleRoomState (by decide)).2.2.1⟩

/-- C6. On an existing room `redo` fails exactly when `historyIndex >= history.length - 1`;
then it returns the reason `Nothing to redo` and leaves the manager as it was. Otherwise it
stores `historyIndex + 1`, returns success with that cursor and
`redoneStroke = history[historyIndex + 1]`, and leaves the `history` array as it was; in a
well-formed room that returned stroke is a defined entry. -/
theorem redo_spec (m : DrawingStateManager) (roomId : String) (now : Nat)
    (state : RoomState) (hget : m.roomStates.get? roomId = some state) :
    ((∃ reason, (m.redo roomId now).1 = RedoResult.failure reason) ↔
      state.historyIndex ≥ (state.history.length : Int) - 1) ∧
    m.redo roomId now =
      (if state.historyIndex ≥ (state.history.length : Int) - 1 then
         (RedoResult.failure "Nothing to redo", m)
       else (RedoResult.success (state.historyIndex + 1)
              (jsIndex state.history (state.historyIndex + 1)),
             { roomStates := m.roomStates.set roomId
                 { state with historyIndex := state.historyIndex + 1,
                              lastModified := now } })) ∧
    ((m.redo roomId now).2.roomStates.get? roomId).map RoomState.history =
      some state.history ∧
    (m.redo roomId now).2.getHistoryIndex roomId =
      (if state.historyIndex ≥ (state.history.length : Int) - 1 then state.historyIndex
       else state.historyIndex + 1) ∧
    (state.WellFormed ∧ state.historyIndex < (state.history.length : Int) - 1 →
      ∃ e : Entry, (m.redo roomId now).1 =
        RedoResult.success (state.historyIndex + 1) (some e) ∧
        jsIndex state.history (state.historyIndex + 1) = some e) := by
  have hdef : m.redo roomId now =
      (if state.historyIndex ≥ (state.history.length : Int) - 1 then
         (RedoResult.failure "Nothing to redo", m)
       else (RedoResult.success (state.historyIndex + 1)
              (jsIndex state.history (state.historyIndex + 1)),
             { roomStates := m.roomStates.set roomId
                 { state with historyIndex := state.historyIndex + 1,
                              lastModified := now } })) := by
    unfold redo
    rw [hget]
  by_cases htip : state.historyIndex ≥ (state.history.length : Int) - 1
  · rw [if_pos htip] at hdef
    refine ⟨?_, ?_, ?_, ?_, ?_⟩
    · rw [hdef]
      exact ⟨fun _ => htip, fun _ => ⟨_, rfl⟩⟩
    · rw [hdef, if_pos htip]
    · rw [hdef, hget, Option.map_some']
    · unfold getHistoryIndex
      rw [hdef, hget, if_pos htip]
    · rintro ⟨_, hlt⟩
      omega
  · rw [if_neg htip] at hdef
    refine ⟨?_, ?_, ?_, ?_, ?_⟩
    · rw [hdef]
      constructor
      · rintro ⟨reason, hr⟩
        cases hr
      · intro h
        exact absurd h htip
    · rw [hdef, if_neg htip]
    · rw [hdef]
      simp only
      rw [jsMap_get_set_self, Option.map_some']
    · unfold getHistoryIndex
      rw [hdef]
      simp only
      rw [jsMap_get_set_self, if_neg htip]
    · rintro ⟨⟨h1, _, _⟩, hlt⟩
      have hb : (state.historyIndex + 1).toNat < state.history.length := by omega
      have hi : jsIndex state.history (state.historyIndex + 1) =
          some (state.history.get ⟨(state.historyIndex + 1).toNat, hb⟩) := by
        unfold jsIndex
        rw [if_neg (by omega), List.get?_eq_get hb]
      exact ⟨_, by rw [hdef, hi], hi⟩

/-- Witness of C6 on the sample manager, where `redo` succeeds and returns `s2`. -/
theorem redo_spec_witness :
    sampleManager.roomStates.get? "r1" = some sampleRoomState ∧
    (sampleManager.redo "r1" 20).1 =
      RedoResult.success 1 (some (mkEntry (sampleStroke "s2", 12))) ∧
    ((sampleManager.redo "r1" 20).2.roomStates.get? "r1").map RoomState.history =
      some sampleRoomState.history :=
  ⟨by decide,
    (congrArg Prod.fst (redo_spec sampleManager "r1" 20 sampleRoomState (by decide)).2.1).trans
      (by decide),
    (redo_spec sampleManager "r1" 20 sampleRoomState (by decide)).2.2.1⟩

/-- C7. In a well-formed room `getHistory` is the prefix `history[0..historyIndex]`: its
length is `historyIndex + 1`, it is empty at `historyIndex = -1`, its `i`-th element is
`history[i]` for `i <= historyIndex` and there is none beyond; `getHistoryIndex` is
`historyIndex`, so `len(getHistory) = getHistoryIndex + 1`. Both are reads: they take the
manager and return a value, no manager. -/
theorem getHistory_spec (m : DrawingStateManager) (roomId : String) (state : RoomState)
    (hget : m.roomStates.get? roomId = some state) (hwf : state.WellFormed) :
    m.getHistory roomId = state.history.take (state.historyIndex + 1).toNat ∧
    ((m.getHistory roomId).length : Int) = state.historyIndex + 1 ∧
    (state.historyIndex = -1 → m.getHistory roomId = []) ∧
    (∀ i : Nat, (m.getHistory roomId).get? i =
      if (i : Int) ≤ state.historyIndex then state.history.get? i else none) ∧
    m.getHistoryIndex roomId = state.historyIndex ∧
    ((m.getHistory roomId).length : Int) = m.getHistoryIndex roomId + 1 := by
  obtain ⟨h1, h2, _⟩ := hwf
  have hvis := getHistory_of_get m roomId state hget h1
  have hlen : ((m.getHistory roomId).length : Int) = state.historyIndex + 1 := by
    rw [hvis, List.length_take]
    omega
  have hidx : m.getHistoryIndex roomId = state.historyIndex := by
    unfold getHistoryIndex
    rw [hget]
  refine ⟨hvis, hlen, ?_, ?_, hidx, ?_⟩
  · intro h0
    rw [hvis, h0]
    rfl
  · intro i
    rw [hvis]
    by_cases hi : (i : Int) ≤ state.historyIndex
    · rw [if_pos hi, List.get?_eq_getElem?, List.get?_eq_getElem?,
        List.getElem?_take_of_lt (by omega)]
    · rw [if_neg hi, List.get?_eq_getElem?]
      apply List.getElem?_eq_none
      rw [List.length_take]
      omega
  · rw [hidx, hlen]

/-- Witness of C7 on the sample manager: one of the two entries is visible. -/
theorem getHistory_spec_witness :
    sampleManager.roomStates.get? "r1" = some sampleRoomState ∧
    sampleRoomState.WellFormed ∧
    sampleManager.getHistory "r1" = [mkEntry (sampleStroke "s1", 11)] ∧
    sampleManager.getHistoryIndex "r1" = 0 :=
  ⟨by decide, by decide,
    (getHistory_spec sampleManager "r1" sampleRoomState (by decide) (by decide)).1.trans
      (by decide),
    (getHistory_spec sampleManager "r1" sampleRoomState (by decide) (by decide)).2.2.2.2.1.trans
      (by decide)⟩

/-- C8. On an existing room in any state `clearHistory` stores `history = []` and
`historyIndex = -1`; afterwards `undo` fails with `Nothing to undo`, `redo` fails with
`Nothing to redo`, `getHistory` is empty, and every run of `undo` and `redo` calls leaves the
manager as the clear left it, so no earlier stroke comes back. -/
theorem clearHistory_spec (m : DrawingStateManager) (roomId : String) (now t : Nat)
    (state : RoomState) (hget : m.roomStates.get? roomId = some state) :
    (m.clearHistory roomId now).roomStates.get? roomId =
      some { state with history := [], historyIndex := -1, lastModified := now } ∧
    (m.clearHistory roomId now).undo roomId t =
      (UndoResult.failure "Nothing to undo", m.clearHistory roomId now) ∧
    (m.clearHistory roomId now).redo roomId t =
      (RedoResult.failure "Nothing to redo", m.clearHistory roomId now) ∧
    (m.clearHistory roomId now).getHistory roomId = [] ∧
    (m.clearHistory roomId now).getHistoryIndex roomId = -1 ∧
    (∀ ops : List HistoryOp,
      applyOps (m.clearHistory roomId now) roomId t ops = m.clearHistory roomId now) := by
  have hc : (m.clearHistory roomId now).roomStates.get? roomId =
      some { state with history := [], historyIndex := -1, lastModified := now } := by
    unfold clearHistory
    rw [hget]
    exact jsMap_get_set_self _ _ _
  have hu : (m.clearHistory roomId now).undo roomId t =
      (UndoResult.failure "Nothing to undo", m.clearHistory roomId now) := by
    unfold undo
    rw [hc]
    rfl
  have hr : (m.clearHistory roomId now).redo roomId t =
      (RedoResult.failure "Nothing to redo", m.clearHistory roomId now) :=
    redo_at_tip _ roomId _ t hc (by simp)
  refine ⟨hc, hu, hr, ?_, ?_, ?_⟩
  · unfold getHistory
    rw [hc]
    rfl
  · unfold getHistoryIndex
    rw [hc]
  · intro ops
    induction ops with
    | nil => rfl
    | cons op rest ih =>
      cases op
      · unfold applyOps
        rw [hu]
        exact ih
      · unfold applyOps
        rw [hr]
        exact ih

/-- Witness of C8 on the sample manager: after the clear nothing is visible and the run
`undo, redo, redo` changes nothing. -/
theorem clearHistory_spec_witness :
    sampleManager.roomStates.get? "r1" = some sampleRoomState ∧
    (sampleManager.clearHistory "r1" 20).getHistory "r1" = [] ∧
    applyOps (sampleManager.clearHistory "r1" 20) "r1" 21
        [HistoryOp.undo, HistoryOp.redo, HistoryOp.redo] =
      sampleManager.clearHistory "r1" 20 :=
  ⟨by decide,
    (clearHistory_spec sampleManager "r1" 20 21 sampleRoomState (by decide)).2.2.2.1,
    (clearHistory_spec sampleManager "r1" 20 21 sampleRoomState (by decide)).2.2.2.2.2 _⟩

/-- C9, as the code has it. `addStroke` returns no value, whether the room exists or not;
on an existing room the cursor after the append and the capacity trim is
`history.length - 1`, and `getHistoryIndex` reports it. -/
theorem addStroke_returns_nothing (m : DrawingStateManager) (roomId : String)
    (stroke : Stroke) (now : Nat) (state : RoomState)
    (hget : m.roomStates.get? roomId = some state) :
    (∀ (m2 : DrawingStateManager) (r2 : String), (m2.addStroke r2 stroke now).1 = none) ∧
    (m.addStroke roomId stroke now).2.roomStates.get? roomId =
      some (addStrokeState state stroke now) ∧
    (addStrokeState state stroke now).historyIndex =
      ((addStrokeState state stroke now).history.length : Int) - 1 ∧
    (m.addStroke roomId stroke now).2.getHistoryIndex roomId =
      ((addStrokeState state stroke now).history.length : Int) - 1 := by
  have hget1 : (m.addStroke roomId stroke now).2.roomStates.get? roomId =
      some (addStrokeState state stroke now) := by
    rw [addStroke_of_get m roomId state stroke now hget]
    exact jsMap_get_set_self _ _ _
  refine ⟨?_, hget1, addStrokeState_index state stroke now, ?_⟩
  · intro m2 r2
    unfold addStroke
    split <;> rfl
  · unfold getHistoryIndex
    rw [hget1]
    exact addStrokeState_index state stroke now

/-- Witness of the amended C9 on the sample manager: nothing is returned and the cursor
after the append is 1, the last index of the two stored entries. -/
theorem addStroke_returns_nothing_witness :
    sampleManager.roomStates.get? "r1" = some sampleRoomState ∧
    (sampleManager.addStroke "r1" (sampleStroke "s3") 20).1 = none ∧
    (sampleManager.addStroke "r1" (sampleStroke "s3") 20).2.getHistoryIndex "r1" = 1 :=
  ⟨by decide,
    (addStroke_returns_nothing sampleManager "r1" (sampleStroke "s3") 20 sampleRoomState
      (by decide)).1 sampleManager "r1",
    (addStroke_returns_nothing sampleManager "r1" (sampleStroke "s3") 20 sampleRoomState
      (by decide)).2.2.2.trans (by decide)⟩

/-- Counterexample to C9 as stated: on the sample manager the value `addStroke` returns is
not the cursor after the append, which is 1. -/
theorem addStroke_return_not_cursor :
    (sampleManager.addStroke "r1" (sampleStroke "s3") 20).2.getHistoryIndex "r1" = 1 ∧
    (sampleManager.addStroke "r1" (sampleStroke "s3") 20).1 ≠
      some ((sampleManager.addStroke "r1" (sampleStroke "s3") 20).2.getHistoryIndex "r1") := by
  decide

/-- C10. Colour assignment at join. The palette has 15 entries. For every `join_room` event,
with `n` the number of members `getRoomUsers` reports for the target room before the joiner
is added (creating the room does not change that number, and it is 0 when the room did not
exist), the handler stores in the joiner's identity, and in the joiner's member record of the
target room, the colour `USER_COLORS[n mod 15]`, which is a defined palette entry. Any later
`join_room` and `disconnect` events of other connections run to completion and leave the
joiner's identity and the colour of that member record as they were. -/
theorem join_colour_assignment (s : ServerState) (sid : String)
    (roomId username : Option String) (now : Nat) (later : List Input)
    (hother : ∀ i ∈ later, i.socketId ≠ sid ∧ i.isJoinOrDisconnect = true) :
    USER_COLORS.length = 15 ∧
    (s.roomManager.createRoom (jsOr roomId "default") now).2.getRoomUsers
        (jsOr roomId "default") = s.roomManager.getRoomUsers (jsOr roomId "default") ∧
    (s.roomManager.roomExists (jsOr roomId "default") = false →
      (s.roomManager.getRoomUsers (jsOr roomId "default")).length = 0) ∧
    ∃ (c : String) (s1 s2 : ServerState),
      USER_COLORS.get? ((s.roomManager.getRoomUsers (jsOr roomId "default")).length % 15)
        = some c ∧
      handle s sid (ClientEvent.join_room roomId username) now = some s1 ∧
      (s1.conn sid).currentRoom = some (jsOr roomId "default") ∧
      (s1.conn sid).userData.map UserData.color = some (some c) ∧
      (s1.roomManager.getUser (jsOr roomId "default") sid).map (fun mem => mem.color) =
        some (some c) ∧
      run s1 later = some s2 ∧
      s2.conn sid = s1.conn sid ∧
      (s2.roomManager.getUser (jsOr roomId "default") sid).map (fun mem => mem.color) =
        some (some c) := by
  have hlen : USER_COLORS.length = 15 := rfl
  have hlt : (s.roomManager.getRoomUsers (jsOr roomId "default")).length % 15 <
      USER_COLORS.length := by
    rw [hlen]
    exact Nat.mod_lt _ (by decide)
  have hcol : USER_COLORS.get?
      ((s.roomManager.getRoomUsers (jsOr roomId "default")).length % 15) =
      some (USER_COLORS.get
        ⟨(s.roomManager.getRoomUsers (jsOr roomId "default")).length % 15, hlt⟩) :=
    List.get?_eq_get hlt
  have hud : (joinUserData s sid roomId username).color =
      some (USER_COLORS.get
        ⟨(s.roomManager.getRoomUsers (jsOr roomId "default")).length % 15, hlt⟩) := by
    unfold joinUserData
    exact hcol
  have hconn : (onJoinRoom s sid roomId username now).conn sid =
      { currentRoom := some (jsOr roomId "default"),
        userData := some (joinUserData s sid roomId username) } := by
    unfold ServerState.conn
    rw [onJoinRoom_conns, jsMap_get_set_self]
    rfl
  obtain ⟨rm, hrm, hhas, _⟩ := onJoinRoom_roomManager s sid roomId username now
  have hmem : (onJoinRoom s sid roomId username now).roomManager.getUser
      (jsOr roomId "default") sid =
      some { toUserData := joinUserData s sid roomId username, joinedAt := now } := by
    rw [hrm]
    exact addUser_getUser_self rm _ (joinUserData s sid roomId username) now hhas
  obtain ⟨s2, hrun, hc2, hu2⟩ :=
    run_others_frame sid later (onJoinRoom s sid roomId username now) hother
  refine ⟨hlen, (createRoom_rooms _ _ now).2, ?_, _, onJoinRoom s sid roomId username now, s2,
    hcol, rfl, ?_, ?_, ?_, hrun, hc2, ?_⟩
  · intro hex
    have hnone := has_false_get_none s.roomManager.rooms (jsOr roomId "default")
      (by unfold RoomManager.roomExists at hex; rw [hex]; decide)
    unfold RoomManager.getRoomUsers
    rw [hnone]
    rfl
  · rw [hconn]
  · rw [hconn]
    simp only [Option.map_some', hud]
  · rw [hmem]
    simp only [Option.map_some', hud]
  · rw [hu2, hmem]
    simp only [Option.map_some', hud]

/-- Witness of C10: `sock-A` is the first to join `r1` and gets the first palette colour,
which it keeps while `sock-B` joins and leaves and `sock-C` joins. -/
theorem join_colour_assignment_witness :
    (∀ i ∈ sampleLater, i.socketId ≠ "sock-A" ∧ i.isJoinOrDisconnect = true) ∧
    ∃ (c : String) (s1 s2 : ServerState),
      USER_COLORS.get?
        ((ServerState.empty.roomManager.getRoomUsers (jsOr (some "r1") "default")).length % 15)
        = some c ∧
      handle ServerState.empty "sock-A" (ClientEvent.join_room (some "r1") (some "ann")) 1 =
        some s1 ∧
      (s1.conn "sock-A").currentRoom = some (jsOr (some "r1") "default") ∧
      (s1.conn "sock-A").userData.map UserData.color = some (some c) ∧
      (s1.roomManager.getUser (jsOr (some "r1") "default") "sock-A").map
        (fun mem => mem.color) = some (some c) ∧
      run s1 sampleLater = some s2 ∧
      s2.conn "sock-A" = s1.conn "sock-A" ∧
      (s2.roomManager.getUser (jsOr (some "r1") "default") "sock-A").map
        (fun mem => mem.color) = some (some c) :=
  ⟨by decide,
    (join_colour_assignment ServerState.empty "sock-A" (some "r1") (some "ann") 1 sampleLater
      (by decide)).2.2.2⟩

/-! ## Further lemmas on maps and the room directory -/

theorem jsMap_has_set {K V : Type} [DecidableEq K] (m : JsMap K V) (k r : K) (v : V) :
    JsMap.has (JsMap.set m k v) r = if r = k then true else JsMap.has m r := by
  unfold JsMap.has
  by_cases h : r = k
  · subst h
    rw [jsMap_get_set_self, if_pos rfl]
    rfl
  · rw [jsMap_get_set_other _ _ _ _ h, if_neg h]

theorem jsMap_has_delete {K V : Type} [DecidableEq K] (m : JsMap K V) (k r : K) :
    JsMap.has (JsMap.delete m k) r = if r = k then false else JsMap.has m r := by
  unfold JsMap.has
  by_cases h : r = k
  · subst h
    rw [jsMap_get_delete_self, if_pos rfl]
    rfl
  · rw [jsMap_get_delete_other _ _ _ h, if_neg h]

theorem jsMap_mem_of_get {K V : Type} [DecidableEq K] (m : JsMap K V) (k : K) (v : V)
    (h : JsMap.get? m k = some v) : (k, v) ∈ m := by
  induction m with
  | nil => simp [JsMap.get?] at h
  | cons hd tl ih =>
    obtain ⟨k1, v1⟩ := hd
    unfold JsMap.get? at h
    by_cases hk : k1 = k
    · rw [if_pos hk] at h
      cases h
      subst hk
      exact List.mem_cons_self _ _
    · rw [if_neg hk] at h
      exact List.mem_cons_of_mem _ (ih h)

theorem jsMap_mem_set {K V : Type} [DecidableEq K] (m : JsMap K V) (k : K) (v : V)
    (p : K × V) (h : p ∈ JsMap.set m k v) : p = (k, v) ∨ p ∈ m := by
  induction m with
  | nil =>
    simp only [JsMap.set, List.mem_singleton] at h
    exact Or.inl h
  | cons hd tl ih =>
    obtain ⟨k1, v1⟩ := hd
    unfold JsMap.set at h
    by_cases hk : k1 = k
    · rw [if_pos hk] at h
      rcases List.mem_cons.1 h with h1 | h1
      · exact Or.inl h1
      · exact Or.inr (List.mem_cons_of_mem _ h1)
    · rw [if_neg hk] at h
      rcases List.mem_cons.1 h with h1 | h1
      · exact Or.inr (h1 ▸ List.mem_cons_self _ _)
      · rcases ih h1 with h2 | h2
        · exact Or.inl h2
        · exact Or.inr (List.mem_cons_of_mem _ h2)

theorem jsMap_mem_delete {K V : Type} [DecidableEq K] (m : JsMap K V) (k : K)
    (p : K × V) (h : p ∈ JsMap.delete m k) : p ∈ m := by
  unfold JsMap.delete at h
  exact (List.mem_filter.1 h).1

theorem jsMap_get_delete_some {K V : Type} [DecidableEq K] (m : JsMap K V) (k r : K) (v : V)
    (h : JsMap.get? (JsMap.delete m k) r = some v) : JsMap.get? m r = some v := by
  by_cases hr : r = k
  · subst hr
    rw [jsMap_get_delete_self] at h
    cases h
  · rw [jsMap_get_delete_other _ _ _ hr] at h
    exact h

theorem jsMap_values_set_new {K V : Type} [DecidableEq K] (m : JsMap K V) (k : K) (v : V)
    (h : JsMap.get? m k = none) :
    JsMap.values (JsMap.set m k v) = JsMap.values m ++ [v] := by
  induction m with
  | nil => rfl
  | cons hd tl ih =>
    obtain ⟨k1, v1⟩ := hd
    unfold JsMap.get? at h
    by_cases hk : k1 = k
    · rw [if_pos hk] at h
      cases h
    · rw [if_neg hk] at h
      unfold JsMap.set
      rw [if_neg hk]
      have := ih h
      unfold JsMap.values at this ⊢
      simp only [List.map_cons, List.cons_append, this]

theorem jsMap_set_same {K V : Type} [DecidableEq K] (m : JsMap K V) (k : K) (v : V)
    (h : JsMap.get? m k = some v) : JsMap.set m k v = m := by
  induction m with
  | nil => simp [JsMap.get?] at h
  | cons hd tl ih =>
    obtain ⟨k1, v1⟩ := hd
    unfold JsMap.get? at h
    unfold JsMap.set
    by_cases hk : k1 = k
    · rw [if_pos hk] at h
      cases h
      rw [if_pos hk, hk]
    · rw [if_neg hk] at h
      rw [if_neg hk, ih h]

theorem jsMap_delete_delete {K V : Type} [DecidableEq K] (m : JsMap K V) (k : K) :
    JsMap.delete (JsMap.delete m k) k = JsMap.delete m k := by
  unfold JsMap.delete
  rw [List.filter_filter]
  simp

theorem jsMap_mem_keys_iff_has {K V : Type} [DecidableEq K] (m : JsMap K V) (k : K) :
    k ∈ JsMap.keys m ↔ JsMap.has m k = true := by
  unfold JsMap.has
  induction m with
  | nil => simp [JsMap.keys, JsMap.get?]
  | cons hd tl ih =>
    obtain ⟨k1, v1⟩ := hd
    unfold JsMap.keys at ih ⊢
    unfold JsMap.get?
    by_cases hk : k1 = k
    · rw [if_pos hk]
      simp [hk]
    · rw [if_neg hk, ← ih]
      simp only [List.map_cons, List.mem_cons]
      constructor
      · rintro (h | h)
        · exact absurd h.symm hk
        · exact h
      · exact Or.inr

theorem users_set_filter (users : JsMap String Member) (member : Member) :
    (JsMap.keys users).Nodup → (∀ p ∈ users, p.2.id = p.1) →
    (JsMap.values (JsMap.set users member.id member)).filter
        (fun x => decide (x.id = member.id)) = [member] ∧
    (JsMap.values (JsMap.set users member.id member)).filter
        (fun x => decide (x.id ≠ member.id)) =
      (JsMap.values users).filter (fun x => decide (x.id ≠ member.id)) := by
  induction users with
  | nil =>
    intro _ _
    simp [JsMap.set, JsMap.values]
  | cons hd tl ih =>
    obtain ⟨k1, v1⟩ := hd
    intro hnd hid
    have hv1 : v1.id = k1 := hid (k1, v1) (List.mem_cons_self _ _)
    have hidtl : ∀ p ∈ tl, p.2.id = p.1 := fun p hp => hid p (List.mem_cons_of_mem _ hp)
    have hndtl : (JsMap.keys tl).Nodup := by
      unfold JsMap.keys at hnd ⊢
      exact (List.nodup_cons.1 hnd).2
    have hk1 : k1 ∉ JsMap.keys tl := by
      unfold JsMap.keys at hnd ⊢
      exact (List.nodup_cons.1 hnd).1
    unfold JsMap.set
    by_cases hk : k1 = member.id
    · rw [if_pos hk]
      have hnone : ∀ x ∈ JsMap.values tl, ¬ x.id = member.id := by
        intro x hx hxe
        unfold JsMap.values at hx
        obtain ⟨p, hp, hpx⟩ := List.mem_map.1 hx
        apply hk1
        unfold JsMap.keys
        refine List.mem_map.2 ⟨p, hp, ?_⟩
        rw [← hidtl p hp, hpx, hxe, hk]
      have hf1 : (JsMap.values tl).filter (fun x => decide (x.id = member.id)) = [] := by
        rw [List.filter_eq_nil_iff]
        intro x hx
        simpa using hnone x hx
      have hv1' : v1.id = member.id := hv1.trans hk
      unfold JsMap.values at hf1 ⊢
      simp only [List.map_cons, List.filter_cons, decide_True, if_true, hf1, hv1',
        ne_eq, not_true_eq_false, decide_False, Bool.false_eq_true, if_false, and_self]
    · rw [if_neg hk]
      have hv1' : ¬ v1.id = member.id := fun e => hk (hv1.symm.trans e)
      obtain ⟨ih1, ih2⟩ := ih hndtl hidtl
      unfold JsMap.values at ih1 ih2 ⊢
      simp only [List.map_cons, List.filter_cons, hv1', decide_False, Bool.false_eq_true,
        if_false, ih1, ne_eq, not_false_eq_true, decide_True, if_true, ih2, and_self]

/-- C19. `createRoom` is idempotent. On an id that exists it returns the existing room and
leaves the directory as it was, so the members and `createdAt` of that room and every other
room are unchanged; and two calls in a row return the same room and give the same directory
as the first call alone; no call changes a room of another id. -/
theorem createRoom_idempotent (rm : RoomManager) (roomId : String) (now now2 : Nat) :
    (∀ room, rm.rooms.get? roomId = some room →
      rm.createRoom roomId now = (some room, rm)) ∧
    (rm.createRoom roomId now).2.createRoom roomId now2 = rm.createRoom roomId now ∧
    (∃ room, (rm.createRoom roomId now).1 = some room) ∧
    (∀ r, r ≠ roomId → (rm.createRoom roomId now).2.rooms.get? r = rm.rooms.get? r) := by
  have hexists : ∀ (m : RoomManager) (room : Room) (t : Nat),
      m.rooms.get? roomId = some room → m.createRoom roomId t = (some room, m) := by
    intro m room t hg
    have hhas : m.rooms.has roomId = true := by
      unfold JsMap.has
      rw [hg]
      rfl
    unfold RoomManager.createRoom
    simp only [hhas, Bool.not_true, Bool.false_eq_true, if_false, hg]
  have hfirst : ∃ room, (rm.createRoom roomId now).2.rooms.get? roomId = some room ∧
      (rm.createRoom roomId now).1 = some room := by
    cases hg : rm.rooms.get? roomId with
    | some room =>
      rw [hexists rm room now hg]
      exact ⟨room, hg, rfl⟩
    | none =>
      have hhas : rm.rooms.has roomId = false := by
        unfold JsMap.has
        rw [hg]
        rfl
      unfold RoomManager.createRoom
      simp only [hhas, Bool.not_false, if_true]
      rw [jsMap_get_set_self]
      exact ⟨_, rfl, rfl⟩
  refine ⟨fun room hg => hexists rm room now hg, ?_, ?_, ?_⟩
  · obtain ⟨room, hroom, hret⟩ := hfirst
    rw [hexists _ room now2 hroom]
    exact Prod.ext hret.symm rfl
  · obtain ⟨room, _, hret⟩ := hfirst
    exact ⟨room, hret⟩
  · intro r hr
    unfold RoomManager.createRoom
    simp only
    split
    · exact jsMap_get_set_other _ _ _ _ hr
    · rfl

/-- C20. `addUserToRoom` on a room id that does not exist returns the directory as it was,
so no room is made or changed and `getRoomUsers` of that id is still empty. On an existing
room whose member map is a map, `getRoomUsers` afterwards holds exactly one entry with the
user's id, the new record, every member of another id is as before, and the rooms of other
ids are unchanged. -/
theorem addUserToRoom_spec (rm : RoomManager) (roomId : String) (userData : UserData)
    (now : Nat) :
    (rm.rooms.get? roomId = none →
      rm.addUserToRoom roomId userData now = rm ∧
      (rm.addUserToRoom roomId userData now).getRoomUsers roomId = []) ∧
    (∀ room, rm.rooms.get? roomId = some room → room.UsersWF →
      ((rm.addUserToRoom roomId userData now).getRoomUsers roomId).filter
          (fun x => decide (x.id = userData.id)) =
        [{ toUserData := userData, joinedAt := now }] ∧
      (rm.addUserToRoom roomId userData now).getUser roomId userData.id =
        some { toUserData := userData, joinedAt := now } ∧
      ((rm.addUserToRoom roomId userData now).getRoomUsers roomId).filter
          (fun x => decide (x.id ≠ userData.id)) =
        (rm.getRoomUsers roomId).filter (fun x => decide (x.id ≠ userData.id)) ∧
      (∀ u, u ≠ userData.id →
        (rm.addUserToRoom roomId userData now).getUser roomId u = rm.getUser roomId u)) ∧
    (∀ r, r ≠ roomId →
      (rm.addUserToRoom roomId userData now).rooms.get? r = rm.rooms.get? r) := by
  refine ⟨?_, ?_, ?_⟩
  · intro hg
    have h1 : rm.addUserToRoom roomId userData now = rm := by
      unfold RoomManager.addUserToRoom
      rw [hg]
    refine ⟨h1, ?_⟩
    rw [h1]
    unfold RoomManager.getRoomUsers
    rw [hg]
  · intro room hg hwf
    have hhas : rm.rooms.has roomId = true := by
      unfold JsMap.has
      rw [hg]
      rfl
    have husers : (rm.addUserToRoom roomId userData now).getRoomUsers roomId =
        JsMap.values (JsMap.set room.users userData.id
          { toUserData := userData, joinedAt := now }) := by
      unfold RoomManager.addUserToRoom RoomManager.getRoomUsers
      rw [hg]
      simp only
      rw [jsMap_get_set_self]
    have hold : rm.getRoomUsers roomId = JsMap.values room.users := by
      unfold RoomManager.getRoomUsers
      rw [hg]
    obtain ⟨hf1, hf2⟩ := users_set_filter room.users
      { toUserData := userData, joinedAt := now } hwf.1 hwf.2
    refine ⟨?_, addUser_getUser_self rm roomId userData now hhas, ?_, ?_⟩
    · rw [husers]
      exact hf1
    · rw [husers, hold]
      exact hf2
    · intro u hu
      exact getUser_addUser_other rm roomId roomId u userData now hu
  · intro r hr
    unfold RoomManager.addUserToRoom
    cases hg : rm.rooms.get? roomId with
    | none => rfl
    | some room =>
      simp only
      exact jsMap_get_set_other _ _ _ _ hr

/-- Witness of C20 on the sample directory: `sock-B` is added to the existing room `r1`,
and adding it to the missing room `r9` changes nothing. -/
theorem addUserToRoom_spec_witness :
    (sampleDirectory.addUserToRoom "r9" sampleUserB 5 = sampleDirectory ∧
      (sampleDirectory.addUserToRoom "r9" sampleUserB 5).getRoomUsers "r9" = []) ∧
    ((sampleDirectory.addUserToRoom "r1" sampleUserB 5).getRoomUsers "r1").filter
        (fun x => decide (x.id = sampleUserB.id)) =
      [{ toUserData := sampleUserB, joinedAt := 5 }] :=
  ⟨(addUserToRoom_spec sampleDirectory "r9" sampleUserB 5).1 (by decide),
    ((addUserToRoom_spec sampleDirectory "r1" sampleUserB 5).2.1 sampleRoom (by decide)
      ⟨by decide, by decide⟩).1⟩

/-! ## Effects of the handlers -/

theorem isJoined_iff (c : ConnState) :
    c.isJoined = true ↔
      ∃ r ud, c.currentRoom = some r ∧ c.userData = some ud ∧ r ≠ "" := by
  unfold ConnState.isJoined truthy
  cases hr : c.currentRoom with
  | none => simp
  | some r =>
    cases hu : c.userData with
    | none => simp
    | some ud => simp

theorem onDisconnect_idle (s : ServerState) (sid : String)
    (h : (s.conn sid).isJoined = false) :
    onDisconnect s sid =
      { s with adapterRooms := s.adapterRooms.filter (fun p => decide (p.2 ≠ sid)) } := by
  unfold ConnState.isJoined truthy at h
  unfold onDisconnect
  simp only [ServerState.conn] at h ⊢
  split
  · rename_i r ud hr hu
    rw [hr, hu] at h
    simp only [Option.isSome_some, Bool.and_true] at h
    simp only [truthy, h, Bool.not_false, if_true]
  · rfl

theorem onDisconnect_joined (s : ServerState) (sid r : String) (ud : UserData)
    (hr : (s.conn sid).currentRoom = some r) (hu : (s.conn sid).userData = some ud)
    (ht : r ≠ "") :
    (onDisconnect s sid).roomManager =
      (if ((s.roomManager.removeUserFromRoom r sid).getRoomUsers r).length = 0 then
        (s.roomManager.removeUserFromRoom r sid).deleteRoom r
       else s.roomManager.removeUserFromRoom r sid) ∧
    (onDisconnect s sid).drawingStateManager =
      (if ((s.roomManager.removeUserFromRoom r sid).getRoomUsers r).length = 0 then
        s.drawingStateManager.deleteRoom r
       else s.drawingStateManager) ∧
    (onDisconnect s sid).conns = s.conns ∧
    (onDisconnect s sid).adapterRooms =
      s.adapterRooms.filter (fun p => decide (p.2 ≠ sid)) ∧
    (onDisconnect s sid).outbox = s.outbox ++
      [(Target.roomExcept r sid, ServerMsg.user_left sid ud.username
        ((s.roomManager.removeUserFromRoom r sid).getRoomUsers r))] := by
  unfold onDisconnect
  simp only [ServerState.conn, ServerState.emit] at hr hu ⊢
  rw [hr, hu]
  simp only [truthy, ht, ne_eq, not_false_eq_true, decide_True, Bool.not_true,
    Bool.false_eq_true, if_false]
  split <;> simp

theorem onDisconnect_conns (s : ServerState) (sid : String) :
    (onDisconnect s sid).conns = s.conns := by
  cases hj : (s.conn sid).isJoined with
  | false => rw [onDisconnect_idle s sid hj]
  | true =>
    obtain ⟨r, ud, hr, hu, ht⟩ := (isJoined_iff _).1 hj
    exact (onDisconnect_joined s sid r ud hr hu ht).2.2.1

theorem removeUser_idem (rm : RoomManager) (r u : String) :
    (rm.removeUserFromRoom r u).removeUserFromRoom r u = rm.removeUserFromRoom r u := by
  cases hg : rm.rooms.get? r with
  | none =>
    have h1 : rm.removeUserFromRoom r u = rm := by
      unfold RoomManager.removeUserFromRoom
      rw [hg]
    rw [h1, h1]
  | some room =>
    have h1 : rm.removeUserFromRoom r u =
        { rooms := rm.rooms.set r { room with users := room.users.delete u } } := by
      unfold RoomManager.removeUserFromRoom
      rw [hg]
    rw [h1]
    unfold RoomManager.removeUserFromRoom
    simp only
    rw [jsMap_get_set_self]
    simp only
    rw [jsMap_delete_delete, jsMap_set_same _ _ _ (jsMap_get_set_self _ _ _)]

theorem removeUser_after_delete (rm : RoomManager) (r u : String) :
    (rm.deleteRoom r).removeUserFromRoom r u = rm.deleteRoom r ∧
    (rm.deleteRoom r).getRoomUsers r = [] ∧
    (rm.deleteRoom r).deleteRoom r = rm.deleteRoom r := by
  have hg : (rm.deleteRoom r).rooms.get? r = none := jsMap_get_delete_self _ _
  refine ⟨?_, ?_, ?_⟩
  · unfold RoomManager.removeUserFromRoom
    rw [hg]
  · unfold RoomManager.getRoomUsers
    rw [hg]
  · unfold RoomManager.deleteRoom
    simp only
    rw [jsMap_delete_delete]

theorem ledger_delete_idem (m : DrawingStateManager) (r : String) :
    (m.deleteRoom r).deleteRoom r = m.deleteRoom r := by
  unfold DrawingStateManager.deleteRoom
  simp only
  rw [jsMap_delete_delete]

/-- C18. Disconnect is idempotent on the directory and the ledgers: in every state, for
every connection, joined or not, the `disconnect` handler run twice in succession leaves
the room directory, with its rooms and member maps, and the ledger registry exactly as the
first run left them. -/
theorem disconnect_idempotent (s : ServerState) (sid : String) (t1 t2 : Nat) :
    ∃ s1 s2 : ServerState,
      handle s sid ClientEvent.disconnect t1 = some s1 ∧
      handle s1 sid ClientEvent.disconnect t2 = some s2 ∧
      s2.roomManager = s1.roomManager ∧
      s2.drawingStateManager = s1.drawingStateManager ∧
      s2.conns = s1.conns := by
  refine ⟨onDisconnect s sid, onDisconnect (onDisconnect s sid) sid, rfl, rfl, ?_, ?_,
    onDisconnect_conns _ sid⟩
  · have hconn : (onDisconnect s sid).conn sid = s.conn sid :=
      conn_of_conns_eq _ _ sid (onDisconnect_conns s sid)
    cases hj : (s.conn sid).isJoined with
    | false =>
      rw [onDisconnect_idle _ sid (by rw [hconn]; exact hj), onDisconnect_idle s sid hj]
    | true =>
      obtain ⟨r, ud, hr, hu, ht⟩ := (isJoined_iff _).1 hj
      obtain ⟨h1, _, _, _, _⟩ := onDisconnect_joined s sid r ud hr hu ht
      obtain ⟨h2, _, _, _, _⟩ := onDisconnect_joined (onDisconnect s sid) sid r ud
        (by rw [hconn]; exact hr) (by rw [hconn]; exact hu) ht
      rw [h2, h1]
      by_cases he : ((s.roomManager.removeUserFromRoom r sid).getRoomUsers r).length = 0
      · obtain ⟨e1, e2, e3⟩ := removeUser_after_delete
          (s.roomManager.removeUserFromRoom r sid) r sid
        simp only [he, if_true, e1, e2, e3, List.length_nil]
      · simp only [he, if_false, removeUser_idem]
  · have hconn : (onDisconnect s sid).conn sid = s.conn sid :=
      conn_of_conns_eq _ _ sid (onDisconnect_conns s sid)
    cases hj : (s.conn sid).isJoined with
    | false =>
      rw [onDisconnect_idle _ sid (by rw [hconn]; exact hj), onDisconnect_idle s sid hj]
    | true =>
      obtain ⟨r, ud, hr, hu, ht⟩ := (isJoined_iff _).1 hj
      obtain ⟨h1, d1, _, _, _⟩ := onDisconnect_joined s sid r ud hr hu ht
      obtain ⟨_, d2, _, _, _⟩ := onDisconnect_joined (onDisconnect s sid) sid r ud
        (by rw [hconn]; exact hr) (by rw [hconn]; exact hu) ht
      rw [d2, d1, h1]
      by_cases he : ((s.roomManager.removeUserFromRoom r sid).getRoomUsers r).length = 0
      · obtain ⟨e1, e2, e3⟩ := removeUser_after_delete
          (s.roomManager.removeUserFromRoom r sid) r sid
        simp only [he, if_true, e1, e2, List.length_nil, ledger_delete_idem]
      · simp only [he, if_false, removeUser_idem]

/-- C17. On a connection whose `currentRoom` is unset every event other than `join_room`
runs to completion and leaves the room directory with its member maps, the ledger registry,
the connection closures and the list of sent messages as they were. -/
theorem unjoined_events_ignored (s : ServerState) (sid : String) (ev : ClientEvent)
    (now : Nat) (hun : (s.conn sid).currentRoom = none)
    (hev : ∀ roomId username, ev ≠ ClientEvent.join_room roomId username) :
    ∃ s1 : ServerState,
      handle s sid ev now = some s1 ∧
      s1.roomManager = s.roomManager ∧
      s1.drawingStateManager = s.drawingStateManager ∧
      s1.conns = s.conns ∧
      s1.outbox = s.outbox := by
  have hidle : (s.conn sid).isJoined = false := by
    unfold ConnState.isJoined truthy
    rw [hun]
    rfl
  cases ev with
  | join_room roomId username => exact absurd rfl (hev roomId username)
  | drawing_start id point color width tool =>
    refine ⟨s, ?_, rfl, rfl, rfl, rfl⟩
    unfold handle onDrawingStart
    simp only [hun]
  | drawing_step strokeId point =>
    refine ⟨s, ?_, rfl, rfl, rfl, rfl⟩
    unfold handle onDrawingStep
    simp only [hun]
  | drawing_end strokeId points color width tool =>
    refine ⟨s, ?_, rfl, rfl, rfl, rfl⟩
    unfold handle onDrawingEnd
    simp only [hun]
  | cursor_move position =>
    refine ⟨s, ?_, rfl, rfl, rfl, rfl⟩
    unfold handle onCursorMove
    simp only [hun]
  | undo_request =>
    refine ⟨s, ?_, rfl, rfl, rfl, rfl⟩
    unfold handle onUndoRequest
    simp only [hun]
  | redo_request =>
    refine ⟨s, ?_, rfl, rfl, rfl, rfl⟩
    unfold handle onRedoRequest
    simp only [hun]
  | clear_canvas =>
    refine ⟨s, ?_, rfl, rfl, rfl, rfl⟩
    unfold handle onClearCanvas
    simp only [hun]
  | disconnect =>
    refine ⟨onDisconnect s sid, rfl, ?_, ?_, ?_, ?_⟩ <;>
      rw [onDisconnect_idle s sid hidle]

theorem onJoinRoom_outbox (s : ServerState) (sid : String) (roomId username : Option String)
    (now : Nat) :
    (onJoinRoom s sid roomId username now).outbox = s.outbox ++
      [(Target.socket sid,
          ServerMsg.room_joined (jsOr roomId "default") (joinUserData s sid roomId username)
            ((onJoinRoom s sid roomId username now).roomManager.getRoomUsers
              (jsOr roomId "default"))
            ((onJoinRoom s sid roomId username now).drawingStateManager.getHistory
              (jsOr roomId "default"))
            ((onJoinRoom s sid roomId username now).drawingStateManager.getHistoryIndex
              (jsOr roomId "default"))),
        (Target.roomExcept (jsOr roomId "default") sid,
          ServerMsg.user_joined (joinUserData s sid roomId username)
            ((onJoinRoom s sid roomId username now).roomManager.getRoomUsers
              (jsOr roomId "default")))] := by
  unfold onJoinRoom joinUserData
  simp only [ServerState.emit]
  by_cases hex : s.roomManager.roomExists (jsOr roomId "default") = true
  · simp [hex]
  · have h1 := (createRoom_rooms s.roomManager (jsOr roomId "default") now).2
    simp [hex, h1]

theorem onJoinRoom_ledger (s : ServerState) (sid : String) (roomId username : Option String)
    (now : Nat) :
    (onJoinRoom s sid roomId username now).drawingStateManager =
      (if s.roomManager.roomExists (jsOr roomId "default") = true then s.drawingStateManager
       else s.drawingStateManager.initializeRoom (jsOr roomId "default") now) ∧
    (onJoinRoom s sid roomId username now).adapterRooms =
      adapterJoin s.adapterRooms (jsOr roomId "default") sid := by
  unfold onJoinRoom
  simp only [ServerState.emit]
  by_cases hex : s.roomManager.roomExists (jsOr roomId "default") = true
  · simp [hex]
  · simp [hex]

theorem onJoinRoom_conn_self (s : ServerState) (sid : String)
    (roomId username : Option String) (now : Nat) :
    (onJoinRoom s sid roomId username now).conn sid =
      { currentRoom := some (jsOr roomId "default"),
        userData := some (joinUserData s sid roomId username) } := by
  unfold ServerState.conn
  rw [onJoinRoom_conns, jsMap_get_set_self]
  rfl

theorem getUser_addUser_other_room (rm : RoomManager) (roomId r u : String)
    (userData : UserData) (now : Nat) (hne : r ≠ roomId) :
    (rm.addUserToRoom roomId userData now).getUser r u = rm.getUser r u := by
  unfold RoomManager.addUserToRoom RoomManager.getUser
  cases hg : rm.rooms.get? roomId with
  | none => rfl
  | some room =>
    simp only
    rw [jsMap_get_set_other _ _ _ _ hne]

theorem onJoinRoom_member_self (s : ServerState) (sid : String)
    (roomId username : Option String) (now : Nat) :
    (onJoinRoom s sid roomId username now).roomManager.getUser (jsOr roomId "default") sid =
      some { toUserData := joinUserData s sid roomId username, joinedAt := now } ∧
    ∀ r u, r ≠ jsOr roomId "default" →
      (onJoinRoom s sid roomId username now).roomManager.getUser r u =
        s.roomManager.getUser r u := by
  obtain ⟨rm, hrm, hhas, hsame⟩ := onJoinRoom_roomManager s sid roomId username now
  refine ⟨?_, ?_⟩
  · rw [hrm]
    exact addUser_getUser_self rm _ (joinUserData s sid roomId username) now hhas
  · intro r u hr
    rw [hrm, getUser_addUser_other_room rm _ r u _ now hr]
    exact hsame r u

/-- Witness of C17 on the sample server: `sock-Z` never joined, and its `clear_canvas`
changes nothing. -/
theorem unjoined_events_ignored_witness :
    (sampleServer.conn "sock-Z").currentRoom = none ∧
    ∃ s1 : ServerState,
      handle sampleServer "sock-Z" ClientEvent.clear_canvas 9 = some s1 ∧
      s1.roomManager = sampleServer.roomManager ∧
      s1.drawingStateManager = sampleServer.drawingStateManager ∧
      s1.conns = sampleServer.conns ∧
      s1.outbox = sampleServer.outbox :=
  ⟨by decide,
    unjoined_events_ignored sampleServer "sock-Z" ClientEvent.clear_canvas 9 (by decide)
      (fun _ _ h => ClientEvent.noConfusion h)⟩

/-- Extent of the defect behind C16, at every connection that has joined. The `join_room`
handler has no guard on the connection state and no step that leaves the previous room: it
sets `currentRoom` to the target room and the identity to a newly built one, stores a member
record in the target room, and sends `room_joined` to the joiner and `user_joined` to the
rest of the target room, while the member record of the connection in its previous room is
left behind; when the target is another room than the previous one, `currentRoom` has
changed. -/
theorem join_when_joined (s : ServerState) (sid r0 : String) (roomId username : Option String)
    (now : Nat) (hr : (s.conn sid).currentRoom = some r0) :
    ∃ s1 : ServerState,
      handle s sid (ClientEvent.join_room roomId username) now = some s1 ∧
      s1.conn sid = { currentRoom := some (jsOr roomId "default"),
                      userData := some (joinUserData s sid roomId username) } ∧
      s1.roomManager.getUser (jsOr roomId "default") sid =
        some { toUserData := joinUserData s sid roomId username, joinedAt := now } ∧
      (r0 ≠ jsOr roomId "default" →
        s1.roomManager.getUser r0 sid = s.roomManager.getUser r0 sid) ∧
      s1.outbox = s.outbox ++
        [(Target.socket sid,
            ServerMsg.room_joined (jsOr roomId "default") (joinUserData s sid roomId username)
              (s1.roomManager.getRoomUsers (jsOr roomId "default"))
              (s1.drawingStateManager.getHistory (jsOr roomId "default"))
              (s1.drawingStateManager.getHistoryIndex (jsOr roomId "default"))),
          (Target.roomExcept (jsOr roomId "default") sid,
            ServerMsg.user_joined (joinUserData s sid roomId username)
              (s1.roomManager.getRoomUsers (jsOr roomId "default")))] ∧
      (r0 ≠ jsOr roomId "default" →
        (s1.conn sid).currentRoom ≠ (s.conn sid).currentRoom) := by
  refine ⟨onJoinRoom s sid roomId username now, rfl,
    onJoinRoom_conn_self s sid roomId username now,
    (onJoinRoom_member_self s sid roomId username now).1,
    fun hne => (onJoinRoom_member_self s sid roomId username now).2 r0 sid hne,
    onJoinRoom_outbox s sid roomId username now, ?_⟩
  intro hne hsame
  rw [onJoinRoom_conn_self, hr] at hsame
  exact hne (Option.some.inj hsame).symm

/-- The second join at the sample server: `sock-A`, joined to `r1`, sends a second
`join_room` for `r2`, and its member record in `r1` is left behind. -/
theorem join_when_joined_witness :
    (sampleServer.conn "sock-A").currentRoom = some "r1" ∧
    ∃ s1 : ServerState,
      handle sampleServer "sock-A" (ClientEvent.join_room (some "r2") (some "ann")) 9 =
        some s1 ∧
      (s1.conn "sock-A").currentRoom = some "r2" ∧
      s1.roomManager.getUser "r1" "sock-A" = sampleServer.roomManager.getUser "r1" "sock-A" :=
  ⟨by decide,
    (join_when_joined sampleServer "sock-A" "r1" (some "r2") (some "ann") 9 (by decide)).elim
      (fun s1 h => ⟨s1, h.1, by rw [h.2.1]; rfl, h.2.2.2.1 (by decide)⟩)⟩

/-- C16 at the failing input. In `sampleLastMember` the connection `sock-A` is joined to `r1`
as its only member and the ledger of `r1` holds `S1`. Its second `join_room`, for `r2`, is
not ignored: `currentRoom` moves to `r2`, room `r2` and its ledger are made and two messages
are sent. The handler does not take the connection out of `r1` as the `disconnect` handler
does on leaving a room: the member record of `sock-A` stays in `r1` and the socket stays in
the transport room `r1`. When `sock-A` then disconnects, only `r2` is torn down; `r1` keeps
the member `sock-A` and its ledger with `S1` although no connection is left, and a later
joiner of `r1` gets the second colour and the old history. The disconnect of `sock-A`
without the second join tears `r1` down. -/
theorem join_when_joined_not_ignored :
    (sampleLastMember.conn "sock-A").currentRoom = some "r1" ∧
    (sampleLastMember.conn "sock-A").isJoined = true ∧
    (sampleLastMember.roomManager.getRoomUsers "r1").map (fun u => u.id) = ["sock-A"] ∧
    handle sampleLastMember "sock-A" (ClientEvent.join_room (some "r2") (some "ann")) 5 =
      some sampleRejoined ∧
    (sampleRejoined.conn "sock-A").currentRoom = some "r2" ∧
    sampleRejoined.conn "sock-A" ≠ sampleLastMember.conn "sock-A" ∧
    sampleLastMember.roomManager.roomExists "r2" = false ∧
    sampleRejoined.roomManager.roomExists "r2" = true ∧
    sampleRejoined.drawingStateManager.roomStates.has "r2" = true ∧
    sampleRejoined.outbox.length = sampleLastMember.outbox.length + 2 ∧
    (sampleRejoined.roomManager.getRoomUsers "r1").map (fun u => u.id) = ["sock-A"] ∧
    ("r1", "sock-A") ∈ sampleRejoined.adapterRooms ∧
    handle sampleRejoined "sock-A" ClientEvent.disconnect 6 = some sampleRejoinedLeft ∧
    sampleRejoinedLeft.roomManager.roomExists "r2" = false ∧
    sampleRejoinedLeft.roomManager.roomExists "r1" = true ∧
    (sampleRejoinedLeft.roomManager.getRoomUsers "r1").map (fun u => u.id) = ["sock-A"] ∧
    (sampleRejoinedLeft.drawingStateManager.getHistory "r1").map (fun e => e.id) = ["S1"] ∧
    (sampleRejoinedLeft.conn "sock-A").currentRoom = some "r2" ∧
    sampleRejoinedLeft.adapterRooms = [] ∧
    (joinUserData sampleRejoinedLeft "sock-C" (some "r1") none).color = USER_COLORS.get? 1 ∧
    ((onJoinRoom sampleRejoinedLeft "sock-C" (some "r1") none 7).drawingStateManager.getHistory
      "r1").map (fun e => e.id) = ["S1"] ∧
    (onDisconnect sampleLastMember "sock-A").roomManager.roomExists "r1" = false ∧
    (onDisconnect sampleLastMember "sock-A").drawingStateManager.roomStates.has "r1" = false := by
  decide

/-! ## The invariant of the reachable states -/

theorem ledgerStep_refl (m : DrawingStateManager) : LedgerStep m m :=
  ⟨fun _ => rfl, fun h => h⟩

theorem ledgerStep_set (m : DrawingStateManager) (r : String) (st st1 : RoomState)
    (hget : m.roomStates.get? r = some st) (hwf : st.WellFormed → st1.WellFormed) :
    LedgerStep m { roomStates := m.roomStates.set r st1 } := by
  refine ⟨?_, ?_⟩
  · intro q
    simp only
    rw [jsMap_has_set]
    by_cases hq : q = r
    · subst hq
      rw [if_pos rfl]
      unfold JsMap.has
      rw [hget]
      rfl
    · rw [if_neg hq]
  · intro hall q x hx
    simp only at hx
    by_cases hq : q = r
    · subst hq
      rw [jsMap_get_set_self] at hx
      cases hx
      exact hwf (hall q st hget)
    · rw [jsMap_get_set_other _ _ _ _ hq] at hx
      exact hall q x hx

theorem ledgerStep_addStroke (m : DrawingStateManager) (r : String) (stroke : Stroke)
    (now : Nat) : LedgerStep m (m.addStroke r stroke now).2 := by
  cases hget : m.roomStates.get? r with
  | none =>
    have h1 : m.addStroke r stroke now = (none, m) := by
      unfold addStroke
      rw [hget]
    rw [h1]
    exact ledgerStep_refl m
  | some st =>
    rw [addStroke_of_get m r st stroke now hget]
    exact ledgerStep_set m r st _ hget (fun _ => addStrokeState_wellFormed st stroke now)

theorem ledgerStep_undo (m : DrawingStateManager) (r : String) (now : Nat) :
    LedgerStep m (m.undo r now).2 := by
  unfold undo
  cases hget : m.roomStates.get? r with
  | none => exact ledgerStep_refl m
  | some st =>
    simp only
    split
    · exact ledgerStep_refl m
    · rename_i hneg
      apply ledgerStep_set m r st _ hget
      rintro ⟨h1, h2, h3⟩
      refine ⟨?_, ?_, h3⟩
      · simp only
        omega
      · simp only
        omega

theorem ledgerStep_redo (m : DrawingStateManager) (r : String) (now : Nat) :
    LedgerStep m (m.redo r now).2 := by
  unfold redo
  cases hget : m.roomStates.get? r with
  | none => exact ledgerStep_refl m
  | some st =>
    simp only
    split
    · exact ledgerStep_refl m
    · rename_i htip
      apply ledgerStep_set m r st _ hget
      rintro ⟨h1, h2, h3⟩
      refine ⟨?_, ?_, h3⟩
      · simp only
        omega
      · simp only
        omega

theorem ledgerStep_clear (m : DrawingStateManager) (r : String) (now : Nat) :
    LedgerStep m (m.clearHistory r now) := by
  unfold clearHistory
  cases hget : m.roomStates.get? r with
  | none => exact ledgerStep_refl m
  | some st =>
    simp only
    apply ledgerStep_set m r st _ hget
    intro _
    simp [RoomState.WellFormed]

theorem inv_of_ledgerStep (s s1 : ServerState) (hrm : s1.roomManager = s.roomManager)
    (hc : s1.conns = s.conns) (ha : s1.adapterRooms = s.adapterRooms)
    (hstep : LedgerStep s.drawingStateManager s1.drawingStateManager) (h : Inv s) :
    Inv s1 := by
  have hconn : ∀ u, s1.conn u = s.conn u := fun u => conn_of_conns_eq s s1 u hc
  refine ⟨?_, ?_, ?_, ?_, ?_, ?_⟩
  · intro r
    rw [hrm, hstep.1 r]
    exact h.lock r
  · exact hstep.2 h.wf
  · intro r u hm
    rw [hconn u]
    rw [hrm] at hm
    exact h.members r u hm
  · rw [hrm]
    exact h.ids
  · intro u r hr
    rw [hconn u] at hr ⊢
    exact h.joined u r hr
  · intro u r hr hm
    rw [hconn u] at hr
    rw [hrm] at hm
    rw [ha]
    exact h.adapter u r hr hm

theorem inv_onDrawingStart (s : ServerState) (sid id : String) (point : Point)
    (color : String) (width : Nat) (tool : String) (now : Nat) (h : Inv s) :
    Inv (onDrawingStart s sid id point color width tool now) := by
  unfold onDrawingStart
  split
  · split
    · exact h
    · exact inv_of_ledgerStep s _ rfl rfl rfl (ledgerStep_refl _) h
  · exact h

theorem inv_onDrawingStep (s : ServerState) (sid strokeId : String) (point : Point)
    (h : Inv s) : Inv (onDrawingStep s sid strokeId point) := by
  unfold onDrawingStep
  split
  · split
    · exact h
    · exact inv_of_ledgerStep s _ rfl rfl rfl (ledgerStep_refl _) h
  · exact h

theorem inv_onDrawingEnd (s : ServerState) (sid strokeId : String) (points : List Point)
    (color : String) (width : Nat) (tool : String) (now : Nat) (h : Inv s) :
    Inv (onDrawingEnd s sid strokeId points color width tool now) := by
  unfold onDrawingEnd
  split
  · split
    · exact h
    · exact inv_of_ledgerStep s _ rfl rfl rfl (ledgerStep_addStroke _ _ _ _) h
  · exact h

theorem inv_onClearCanvas (s : ServerState) (sid : String) (now : Nat) (h : Inv s) :
    Inv (onClearCanvas s sid now) := by
  unfold onClearCanvas
  split
  · split
    · exact h
    · exact inv_of_ledgerStep s _ rfl rfl rfl (ledgerStep_clear _ _ _) h
  · exact h

theorem inv_onUndoRequest (s s1 : ServerState) (sid : String) (now : Nat)
    (hs : onUndoRequest s sid now = some s1) (h : Inv s) : Inv s1 := by
  unfold onUndoRequest at hs
  split at hs
  · cases hs
    exact h
  · split at hs
    · cases hs
      exact h
    · simp only at hs
      split at hs
      · split at hs
        · cases hs
        · cases hs
          exact inv_of_ledgerStep s _ rfl rfl rfl (ledgerStep_undo _ _ _) h
      · cases hs
        exact inv_of_ledgerStep s _ rfl rfl rfl (ledgerStep_undo _ _ _) h

theorem inv_onRedoRequest (s s1 : ServerState) (sid : String) (now : Nat)
    (hs : onRedoRequest s sid now = some s1) (h : Inv s) : Inv s1 := by
  unfold onRedoRequest at hs
  split at hs
  · cases hs
    exact h
  · split at hs
    · cases hs
      exact h
    · simp only at hs
      split at hs
      · split at hs
        · cases hs
        · cases hs
          exact inv_of_ledgerStep s _ rfl rfl rfl (ledgerStep_redo _ _ _) h
      · cases hs
        exact inv_of_ledgerStep s _ rfl rfl rfl (ledgerStep_redo _ _ _) h

theorem jsOr_default_ne (a : Option String) : jsOr a "default" ≠ "" := by
  unfold jsOr
  cases a with
  | none => decide
  | some x =>
    simp only
    split
    · decide
    · assumption

theorem mem_adapterJoin (rooms : List (String × String)) (r u : String) :
    (r, u) ∈ adapterJoin rooms r u ∧ ∀ p, p ∈ rooms → p ∈ adapterJoin rooms r u := by
  unfold adapterJoin
  split
  · rename_i h
    exact ⟨h, fun _ hp => hp⟩
  · exact ⟨List.mem_append_right _ (List.mem_singleton_self _),
      fun _ hp => List.mem_append_left _ hp⟩

theorem addUser_has (rm : RoomManager) (t r : String) (ud : UserData) (now : Nat) :
    (rm.addUserToRoom t ud now).rooms.has r = rm.rooms.has r := by
  unfold RoomManager.addUserToRoom
  cases hg : rm.rooms.get? t with
  | none => rfl
  | some room =>
    simp only
    rw [jsMap_has_set]
    split
    · rename_i hr
      subst hr
      unfold JsMap.has
      rw [hg]
      rfl
    · rfl

theorem removeUser_has (rm : RoomManager) (t u r : String) :
    (rm.removeUserFromRoom t u).rooms.has r = rm.rooms.has r := by
  unfold RoomManager.removeUserFromRoom
  cases hg : rm.rooms.get? t with
  | none => rfl
  | some room =>
    simp only
    rw [jsMap_has_set]
    split
    · rename_i hr
      subst hr
      unfold JsMap.has
      rw [hg]
      rfl
    · rfl

theorem updateCursor_has (rm : RoomManager) (t u r : String) (position : Point) :
    (rm.updateUserCursor t u position).rooms.has r = rm.rooms.has r := by
  unfold RoomManager.updateUserCursor
  cases hg : rm.rooms.get? t with
  | none => rfl
  | some room =>
    simp only
    cases hu : room.users.get? u with
    | none => rfl
    | some user =>
      simp only
      rw [jsMap_has_set]
      split
      · rename_i hr
        subst hr
        unfold JsMap.has
        rw [hg]
        rfl
      · rfl

theorem createRoom_has_all (rm : RoomManager) (t r : String) (now : Nat) :
    (rm.createRoom t now).2.rooms.has r = if r = t then true else rm.rooms.has r := by
  unfold RoomManager.createRoom
  simp only
  by_cases hex : rm.rooms.has t = true
  · simp only [hex, Bool.not_true, Bool.false_eq_true, if_false]
    split
    · rename_i hr
      rw [hr]
      exact hex
    · rfl
  · simp only [hex, Bool.not_false, if_true, Bool.false_eq_true, not_false_eq_true]
    exact jsMap_has_set _ _ _ _

theorem idsOk_set (rm : RoomManager) (t : String) (room1 : Room) (h : rm.IdsOk)
    (h1 : ∀ p ∈ room1.users, p.2.id = p.1) :
    RoomManager.IdsOk { rooms := rm.rooms.set t room1 } := by
  intro r room hg p hp
  simp only at hg
  by_cases hr : r = t
  · subst hr
    rw [jsMap_get_set_self] at hg
    cases hg
    exact h1 p hp
  · rw [jsMap_get_set_other _ _ _ _ hr] at hg
    exact h r room hg p hp

theorem idsOk_addUser (rm : RoomManager) (t : String) (ud : UserData) (now : Nat)
    (h : rm.IdsOk) : (rm.addUserToRoom t ud now).IdsOk := by
  unfold RoomManager.addUserToRoom
  cases hg : rm.rooms.get? t with
  | none => exact h
  | some room =>
    simp only
    apply idsOk_set rm t _ h
    intro p hp
    simp only at hp
    rcases jsMap_mem_set _ _ _ p hp with h1 | h1
    · rw [h1]
    · exact h t room hg p h1

theorem idsOk_removeUser (rm : RoomManager) (t u : String) (h : rm.IdsOk) :
    (rm.removeUserFromRoom t u).IdsOk := by
  unfold RoomManager.removeUserFromRoom
  cases hg : rm.rooms.get? t with
  | none => exact h
  | some room =>
    simp only
    apply idsOk_set rm t _ h
    intro p hp
    exact h t room hg p (jsMap_mem_delete _ _ p hp)

theorem idsOk_updateCursor (rm : RoomManager) (t u : String) (position : Point)
    (h : rm.IdsOk) : (rm.updateUserCursor t u position).IdsOk := by
  unfold RoomManager.updateUserCursor
  cases hg : rm.rooms.get? t with
  | none => exact h
  | some room =>
    simp only
    cases hu : room.users.get? u with
    | none => exact h
    | some user =>
      simp only
      apply idsOk_set rm t _ h
      intro p hp
      simp only at hp
      rcases jsMap_mem_set _ _ _ p hp with h1 | h1
      · rw [h1]
        exact h t room hg (u, user) (jsMap_mem_of_get _ _ _ hu)
      · exact h t room hg p h1

theorem idsOk_createRoom (rm : RoomManager) (t : String) (now : Nat) (h : rm.IdsOk) :
    (rm.createRoom t now).2.IdsOk := by
  unfold RoomManager.createRoom
  simp only
  split
  · apply idsOk_set rm t _ h
    intro p hp
    simp at hp
  · exact h

theorem idsOk_deleteRoom (rm : RoomManager) (t : String) (h : rm.IdsOk) :
    (rm.deleteRoom t).IdsOk := by
  intro r room hg p hp
  unfold RoomManager.deleteRoom at hg
  exact h r room (jsMap_get_delete_some _ _ _ _ hg) p hp

theorem getUser_removeUser_some (rm : RoomManager) (t u0 r u : String)
    (h : (rm.removeUserFromRoom t u0).getUser r u ≠ none) : rm.getUser r u ≠ none := by
  by_cases hu : u = u0
  · subst hu
    unfold RoomManager.removeUserFromRoom RoomManager.getUser at h
    unfold RoomManager.getUser
    cases hg : rm.rooms.get? t with
    | none =>
      rw [hg] at h
      exact h
    | some room =>
      rw [hg] at h
      simp only at h
      by_cases hr : r = t
      · subst hr
        rw [jsMap_get_set_self] at h
        simp only at h
        rw [jsMap_get_delete_self] at h
        exact absurd rfl h
      · rw [jsMap_get_set_other _ _ _ _ hr] at h
        exact h
  · rw [getUser_removeUser_other rm t r u u0 hu] at h
    exact h

theorem getUser_removeUser_self (rm : RoomManager) (t u : String) :
    (rm.removeUserFromRoom t u).getUser t u = none := by
  unfold RoomManager.removeUserFromRoom RoomManager.getUser
  cases hg : rm.rooms.get? t with
  | none =>
    simp only
    rw [hg]
  | some room =>
    simp only
    rw [jsMap_get_set_self]
    simp only
    exact jsMap_get_delete_self _ _

theorem getUser_deleteRoom_some (rm : RoomManager) (t r u : String)
    (h : (rm.deleteRoom t).getUser r u ≠ none) : rm.getUser r u ≠ none ∧ r ≠ t := by
  unfold RoomManager.deleteRoom RoomManager.getUser at h
  simp only at h
  by_cases hr : r = t
  · subst hr
    rw [jsMap_get_delete_self] at h
    exact absurd rfl h
  · rw [jsMap_get_delete_other _ _ _ hr] at h
    exact ⟨h, hr⟩

theorem getUser_updateCursor_some (rm : RoomManager) (t u0 r u : String) (position : Point)
    (h : (rm.updateUserCursor t u0 position).getUser r u ≠ none) :
    rm.getUser r u ≠ none := by
  by_cases hu : u = u0
  · subst hu
    unfold RoomManager.updateUserCursor RoomManager.getUser at h
    unfold RoomManager.getUser
    cases hg : rm.rooms.get? t with
    | none =>
      rw [hg] at h
      exact h
    | some room =>
      rw [hg] at h
      simp only at h
      cases hu : room.users.get? u with
      | none =>
        rw [hu] at h
        exact h
      | some user =>
        rw [hu] at h
        simp only at h
        by_cases hr : r = t
        · subst hr
          rw [hg]
          simp only
          rw [hu]
          exact Option.some_ne_none _
        · rw [jsMap_get_set_other _ _ _ _ hr] at h
          exact h
  · rw [getUser_updateCursor_other rm t r u u0 position hu] at h
    exact h

theorem onJoinRoom_rm_eq (s : ServerState) (sid : String) (roomId username : Option String)
    (now : Nat) :
    (onJoinRoom s sid roomId username now).roomManager =
      (if s.roomManager.roomExists (jsOr roomId "default") = true then s.roomManager
       else (s.roomManager.createRoom (jsOr roomId "default") now).2).addUserToRoom
        (jsOr roomId "default") (joinUserData s sid roomId username) now := by
  unfold onJoinRoom joinUserData
  simp only [ServerState.emit]
  by_cases hex : s.roomManager.roomExists (jsOr roomId "default") = true
  · simp [hex]
  · have h1 := (createRoom_rooms s.roomManager (jsOr roomId "default") now).2
    simp [hex, h1]

theorem inv_onJoinRoom (s : ServerState) (sid : String) (roomId username : Option String)
    (now : Nat) (h : Inv s) : Inv (onJoinRoom s sid roomId username now) := by
  have hrm := onJoinRoom_rm_eq s sid roomId username now
  obtain ⟨hdsm, had⟩ := onJoinRoom_ledger s sid roomId username now
  have hself := onJoinRoom_conn_self s sid roomId username now
  have hother : ∀ u, u ≠ sid →
      (onJoinRoom s sid roomId username now).conn u = s.conn u ∧
      ∀ r, (onJoinRoom s sid roomId username now).roomManager.getUser r u =
        s.roomManager.getUser r u :=
    fun u hu => onJoinRoom_other s u sid roomId username now hu
  refine ⟨?_, ?_, ?_, ?_, ?_, ?_⟩
  · intro r
    rw [hrm, hdsm, addUser_has]
    by_cases hex : s.roomManager.roomExists (jsOr roomId "default") = true
    · rw [if_pos hex, if_pos hex]
      exact h.lock r
    · rw [if_neg hex, if_neg hex, createRoom_has_all]
      unfold DrawingStateManager.initializeRoom
      simp only
      rw [jsMap_has_set, h.lock r]
  · intro r st hst
    rw [hdsm] at hst
    by_cases hex : s.roomManager.roomExists (jsOr roomId "default") = true
    · rw [if_pos hex] at hst
      exact h.wf r st hst
    · rw [if_neg hex] at hst
      unfold DrawingStateManager.initializeRoom at hst
      simp only at hst
      by_cases hr : r = jsOr roomId "default"
      · subst hr
        rw [jsMap_get_set_self] at hst
        cases hst
        simp [RoomState.WellFormed]
      · rw [jsMap_get_set_other _ _ _ _ hr] at hst
        exact h.wf r st hst
  · intro r u hm
    by_cases hu : u = sid
    · subst hu
      rw [hself]
      exact Option.some_ne_none _
    · obtain ⟨hc, hg⟩ := hother u hu
      rw [hc]
      rw [hg r] at hm
      exact h.members r u hm
  · rw [hrm]
    apply idsOk_addUser
    split
    · exact h.ids
    · exact idsOk_createRoom _ _ _ h.ids
  · intro u r hr
    by_cases hu : u = sid
    · subst hu
      rw [hself] at hr ⊢
      simp only [Option.some.injEq] at hr
      subst hr
      exact ⟨jsOr_default_ne roomId, _, rfl, rfl⟩
    · obtain ⟨hc, _⟩ := hother u hu
      rw [hc] at hr ⊢
      exact h.joined u r hr
  · intro u r hr hm
    rw [had]
    by_cases hu : u = sid
    · subst hu
      rw [hself] at hr
      simp only [Option.some.injEq] at hr
      subst hr
      exact (mem_adapterJoin _ _ _).1
    · obtain ⟨hc, hg⟩ := hother u hu
      rw [hc] at hr
      rw [hg r] at hm
      exact (mem_adapterJoin _ _ _).2 _ (h.adapter u r hr hm)

theorem onCursorMove_idle (s : ServerState) (sid : String) (position : Point)
    (h : (s.conn sid).isJoined = false) : onCursorMove s sid position = s := by
  unfold ConnState.isJoined truthy at h
  unfold onCursorMove
  split
  · rename_i r ud hr hu
    rw [hr, hu] at h
    simp only [Option.isSome_some, Bool.and_true] at h
    simp only [truthy, h, Bool.not_false, if_true]
  · rfl

theorem onCursorMove_joined (s : ServerState) (sid r : String) (ud : UserData)
    (position : Point) (hr : (s.conn sid).currentRoom = some r)
    (hu : (s.conn sid).userData = some ud) (ht : r ≠ "") :
    (onCursorMove s sid position).roomManager =
      s.roomManager.updateUserCursor r sid position ∧
    (onCursorMove s sid position).drawingStateManager = s.drawingStateManager ∧
    (onCursorMove s sid position).conns =
      s.conns.set sid
        { currentRoom := some r, userData := some { ud with cursorPosition := position } } ∧
    (onCursorMove s sid position).adapterRooms = s.adapterRooms := by
  unfold onCursorMove
  simp only [ServerState.emit]
  rw [hr, hu]
  simp only [truthy, ht, ne_eq, not_false_eq_true, decide_True, Bool.not_true,
    Bool.false_eq_true, if_false, and_self]

theorem inv_onCursorMove (s : ServerState) (sid : String) (position : Point) (h : Inv s) :
    Inv (onCursorMove s sid position) := by
  cases hj : (s.conn sid).isJoined with
  | false =>
    rw [onCursorMove_idle s sid position hj]
    exact h
  | true =>
    obtain ⟨r, ud, hr, hu, ht⟩ := (isJoined_iff _).1 hj
    obtain ⟨hrm, hdsm, hc, had⟩ := onCursorMove_joined s sid r ud position hr hu ht
    have hself : (onCursorMove s sid position).conn sid =
        { currentRoom := some r, userData := some { ud with cursorPosition := position } } := by
      unfold ServerState.conn
      rw [hc, jsMap_get_set_self]
      rfl
    have hother : ∀ u, u ≠ sid → (onCursorMove s sid position).conn u = s.conn u :=
      fun u hu => conn_of_conns_set_other s _ u sid _ hu hc
    refine ⟨?_, ?_, ?_, ?_, ?_, ?_⟩
    · intro q
      rw [hrm, hdsm, updateCursor_has]
      exact h.lock q
    · rw [hdsm]
      exact h.wf
    · intro q u hm
      by_cases hus : u = sid
      · subst hus
        rw [hself]
        exact Option.some_ne_none _
      · rw [hother u hus]
        rw [hrm] at hm
        exact h.members q u (getUser_updateCursor_some _ _ _ _ _ _ hm)
    · rw [hrm]
      exact idsOk_updateCursor _ _ _ _ h.ids
    · intro u q hq
      by_cases hus : u = sid
      · subst hus
        rw [hself] at hq ⊢
        simp only [Option.some.injEq] at hq
        subst hq
        obtain ⟨_, ud1, hu1, hid⟩ := h.joined u r hr
        rw [hu] at hu1
        cases hu1
        exact ⟨ht, _, rfl, hid⟩
      · rw [hother u hus] at hq ⊢
        exact h.joined u q hq
    · intro u q hq hm
      rw [had]
      rw [hrm] at hm
      have hm1 := getUser_updateCursor_some _ _ _ _ _ _ hm
      by_cases hus : u = sid
      · subst hus
        rw [hself] at hq
        simp only [Option.some.injEq] at hq
        subst hq
        exact h.adapter u r hr hm1
      · rw [hother u hus] at hq
        exact h.adapter u q hq hm1

theorem inv_onDisconnect (s : ServerState) (sid : String) (h : Inv s) :
    Inv (onDisconnect s sid) := by
  have hc := onDisconnect_conns s sid
  have hconn : ∀ u, (onDisconnect s sid).conn u = s.conn u :=
    fun u => conn_of_conns_eq s _ u hc
  cases hj : (s.conn sid).isJoined with
  | false =>
    have he := onDisconnect_idle s sid hj
    refine ⟨?_, ?_, ?_, ?_, ?_, ?_⟩
    · rw [he]
      exact h.lock
    · rw [he]
      exact h.wf
    · intro q u hm
      rw [hconn u]
      rw [he] at hm
      exact h.members q u hm
    · rw [he]
      exact h.ids
    · intro u q hq
      rw [hconn u] at hq ⊢
      exact h.joined u q hq
    · intro u q hq hm
      rw [hconn u] at hq
      rw [he] at hm ⊢
      simp only at hm ⊢
      refine List.mem_filter.2 ⟨h.adapter u q hq hm, ?_⟩
      have hne : u ≠ sid := by
        intro hus
        subst hus
        obtain ⟨hqne, ud, hud, _⟩ := h.joined u q hq
        have : (s.conn u).isJoined = true := (isJoined_iff _).2 ⟨q, ud, hq, hud, hqne⟩
        rw [hj] at this
        cases this
      simpa using hne
  | true =>
    obtain ⟨r, ud, hr, hu, ht⟩ := (isJoined_iff _).1 hj
    obtain ⟨hrm, hdsm, _, had, _⟩ := onDisconnect_joined s sid r ud hr hu ht
    have hsome : ∀ q u, (onDisconnect s sid).roomManager.getUser q u ≠ none →
        s.roomManager.getUser q u ≠ none ∧ (q = r → u ≠ sid) := by
      intro q u hm
      rw [hrm] at hm
      split at hm
      · obtain ⟨h1, h2⟩ := getUser_deleteRoom_some _ _ _ _ hm
        exact ⟨getUser_removeUser_some _ _ _ _ _ h1, fun hq => absurd hq h2⟩
      · refine ⟨getUser_removeUser_some _ _ _ _ _ hm, ?_⟩
        intro hq hus
        subst hq hus
        exact hm (getUser_removeUser_self _ _ _)
    refine ⟨?_, ?_, ?_, ?_, ?_, ?_⟩
    · intro q
      rw [hrm, hdsm]
      split
      · unfold RoomManager.deleteRoom DrawingStateManager.deleteRoom
        simp only
        rw [jsMap_has_delete, jsMap_has_delete, removeUser_has, h.lock q]
      · rw [removeUser_has]
        exact h.lock q
    · intro q st hst
      rw [hdsm] at hst
      split at hst
      · unfold DrawingStateManager.deleteRoom at hst
        exact h.wf q st (jsMap_get_delete_some _ _ _ _ hst)
      · exact h.wf q st hst
    · intro q u hm
      rw [hconn u]
      exact h.members q u (hsome q u hm).1
    · rw [hrm]
      split
      · exact idsOk_deleteRoom _ _ (idsOk_removeUser _ _ _ h.ids)
      · exact idsOk_removeUser _ _ _ h.ids
    · intro u q hq
      rw [hconn u] at hq ⊢
      exact h.joined u q hq
    · intro u q hq hm
      rw [hconn u] at hq
      obtain ⟨hm1, hne⟩ := hsome q u hm
      rw [had]
      refine List.mem_filter.2 ⟨h.adapter u q hq hm1, ?_⟩
      have hus : u ≠ sid := by
        intro hus
        subst hus
        rw [hr] at hq
        cases hq
        exact hne rfl rfl
      simpa using hus

theorem inv_empty : Inv ServerState.empty := by
  refine ⟨fun _ => rfl, ?_, ?_, ?_, ?_, ?_⟩
  · intro r st h
    cases h
  · intro r u h
    exact absurd rfl h
  · intro r room h
    cases h
  · intro u r h
    cases h
  · intro u r h
    cases h

theorem inv_handle (s s1 : ServerState) (sid : String) (ev : ClientEvent) (now : Nat)
    (hs : handle s sid ev now = some s1) (h : Inv s) : Inv s1 := by
  cases ev with
  | join_room roomId username =>
    cases hs
    exact inv_onJoinRoom s sid roomId username now h
  | drawing_start id point color width tool =>
    cases hs
    exact inv_onDrawingStart s sid id point color width tool now h
  | drawing_step strokeId point =>
    cases hs
    exact inv_onDrawingStep s sid strokeId point h
  | drawing_end strokeId points color width tool =>
    cases hs
    exact inv_onDrawingEnd s sid strokeId points color width tool now h
  | cursor_move position =>
    cases hs
    exact inv_onCursorMove s sid position h
  | undo_request => exact inv_onUndoRequest s s1 sid now hs h
  | redo_request => exact inv_onRedoRequest s s1 sid now hs h
  | clear_canvas =>
    cases hs
    exact inv_onClearCanvas s sid now h
  | disconnect =>
    cases hs
    exact inv_onDisconnect s sid h

theorem inv_run (inputs : List Input) :
    ∀ s s1 : ServerState, run s inputs = some s1 → Inv s → Inv s1 := by
  induction inputs with
  | nil =>
    intro s s1 hs h
    cases hs
    exact h
  | cons i rest ih =>
    intro s s1 hs h
    unfold run at hs
    cases hstep : handle s i.socketId i.event i.now with
    | none =>
      rw [hstep] at hs
      cases hs
    | some s2 =>
      rw [hstep] at hs
      exact ih s2 s1 hs (inv_handle s s2 _ _ _ hstep h)

theorem inv_of_reachable (s : ServerState) (h : Reachable s) : Inv s := by
  obtain ⟨inputs, hrun⟩ := h
  exact inv_run inputs _ s hrun inv_empty

/-- C15. Lockstep lifecycle. In every state the server reaches from its start through any
sequence of client events on any connections, a room id is among the ids of the room
directory exactly when it is among the ids of the ledger registry. -/
theorem lockstep_lifecycle (inputs : List Input) (s : ServerState)
    (hrun : run ServerState.empty inputs = some s) :
    (∀ r, r ∈ s.roomManager.getAllRooms ↔ r ∈ JsMap.keys s.drawingStateManager.roomStates) ∧
    (∀ r, s.roomManager.roomExists r = s.drawingStateManager.roomStates.has r) := by
  have hinv := inv_of_reachable s ⟨inputs, hrun⟩
  refine ⟨?_, hinv.lock⟩
  intro r
  unfold RoomManager.getAllRooms
  rw [jsMap_mem_keys_iff_has, jsMap_mem_keys_iff_has, hinv.lock r]

/-- Witness of C15 on the sample traffic: the directory and the registry both hold `r1`
and nothing else. -/
theorem lockstep_lifecycle_witness :
    run ServerState.empty sampleInputs = some sampleServer ∧
    (∀ r, r ∈ sampleServer.roomManager.getAllRooms ↔
      r ∈ JsMap.keys sampleServer.drawingStateManager.roomStates) ∧
    sampleServer.roomManager.getAllRooms = ["r1"] :=
  ⟨by decide, (lockstep_lifecycle sampleInputs sampleServer (by decide)).1, by decide⟩

/-! ## Lemmas for the handler claims -/

theorem jsMap_key_ne_of_get_none {K V : Type} [DecidableEq K] (m : JsMap K V) (k : K)
    (h : JsMap.get? m k = none) : ∀ p ∈ m, p.1 ≠ k := by
  induction m with
  | nil =>
    intro p hp
    cases hp
  | cons hd tl ih =>
    obtain ⟨k1, v1⟩ := hd
    unfold JsMap.get? at h
    by_cases hk : k1 = k
    · rw [if_pos hk] at h
      cases h
    · rw [if_neg hk] at h
      intro p hp
      rcases List.mem_cons.1 hp with h1 | h1
      · rw [h1]
        exact hk
      · exact ih h p h1

theorem addUser_getRoomUsers_new (rm : RoomManager) (t : String) (ud : UserData) (now : Nat)
    (hhas : rm.rooms.has t = true) (hnew : rm.getUser t ud.id = none) :
    (rm.addUserToRoom t ud now).getRoomUsers t =
      rm.getRoomUsers t ++ [{ toUserData := ud, joinedAt := now }] := by
  unfold RoomManager.addUserToRoom RoomManager.getRoomUsers
  unfold RoomManager.getUser at hnew
  cases hg : rm.rooms.get? t with
  | none =>
    unfold JsMap.has at hhas
    rw [hg] at hhas
    cases hhas
  | some room =>
    rw [hg] at hnew
    simp only at hnew ⊢
    rw [jsMap_get_set_self]
    simp only
    exact jsMap_values_set_new _ _ _ hnew

theorem members_id_ne (rm : RoomManager) (t u : String) (hids : rm.IdsOk)
    (hnew : rm.getUser t u = none) : ∀ x ∈ rm.getRoomUsers t, x.id ≠ u := by
  unfold RoomManager.getUser at hnew
  unfold RoomManager.getRoomUsers
  cases hg : rm.rooms.get? t with
  | none =>
    intro x hx
    cases hx
  | some room =>
    rw [hg] at hnew
    simp only at hnew ⊢
    intro x hx
    unfold JsMap.values at hx
    obtain ⟨p, hp, hpx⟩ := List.mem_map.1 hx
    rw [← hpx, hids t room hg p hp]
    exact jsMap_key_ne_of_get_none _ _ hnew p hp

theorem visible_length (m : DrawingStateManager) (r : String)
    (hwf : ∀ st, m.roomStates.get? r = some st → st.WellFormed) :
    ((m.getHistory r).length : Int) = m.getHistoryIndex r + 1 := by
  cases hg : m.roomStates.get? r with
  | none =>
    unfold getHistory getHistoryIndex
    rw [hg]
    rfl
  | some st =>
    obtain ⟨h1, h2, _⟩ := hwf st hg
    rw [getHistory_of_get m r st hg h1]
    unfold getHistoryIndex
    rw [hg, List.length_take]
    simp only
    omega

theorem initializeRoom_fresh (m : DrawingStateManager) (r : String) (now : Nat) :
    (m.initializeRoom r now).getHistory r = [] ∧
    (m.initializeRoom r now).getHistoryIndex r = -1 := by
  have hg : (m.initializeRoom r now).roomStates.get? r =
      some { history := [], historyIndex := -1, createdAt := now, lastModified := now } :=
    jsMap_get_set_self _ _ _
  unfold getHistory getHistoryIndex
  rw [hg]
  exact ⟨rfl, rfl⟩

theorem getRoomUsers_ne_nil_has (rm : RoomManager) (r : String)
    (h : rm.getRoomUsers r ≠ []) : rm.rooms.has r = true := by
  unfold RoomManager.getRoomUsers at h
  unfold JsMap.has
  cases hg : rm.rooms.get? r with
  | none =>
    rw [hg] at h
    exact absurd rfl h
  | some room => rfl

theorem getUser_some_has (rm : RoomManager) (r u : String)
    (h : rm.getUser r u ≠ none) : rm.rooms.has r = true := by
  unfold RoomManager.getUser at h
  unfold JsMap.has
  cases hg : rm.rooms.get? r with
  | none =>
    rw [hg] at h
    exact absurd rfl h
  | some room => rfl

theorem mem_recipients_room (adapterRooms : List (String × String)) (r u : String)
    (h : (r, u) ∈ adapterRooms) : u ∈ recipients adapterRooms (Target.room r) := by
  unfold recipients
  refine List.mem_map.2 ⟨(r, u), List.mem_filter.2 ⟨h, ?_⟩, rfl⟩
  simp

/-- C11. Join snapshot. In every reachable state, a `join_room` event on a connection whose
`currentRoom` is unset sends to the joiner a `room_joined` message whose `drawingHistory`
is the visible history `getHistory` of the target room and whose `historyIndex` is its
cursor `getHistoryIndex`, both read in the state the handler leaves (the ledger as it was
when the room existed, the empty ledger when this join made the room), with
`len(drawingHistory) = historyIndex + 1`. Its `users` list is the member list from before
the join, none of whose entries has the joiner's id, followed by the joiner's record; and
the `user_joined` message to the rest of the room carries the same `users` list. -/
theorem join_snapshot (s : ServerState) (sid : String) (roomId username : Option String)
    (now : Nat) (hreach : Reachable s) (hun : (s.conn sid).currentRoom = none) :
    ∃ (s1 : ServerState) (users : List Member) (hist : List Entry) (idx : Int),
      handle s sid (ClientEvent.join_room roomId username) now = some s1 ∧
      s1.outbox = s.outbox ++
        [(Target.socket sid,
            ServerMsg.room_joined (jsOr roomId "default") (joinUserData s sid roomId username)
              users hist idx),
          (Target.roomExcept (jsOr roomId "default") sid,
            ServerMsg.user_joined (joinUserData s sid roomId username) users)] ∧
      hist = s1.drawingStateManager.getHistory (jsOr roomId "default") ∧
      idx = s1.drawingStateManager.getHistoryIndex (jsOr roomId "default") ∧
      (s.roomManager.roomExists (jsOr roomId "default") = true →
        hist = s.drawingStateManager.getHistory (jsOr roomId "default") ∧
        idx = s.drawingStateManager.getHistoryIndex (jsOr roomId "default")) ∧
      (s.roomManager.roomExists (jsOr roomId "default") = false → hist = [] ∧ idx = -1) ∧
      (hist.length : Int) = idx + 1 ∧
      users = s.roomManager.getRoomUsers (jsOr roomId "default") ++
        [{ toUserData := joinUserData s sid roomId username, joinedAt := now }] ∧
      (∀ x ∈ s.roomManager.getRoomUsers (jsOr roomId "default"), x.id ≠ sid) ∧
      users = s1.roomManager.getRoomUsers (jsOr roomId "default") := by
  have hinv := inv_of_reachable s hreach
  have hinv1 := inv_onJoinRoom s sid roomId username now hinv
  have hnew : ∀ r, s.roomManager.getUser r sid = none := by
    intro r
    by_contra hne
    exact hinv.members r sid hne hun
  obtain ⟨hdsm, _⟩ := onJoinRoom_ledger s sid roomId username now
  have hrm := onJoinRoom_rm_eq s sid roomId username now
  have husers : (onJoinRoom s sid roomId username now).roomManager.getRoomUsers
      (jsOr roomId "default") =
      s.roomManager.getRoomUsers (jsOr roomId "default") ++
        [{ toUserData := joinUserData s sid roomId username, joinedAt := now }] := by
    rw [hrm]
    by_cases hex : s.roomManager.roomExists (jsOr roomId "default") = true
    · rw [if_pos hex]
      exact addUser_getRoomUsers_new _ _ _ now hex (hnew _)
    · rw [if_neg hex]
      have hc := createRoom_rooms s.roomManager (jsOr roomId "default") now
      rw [addUser_getRoomUsers_new _ _ _ now hc.1
        (by rw [getUser_createRoom]; exact hnew _), hc.2]
  refine ⟨onJoinRoom s sid roomId username now, _, _, _, rfl,
    onJoinRoom_outbox s sid roomId username now, rfl, rfl, ?_, ?_, ?_, husers, ?_, rfl⟩
  · intro hex
    rw [hdsm, if_pos hex]
    exact ⟨rfl, rfl⟩
  · intro hex
    have hex1 : ¬ s.roomManager.roomExists (jsOr roomId "default") = true := by
      rw [hex]
      decide
    rw [hdsm, if_neg hex1]
    exact initializeRoom_fresh _ _ _
  · exact visible_length _ _ (fun st hst => hinv1.wf _ st hst)
  · exact members_id_ne _ _ _ hinv.ids (hnew _)

/-- Witness of C11 on the sample server: `sock-C` joins `r1`, where `sock-A` and `sock-B`
are members and stroke `S1` is visible. -/
theorem join_snapshot_witness :
    Reachable sampleServer ∧
    (sampleServer.conn "sock-C").currentRoom = none ∧
    ∃ (s1 : ServerState) (users : List Member) (hist : List Entry) (idx : Int),
      handle sampleServer "sock-C" (ClientEvent.join_room (some "r1") none) 9 = some s1 ∧
      s1.outbox = sampleServer.outbox ++
        [(Target.socket "sock-C",
            ServerMsg.room_joined "r1" (joinUserData sampleServer "sock-C" (some "r1") none)
              users hist idx),
          (Target.roomExcept "r1" "sock-C",
            ServerMsg.user_joined (joinUserData sampleServer "sock-C" (some "r1") none)
              users)] ∧
      hist = sampleServer.drawingStateManager.getHistory "r1" ∧
      idx = 0 ∧
      users.map (fun x => x.id) = ["sock-A", "sock-B", "sock-C"] := by
  obtain ⟨s1, users, hist, idx, h1, h2, _, _, h5, _, _, h8, _, _⟩ :=
    join_snapshot sampleServer "sock-C" (some "r1") none 9 ⟨sampleInputs, by decide⟩
      (by decide)
  refine ⟨⟨sampleInputs, by decide⟩, by decide, s1, users, hist, idx, h1, h2, ?_, ?_, ?_⟩
  · exact (h5 (by decide)).1
  · rw [(h5 (by decide)).2]
    decide
  · rw [h8]
    decide

theorem getHistory_addStroke (m : DrawingStateManager) (r : String) (st : RoomState)
    (stroke : Stroke) (now : Nat) (hget : m.roomStates.get? r = some st)
    (hwf : st.WellFormed) :
    (m.addStroke r stroke now).2.getHistory r =
      (m.getHistory r ++ [mkEntry (stroke, now)]).drop
        (if (m.getHistory r).length = 500 then 1 else 0) ∧
    ((m.addStroke r stroke now).2.getHistory r).getLast? = some (mkEntry (stroke, now)) ∧
    (m.addStroke r stroke now).2.getHistoryIndex r =
      (((m.addStroke r stroke now).2.getHistory r).length : Int) - 1 := by
  obtain ⟨h1, h2, h3⟩ := hwf
  simp only [MAX_HISTORY_LENGTH] at h3
  have hvis := getHistory_of_get m r st hget h1
  have hget1 : (m.addStroke r stroke now).2.roomStates.get? r =
      some (addStrokeState st stroke now) := by
    rw [addStroke_of_get m r st stroke now hget]
    exact jsMap_get_set_self _ _ _
  have hidx := addStrokeState_index st stroke now
  have hhist := addStrokeState_history st stroke now h1 h2
  simp only [MAX_HISTORY_LENGTH] at hhist
  have hvis1 : (m.addStroke r stroke now).2.getHistory r =
      (addStrokeState st stroke now).history := by
    rw [getHistory_of_get _ r _ hget1 (by omega)]
    apply List.take_of_length_le
    omega
  have hcount : (if (m.getHistory r).length = 500 then 1 else 0) =
      (st.historyIndex + 1).toNat + 1 - 500 := by
    rw [hvis, List.length_take]
    split <;> omega
  have hfirst : (m.addStroke r stroke now).2.getHistory r =
      (m.getHistory r ++ [mkEntry (stroke, now)]).drop
        (if (m.getHistory r).length = 500 then 1 else 0) := by
    rw [hvis1, hhist, hcount, hvis]
  refine ⟨hfirst, ?_, ?_⟩
  · rw [hfirst, List.getLast?_drop, List.getLast?_concat]
    have hle : ¬ (m.getHistory r ++ [mkEntry (stroke, now)]).length ≤
        (if (m.getHistory r).length = 500 then 1 else 0) := by
      rw [List.length_append, List.length_singleton]
      split <;> omega
    rw [if_neg hle]
  · unfold getHistoryIndex
    rw [hget1, hvis1]
    exact hidx

theorem jsIndex_last {α : Type} (l : List α) (e : α) (h : l.getLast? = some e) :
    jsIndex l ((l.length : Int) - 1) = some e := by
  have hne : l ≠ [] := by
    intro hnil
    rw [hnil] at h
    cases h
  have hpos : 0 < l.length := List.length_pos.2 hne
  unfold jsIndex
  rw [if_neg (by omega)]
  have hk : ((l.length : Int) - 1).toNat = l.length - 1 := by omega
  rw [hk, List.get?_eq_getElem?, ← List.getLast?_eq_getElem?]
  exact h

theorem onDrawingEnd_joined (s : ServerState) (sid r : String) (ud : UserData)
    (strokeId : String) (points : List Point) (color : String) (width : Nat) (tool : String)
    (now : Nat) (hr : (s.conn sid).currentRoom = some r)
    (hu : (s.conn sid).userData = some ud) (ht : r ≠ "") :
    onDrawingEnd s sid strokeId points color width tool now =
      { s with
        drawingStateManager := (s.drawingStateManager.addStroke r
          { id := strokeId, userId := sid, username := ud.username, userColor := ud.color,
            points := points, color := color, width := width, tool := tool,
            timestamp := now } now).2,
        outbox := s.outbox ++
          [(Target.room r,
            ServerMsg.stroke_complete
              { id := strokeId, userId := sid, username := ud.username,
                userColor := ud.color, points := points, color := color, width := width,
                tool := tool, timestamp := now }
              ((s.drawingStateManager.addStroke r
                { id := strokeId, userId := sid, username := ud.username,
                  userColor := ud.color, points := points, color := color, width := width,
                  tool := tool, timestamp := now } now).2.getHistoryIndex r))] } := by
  unfold onDrawingEnd
  simp only [ServerState.emit]
  rw [hr, hu]
  simp only [truthy, ht, ne_eq, not_false_eq_true, decide_True, Bool.not_true,
    Bool.false_eq_true, if_false]

theorem ledger_of_member (s : ServerState) (r u : String) (hinv : Inv s)
    (hm : s.roomManager.getUser r u ≠ none) :
    ∃ st, s.drawingStateManager.roomStates.get? r = some st ∧ st.WellFormed := by
  have hhas := getUser_some_has _ _ _ hm
  rw [hinv.lock r] at hhas
  unfold JsMap.has at hhas
  cases hg : s.drawingStateManager.roomStates.get? r with
  | none =>
    rw [hg] at hhas
    cases hhas
  | some st => exact ⟨st, rfl, hinv.wf r st hg⟩

/-- C12. In every reachable state, for a joined connection that is a member of its room
and every `drawing_end` payload, the handler appends one stroke to the ledger of that room:
the stroke has the payload's id, points, color, width and tool and the sender's socket id,
username and colour; the visible history afterwards is the one before followed by that
stroke (without its oldest entry when 500 were visible) and the ledgers of other rooms are
unchanged. One `stroke_complete` message is emitted to the whole room; the sender and every
other member whose current room it is are among its receivers; its `historyIndex` is the
cursor after the append, at which index the visible history holds that stroke. -/
theorem drawing_end_commits (s : ServerState) (sid r : String) (ud : UserData)
    (strokeId : String) (points : List Point) (color : String) (width : Nat) (tool : String)
    (now : Nat) (hreach : Reachable s) (hr : (s.conn sid).currentRoom = some r)
    (hu : (s.conn sid).userData = some ud) (hm : s.roomManager.getUser r sid ≠ none) :
    ∃ (s1 : ServerState) (stroke : Stroke),
      handle s sid (ClientEvent.drawing_end strokeId points color width tool) now = some s1 ∧
      stroke = { id := strokeId, userId := sid, username := ud.username,
                 userColor := ud.color, points := points, color := color, width := width,
                 tool := tool, timestamp := now } ∧
      ud.id = sid ∧
      s1.drawingStateManager.getHistory r =
        (s.drawingStateManager.getHistory r ++ [mkEntry (stroke, now)]).drop
          (if (s.drawingStateManager.getHistory r).length = 500 then 1 else 0) ∧
      (∀ q, q ≠ r → s1.drawingStateManager.roomStates.get? q =
        s.drawingStateManager.roomStates.get? q) ∧
      s1.roomManager = s.roomManager ∧
      s1.outbox = s.outbox ++
        [(Target.room r,
          ServerMsg.stroke_complete stroke (s1.drawingStateManager.getHistoryIndex r))] ∧
      jsIndex (s1.drawingStateManager.getHistory r)
        (s1.drawingStateManager.getHistoryIndex r) = some (mkEntry (stroke, now)) ∧
      s1.drawingStateManager.getHistoryIndex r =
        ((s1.drawingStateManager.getHistory r).length : Int) - 1 ∧
      sid ∈ recipients s1.adapterRooms (Target.room r) ∧
      (∀ u, (s.conn u).currentRoom = some r → s.roomManager.getUser r u ≠ none →
        u ∈ recipients s1.adapterRooms (Target.room r)) := by
  have hinv := inv_of_reachable s hreach
  obtain ⟨ht, ud1, hu1, hid⟩ := hinv.joined sid r hr
  rw [hu] at hu1
  cases hu1
  obtain ⟨st, hget, hwf⟩ := ledger_of_member s r sid hinv hm
  have heff := onDrawingEnd_joined s sid r ud strokeId points color width tool now hr hu ht
  obtain ⟨hvis, hlast, hidx⟩ := getHistory_addStroke s.drawingStateManager r st
    { id := strokeId, userId := sid, username := ud.username, userColor := ud.color,
      points := points, color := color, width := width, tool := tool, timestamp := now }
    now hget hwf
  refine ⟨onDrawingEnd s sid strokeId points color width tool now, _, rfl, rfl, hid, ?_, ?_,
    ?_, ?_, ?_, ?_, ?_, ?_⟩
  · rw [heff]
    exact hvis
  · intro q hq
    rw [heff]
    simp only
    rw [addStroke_of_get _ r st _ now hget]
    exact jsMap_get_set_other _ _ _ _ hq
  · rw [heff]
  · rw [heff]
  · rw [heff]
    simp only
    rw [hidx]
    exact jsIndex_last _ _ hlast
  · rw [heff]
    exact hidx
  · rw [heff]
    exact mem_recipients_room _ _ _ (hinv.adapter sid r hr hm)
  · intro u hur hum
    rw [heff]
    exact mem_recipients_room _ _ _ (hinv.adapter u r hur hum)

/-- Witness of C12 on the sample server: `sock-B`, a member of `r1`, commits stroke `S2`
after the stroke `S1` of `sock-A`; the message carries cursor 1. -/
theorem drawing_end_commits_witness :
    Reachable sampleServer ∧
    (sampleServer.conn "sock-B").currentRoom = some "r1" ∧
    sampleServer.roomManager.getUser "r1" "sock-B" ≠ none ∧
    ∃ (s1 : ServerState) (stroke : Stroke),
      handle sampleServer "sock-B"
        (ClientEvent.drawing_end "S2" [{ x := 1, y := 1 }] "#111111" 3 "brush") 9 = some s1 ∧
      stroke.id = "S2" ∧ stroke.userId = "sock-B" ∧ stroke.username = "bob" ∧
      s1.outbox = sampleServer.outbox ++
        [(Target.room "r1", ServerMsg.stroke_complete stroke 1)] ∧
      (s1.drawingStateManager.getHistory "r1").map (fun e => e.id) = ["S1", "S2"] ∧
      "sock-B" ∈ recipients s1.adapterRooms (Target.room "r1") ∧
      "sock-A" ∈ recipients s1.adapterRooms (Target.room "r1") := by
  obtain ⟨s1, stroke, h1, h2, _, h4, _, _, h7, _, h8, h9, h10⟩ :=
    drawing_end_commits sampleServer "sock-B" "r1"
      { id := "sock-B", username := "bob", color := some "#4ECDC4",
        cursorPosition := { x := 0, y := 0 } }
      "S2" [{ x := 1, y := 1 }] "#111111" 3 "brush" 9 ⟨sampleInputs, by decide⟩
      (by decide) (by decide) (by decide)
  subst h2
  have hcur : s1.drawingStateManager.getHistoryIndex "r1" = 1 := by
    rw [h8, h4]
    decide
  refine ⟨⟨sampleInputs, by decide⟩, by decide, by decide, s1,
    { id := "S2", userId := "sock-B", username := "bob", userColor := some "#4ECDC4",
      points := [{ x := 1, y := 1 }], color := "#111111", width := 3, tool := "brush",
      timestamp := 9 }, h1, rfl, rfl, rfl, ?_,
    ?_, h9, h10 "sock-A" (by decide) (by decide)⟩
  · rw [h7, hcur]
  · rw [h4]
    decide

theorem onUndoRequest_joined (s : ServerState) (sid r : String) (ud : UserData)
    (st : RoomState) (now : Nat) (hr : (s.conn sid).currentRoom = some r)
    (hu : (s.conn sid).userData = some ud) (ht : r ≠ "")
    (hget : s.drawingStateManager.roomStates.get? r = some st)
    (hpos : 0 ≤ st.historyIndex) :
    onUndoRequest s sid now = some
      { s with
        drawingStateManager :=
          { roomStates := s.drawingStateManager.roomStates.set r
              { st with historyIndex := st.historyIndex - 1, lastModified := now } },
        outbox := s.outbox ++
          [(Target.room r,
            ServerMsg.undo_performed ud.username (st.historyIndex - 1)
              (jsIndex st.history st.historyIndex))] } := by
  have hundo : s.drawingStateManager.undo r now =
      (UndoResult.success (st.historyIndex - 1) (jsIndex st.history st.historyIndex),
        { roomStates := s.drawingStateManager.roomStates.set r
            { st with historyIndex := st.historyIndex - 1, lastModified := now } }) := by
    unfold undo
    rw [hget]
    simp only
    rw [if_neg (by omega)]
  unfold onUndoRequest
  simp only [ServerState.emit]
  rw [hr]
  simp only [truthy, ht, ne_eq, not_false_eq_true, decide_True, Bool.not_true,
    Bool.false_eq_true, if_false, hundo, hu]

theorem take_succ_last {α : Type} (l : List α) (n : Nat) (h : n < l.length) :
    (l.take (n + 1)).getLast? = l.get? n ∧ (l.take (n + 1)).dropLast = l.take n := by
  refine ⟨?_, ?_⟩
  · rw [List.getLast?_take, if_neg (Nat.succ_ne_zero n), List.get?_eq_getElem?]
    simp only [Nat.add_sub_cancel]
    rw [List.getElem?_eq_getElem h]
    rfl
  · rw [List.dropLast_eq_take, List.length_take, List.take_take]
    have hk : min (min (n + 1) l.length - 1) (n + 1) = n := by omega
    rw [hk]

theorem join_existing_snapshot (s : ServerState) (sid r : String)
    (roomId username : Option String) (now : Nat) (ht : jsOr roomId "default" = r)
    (hex : s.roomManager.roomExists r = true) :
    ∃ (ud : UserData) (users : List Member),
      (onJoinRoom s sid roomId username now).outbox = s.outbox ++
        [(Target.socket sid,
            ServerMsg.room_joined r ud users (s.drawingStateManager.getHistory r)
              (s.drawingStateManager.getHistoryIndex r)),
          (Target.roomExcept r sid, ServerMsg.user_joined ud users)] := by
  subst ht
  have hout := onJoinRoom_outbox s sid roomId username now
  rw [(onJoinRoom_ledger s sid roomId username now).1, if_pos hex] at hout
  exact ⟨_, _, hout⟩

theorem join_fresh_snapshot (s : ServerState) (sid r : String)
    (roomId username : Option String) (now : Nat) (ht : jsOr roomId "default" = r)
    (hex : ¬ s.roomManager.roomExists r = true) :
    ∃ (ud : UserData) (users : List Member),
      (onJoinRoom s sid roomId username now).outbox = s.outbox ++
        [(Target.socket sid, ServerMsg.room_joined r ud users [] (-1)),
          (Target.roomExcept r sid, ServerMsg.user_joined ud users)] := by
  subst ht
  have hout := onJoinRoom_outbox s sid roomId username now
  obtain ⟨h1, h2⟩ := initializeRoom_fresh s.drawingStateManager (jsOr roomId "default") now
  rw [(onJoinRoom_ledger s sid roomId username now).1, if_neg hex, h1, h2] at hout
  exact ⟨_, _, hout⟩

/-- C13. Undo is global. In every reachable state, for a room whose visible history is not
empty, with last visible stroke `S` whoever committed it, an `undo_request` of any
connection that is joined to the room and a member of it emits one `undo_performed` message
to the whole room with `historyIndex` the old cursor minus one and `undoneStroke = S`; the
requester and every other member whose current room it is are among its receivers; and a
`join_room` for that room right afterwards, from any connection, is answered with
`drawingHistory` equal to the old visible history without `S`. -/
theorem undo_is_global (s : ServerState) (sid r : String) (ud : UserData) (now : Nat)
    (hreach : Reachable s) (hr : (s.conn sid).currentRoom = some r)
    (hu : (s.conn sid).userData = some ud) (hm : s.roomManager.getUser r sid ≠ none)
    (hvis : s.drawingStateManager.getHistory r ≠ []) :
    ∃ (s1 : ServerState) (S : Entry),
      handle s sid ClientEvent.undo_request now = some s1 ∧
      (s.drawingStateManager.getHistory r).getLast? = some S ∧
      s1.outbox = s.outbox ++
        [(Target.room r,
          ServerMsg.undo_performed ud.username
            (s.drawingStateManager.getHistoryIndex r - 1) (some S))] ∧
      sid ∈ recipients s1.adapterRooms (Target.room r) ∧
      (∀ u, (s.conn u).currentRoom = some r → s.roomManager.getUser r u ≠ none →
        u ∈ recipients s1.adapterRooms (Target.room r)) ∧
      s1.drawingStateManager.getHistory r =
        (s.drawingStateManager.getHistory r).dropLast ∧
      s1.drawingStateManager.getHistoryIndex r =
        s.drawingStateManager.getHistoryIndex r - 1 ∧
      (∀ (sid3 : String) (roomId3 username3 : Option String) (now3 : Nat),
        jsOr roomId3 "default" = r →
        ∃ (s2 : ServerState) (ud3 : UserData) (users : List Member),
          handle s1 sid3 (ClientEvent.join_room roomId3 username3) now3 = some s2 ∧
          s2.outbox = s1.outbox ++
            [(Target.socket sid3,
                ServerMsg.room_joined r ud3 users
                  (s.drawingStateManager.getHistory r).dropLast
                  (s.drawingStateManager.getHistoryIndex r - 1)),
              (Target.roomExcept r sid3, ServerMsg.user_joined ud3 users)]) := by
  have hinv := inv_of_reachable s hreach
  obtain ⟨ht, _, _, _⟩ := hinv.joined sid r hr
  obtain ⟨st, hget, h1, h2, _⟩ := ledger_of_member s r sid hinv hm
  have hvis0 := getHistory_of_get s.drawingStateManager r st hget h1
  have hidx0 : s.drawingStateManager.getHistoryIndex r = st.historyIndex := by
    unfold getHistoryIndex
    rw [hget]
  have hpos : 0 ≤ st.historyIndex := by
    by_contra hneg
    apply hvis
    rw [hvis0]
    have hz : (st.historyIndex + 1).toNat = 0 := by omega
    rw [hz]
    rfl
  have hlt : st.historyIndex.toNat < st.history.length := by omega
  have hk : (st.historyIndex + 1).toNat = st.historyIndex.toNat + 1 := by omega
  obtain ⟨hlast, hdrop⟩ := take_succ_last st.history st.historyIndex.toNat hlt
  have hS : jsIndex st.history st.historyIndex =
      some (st.history.get ⟨st.historyIndex.toNat, hlt⟩) := by
    unfold jsIndex
    rw [if_neg (by omega), List.get?_eq_get hlt]
  have heff := onUndoRequest_joined s sid r ud st now hr hu ht hget hpos
  have hget1 : ∀ s1, onUndoRequest s sid now = some s1 →
      s1.drawingStateManager.roomStates.get? r =
        some { st with historyIndex := st.historyIndex - 1, lastModified := now } := by
    intro s1 hs1
    rw [heff] at hs1
    cases hs1
    exact jsMap_get_set_self _ _ _
  obtain ⟨s1, hs1⟩ : ∃ s1, onUndoRequest s sid now = some s1 := ⟨_, heff⟩
  have hg1 := hget1 s1 hs1
  have hs1' := hs1
  rw [heff] at hs1'
  have hfields : s1.roomManager = s.roomManager ∧ s1.adapterRooms = s.adapterRooms ∧
      s1.outbox = s.outbox ++
        [(Target.room r,
          ServerMsg.undo_performed ud.username (st.historyIndex - 1)
            (jsIndex st.history st.historyIndex))] := by
    cases hs1'
    exact ⟨rfl, rfl, rfl⟩
  obtain ⟨hrm1, had1, hout1⟩ := hfields
  have hvis1 : s1.drawingStateManager.getHistory r =
      (s.drawingStateManager.getHistory r).dropLast := by
    rw [getHistory_of_get _ r _ hg1 (by simp only; omega), hvis0, hk, hdrop]
    simp only
    have hk2 : (st.historyIndex - 1 + 1).toNat = st.historyIndex.toNat := by omega
    rw [hk2]
  have hidx1 : s1.drawingStateManager.getHistoryIndex r =
      s.drawingStateManager.getHistoryIndex r - 1 := by
    unfold getHistoryIndex
    rw [hg1, hget]
  refine ⟨s1, st.history.get ⟨st.historyIndex.toNat, hlt⟩, hs1, ?_, ?_, ?_, ?_, hvis1, hidx1,
    ?_⟩
  · rw [hvis0, hk, hlast, List.get?_eq_get hlt]
  · rw [hout1, hidx0, hS]
  · rw [had1]
    exact mem_recipients_room _ _ _ (hinv.adapter sid r hr hm)
  · intro u hur hum
    rw [had1]
    exact mem_recipients_room _ _ _ (hinv.adapter u r hur hum)
  · intro sid3 roomId3 username3 now3 ht3
    have hex : s1.roomManager.roomExists r = true := by
      rw [hrm1]
      exact getUser_some_has _ _ _ hm
    obtain ⟨ud3, users, hout⟩ := join_existing_snapshot s1 sid3 r roomId3 username3 now3 ht3 hex
    rw [hvis1, hidx1] at hout
    exact ⟨_, ud3, users, rfl, hout⟩

/-- Witness of C13, the scenario of the claim: in room `r1` joined by `sock-A` and `sock-B`,
`sock-A` committed `S1` and `sock-B` requests the undo. The message carries cursor -1 and
`S1`, and `sock-C`, joining afterwards, receives an empty `drawingHistory`. -/
theorem undo_is_global_witness :
    Reachable sampleServer ∧
    (sampleServer.conn "sock-B").currentRoom = some "r1" ∧
    sampleServer.roomManager.getUser "r1" "sock-B" ≠ none ∧
    sampleServer.drawingStateManager.getHistory "r1" ≠ [] ∧
    ∃ (s1 : ServerState) (S : Entry),
      handle sampleServer "sock-B" ClientEvent.undo_request 4 = some s1 ∧
      S.id = "S1" ∧ S.userId = "sock-A" ∧
      s1.outbox = sampleServer.outbox ++
        [(Target.room "r1", ServerMsg.undo_performed "bob" (-1) (some S))] ∧
      "sock-A" ∈ recipients s1.adapterRooms (Target.room "r1") ∧
      "sock-B" ∈ recipients s1.adapterRooms (Target.room "r1") ∧
      ∃ (s2 : ServerState) (ud3 : UserData) (users : List Member),
        handle s1 "sock-C" (ClientEvent.join_room (some "r1") none) 5 = some s2 ∧
        s2.outbox = s1.outbox ++
          [(Target.socket "sock-C", ServerMsg.room_joined "r1" ud3 users [] (-1)),
            (Target.roomExcept "r1" "sock-C", ServerMsg.user_joined ud3 users)] := by
  obtain ⟨s1, S, h1, h2, h3, h4, h5, _, _, h8⟩ :=
    undo_is_global sampleServer "sock-B" "r1"
      { id := "sock-B", username := "bob", color := some "#4ECDC4",
        cursorPosition := { x := 0, y := 0 } }
      4 ⟨sampleInputs, by decide⟩ (by decide) (by decide) (by decide) (by decide)
  have hS : (sampleServer.drawingStateManager.getHistory "r1").getLast? =
      some (mkEntry (sampleS1, 3)) := by
    decide
  have hSe := Option.some.inj (h2.symm.trans hS)
  have hidx : sampleServer.drawingStateManager.getHistoryIndex "r1" - 1 = -1 := by decide
  have hdrop : (sampleServer.drawingStateManager.getHistory "r1").dropLast = [] := by decide
  obtain ⟨s2, ud3, users, hj, hout⟩ := h8 "sock-C" (some "r1") none 5 (by decide)
  rw [hidx] at h3
  rw [hdrop, hidx] at hout
  refine ⟨⟨sampleInputs, by decide⟩, by decide, by decide, by decide, s1, S, h1, ?_, ?_, h3,
    h5 "sock-A" (by decide) (by decide), h4, s2, ud3, users, hj, hout⟩
  · rw [hSe]
    rfl
  · rw [hSe]
    rfl

/-- C14. Room teardown. In every reachable state, after the `disconnect` handler of a
connection whose current room is `r` has run, room `r` exists, and likewise its ledger,
exactly when the member list of `r` is still not empty; the leaver is no member of `r` any
more and the other members of `r` are as before. When the member list is empty, so that room
and ledger are gone, the next `join_room` for `r`, from any connection, is answered with
`drawingHistory = []` and `historyIndex = -1`, whatever the ledger held. -/
theorem room_teardown (s : ServerState) (sid r : String) (now : Nat)
    (hreach : Reachable s) (hr : (s.conn sid).currentRoom = some r) :
    ∃ s1 : ServerState,
      handle s sid ClientEvent.disconnect now = some s1 ∧
      (s1.roomManager.roomExists r = true ↔ s1.roomManager.getRoomUsers r ≠ []) ∧
      (s1.drawingStateManager.roomStates.has r = true ↔
        s1.roomManager.getRoomUsers r ≠ []) ∧
      s1.roomManager.getUser r sid = none ∧
      (∀ u, u ≠ sid → s1.roomManager.getUser r u = s.roomManager.getUser r u) ∧
      (s1.roomManager.getRoomUsers r = [] →
        ∀ (sid2 : String) (roomId2 username2 : Option String) (now2 : Nat),
          jsOr roomId2 "default" = r →
          ∃ (s2 : ServerState) (ud2 : UserData) (users : List Member),
            handle s1 sid2 (ClientEvent.join_room roomId2 username2) now2 = some s2 ∧
            s2.outbox = s1.outbox ++
              [(Target.socket sid2, ServerMsg.room_joined r ud2 users [] (-1)),
                (Target.roomExcept r sid2, ServerMsg.user_joined ud2 users)]) := by
  have hinv := inv_of_reachable s hreach
  have hinv1 := inv_onDisconnect s sid hinv
  obtain ⟨ht, ud, hu, _⟩ := hinv.joined sid r hr
  obtain ⟨hrm, _, _, _, _⟩ := onDisconnect_joined s sid r ud hr hu ht
  have hexists : (onDisconnect s sid).roomManager.roomExists r = true ↔
      (onDisconnect s sid).roomManager.getRoomUsers r ≠ [] := by
    constructor
    · intro hex
      rw [hrm] at hex ⊢
      split at hex
      · unfold RoomManager.roomExists RoomManager.deleteRoom at hex
        simp only at hex
        rw [jsMap_has_delete, if_pos rfl] at hex
        cases hex
      · rename_i hne
        rw [if_neg hne]
        intro hnil
        apply hne
        rw [hnil]
        rfl
    · intro hne
      exact getRoomUsers_ne_nil_has _ _ hne
  have hnone : (onDisconnect s sid).roomManager.getUser r sid = none := by
    rw [hrm]
    split
    · unfold RoomManager.deleteRoom RoomManager.getUser
      simp only
      rw [jsMap_get_delete_self]
    · exact getUser_removeUser_self _ _ _
  refine ⟨onDisconnect s sid, rfl, hexists, ?_, hnone, ?_, ?_⟩
  · rw [← hexists]
    unfold RoomManager.roomExists
    rw [hinv1.lock r]
  · intro u hu
    exact (onDisconnect_other s u sid hu).2 r
  · intro hnil sid2 roomId2 username2 now2 ht2
    have hex : ¬ (onDisconnect s sid).roomManager.roomExists r = true :=
      fun hex => (hexists.1 hex) hnil
    obtain ⟨ud2, users, hout⟩ :=
      join_fresh_snapshot (onDisconnect s sid) sid2 r roomId2 username2 now2 ht2 hex
    exact ⟨_, ud2, users, rfl, hout⟩

/-- Witness of C14: `sock-A` is the last member of `r1`, whose ledger shows `S1`; after its
disconnect the room and the ledger are gone, and `sock-C`, joining `r1`, receives the empty
history. -/
theorem room_teardown_witness :
    Reachable sampleLastMember ∧
    (sampleLastMember.conn "sock-A").currentRoom = some "r1" ∧
    (sampleLastMember.drawingStateManager.getHistory "r1").length = 1 ∧
    ∃ s1 : ServerState,
      handle sampleLastMember "sock-A" ClientEvent.disconnect 5 = some s1 ∧
      s1.roomManager.roomExists "r1" = false ∧
      s1.drawingStateManager.roomStates.has "r1" = false ∧
      ∃ (s2 : ServerState) (ud2 : UserData) (users : List Member),
        handle s1 "sock-C" (ClientEvent.join_room (some "r1") none) 6 = some s2 ∧
        s2.outbox = s1.outbox ++
          [(Target.socket "sock-C", ServerMsg.room_joined "r1" ud2 users [] (-1)),
            (Target.roomExcept "r1" "sock-C", ServerMsg.user_joined ud2 users)] := by
  have hreach : Reachable sampleLastMember :=
    ⟨sampleInputs ++ [{ socketId := "sock-B", event := ClientEvent.disconnect, now := 4 }],
      by decide⟩
  obtain ⟨s1, h1, h2, h3, _, _, h6⟩ :=
    room_teardown sampleLastMember "sock-A" "r1" 5 hreach (by decide)
  have hs1 : s1 = onDisconnect sampleLastMember "sock-A" := (Option.some.inj h1).symm
  have hnil : s1.roomManager.getRoomUsers "r1" = [] := by
    rw [hs1]
    decide
  have hex : s1.roomManager.roomExists "r1" = false := by
    cases hb : s1.roomManager.roomExists "r1" with
    | false => rfl
    | true => exact absurd hnil (h2.1 hb)
  have hled : s1.drawingStateManager.roomStates.has "r1" = false := by
    cases hb : s1.drawingStateManager.roomStates.has "r1" with
    | false => rfl
    | true => exact absurd hnil (h3.1 hb)
  obtain ⟨s2, ud2, users, hj, hout⟩ := h6 hnil "sock-C" (some "r1") none 6 (by decide)
  exact ⟨hreach, by decide, by decide, s1, h1, hex, hled, s2, ud2, users, hj, hout⟩

/-! ## Cross-room isolation -/

theorem roomUntouched_of_get (m m1 : DrawingStateManager) (r2 : String)
    (h : m1.roomStates.get? r2 = m.roomStates.get? r2) : RoomUntouched m m1 r2 := by
  refine ⟨h, ?_, ?_, ?_⟩
  · unfold getHistory
    rw [h]
  · unfold getHistoryIndex
    rw [h]
  · unfold JsMap.has
    rw [h]

theorem roomUntouched_set (m : DrawingStateManager) (r r2 : String) (st : RoomState)
    (hne : r2 ≠ r) : RoomUntouched m { roomStates := m.roomStates.set r st } r2 :=
  roomUntouched_of_get _ _ _ (jsMap_get_set_other _ _ _ _ hne)

/-- C22. Cross-room isolation. For two distinct room ids `r` and `r2` and every manager
state, each of `initializeRoom`, `addStroke`, `undo`, `redo`, `clearHistory` and `deleteRoom`
applied to `r` leaves room `r2` as it was: the same room object when it exists and none
when it does not, so `getHistory(r2)` and `getHistoryIndex(r2)` return the same values and
`r2` is neither created nor deleted. -/
theorem cross_room_isolation (m : DrawingStateManager) (r r2 : String) (stroke : Stroke)
    (now : Nat) (hne : r2 ≠ r) :
    RoomUntouched m (m.initializeRoom r now) r2 ∧
    RoomUntouched m (m.addStroke r stroke now).2 r2 ∧
    RoomUntouched m (m.undo r now).2 r2 ∧
    RoomUntouched m (m.redo r now).2 r2 ∧
    RoomUntouched m (m.clearHistory r now) r2 ∧
    RoomUntouched m (m.deleteRoom r) r2 := by
  refine ⟨roomUntouched_set m r r2 _ hne, ?_, ?_, ?_, ?_, ?_⟩
  · unfold addStroke
    cases hg : m.roomStates.get? r with
    | none => exact roomUntouched_of_get _ _ _ rfl
    | some st => exact roomUntouched_set m r r2 _ hne
  · unfold undo
    cases hg : m.roomStates.get? r with
    | none => exact roomUntouched_of_get _ _ _ rfl
    | some st =>
      simp only
      split
      · exact roomUntouched_of_get _ _ _ rfl
      · exact roomUntouched_set m r r2 _ hne
  · unfold redo
    cases hg : m.roomStates.get? r with
    | none => exact roomUntouched_of_get _ _ _ rfl
    | some st =>
      simp only
      split
      · exact roomUntouched_of_get _ _ _ rfl
      · exact roomUntouched_set m r r2 _ hne
  · unfold clearHistory
    cases hg : m.roomStates.get? r with
    | none => exact roomUntouched_of_get _ _ _ rfl
    | some st => exact roomUntouched_set m r r2 _ hne
  · exact roomUntouched_of_get _ _ _ (jsMap_get_delete_other _ _ _ hne)

/-- Witness of C22 on the sample manager: operations on room `r2` leave `r1` with its one
visible entry, and operations on `r1` do not make `r2`. -/
theorem cross_room_isolation_witness :
    ("r1" : String) ≠ "r2" ∧
    (sampleManager.initializeRoom "r2" 20).getHistory "r1" = sampleManager.getHistory "r1" ∧
    (sampleManager.deleteRoom "r2").getHistoryIndex "r1" = 0 ∧
    (sampleManager.addStroke "r1" (sampleStroke "s3") 20).2.roomStates.has "r2" = false :=
  ⟨by decide,
    (cross_room_isolation sampleManager "r2" "r1" (sampleStroke "s3") 20 (by decide)).1.2.1,
    (cross_room_isolation sampleManager "r2" "r1" (sampleStroke "s3") 20
      (by decide)).2.2.2.2.2.2.2.1.trans (by decide),
    (cross_room_isolation sampleManager "r1" "r2" (sampleStroke "s3") 20
      (by decide)).2.1.2.2.2.trans (by decide)⟩

/-! ## Live connections -/

theorem handle_ledgerOnly (s s1 : ServerState) (sid : String) (ev : ClientEvent) (now : Nat)
    (hev : ev.isLedgerOnly = true) (hs : handle s sid ev now = some s1) :
    s1.roomManager = s.roomManager ∧ s1.conns = s.conns := by
  cases ev with
  | join_room roomId username => cases hev
  | cursor_move position => cases hev
  | disconnect => cases hev
  | drawing_start id point color width tool =>
    cases hs
    unfold onDrawingStart
    split
    · split <;> exact ⟨rfl, rfl⟩
    · exact ⟨rfl, rfl⟩
  | drawing_step strokeId point =>
    cases hs
    unfold onDrawingStep
    split
    · split <;> exact ⟨rfl, rfl⟩
    · exact ⟨rfl, rfl⟩
  | drawing_end strokeId points color width tool =>
    cases hs
    unfold onDrawingEnd
    split
    · split <;> exact ⟨rfl, rfl⟩
    · exact ⟨rfl, rfl⟩
  | clear_canvas =>
    cases hs
    unfold onClearCanvas
    split
    · split <;> exact ⟨rfl, rfl⟩
    · exact ⟨rfl, rfl⟩
  | undo_request =>
    have hs1 : onUndoRequest s sid now = some s1 := hs
    unfold onUndoRequest at hs1
    split at hs1
    · cases hs1
      exact ⟨rfl, rfl⟩
    · split at hs1
      · cases hs1
        exact ⟨rfl, rfl⟩
      · simp only at hs1
        split at hs1
        · split at hs1
          · cases hs1
          · cases hs1
            exact ⟨rfl, rfl⟩
        · cases hs1
          exact ⟨rfl, rfl⟩
  | redo_request =>
    have hs1 : onRedoRequest s sid now = some s1 := hs
    unfold onRedoRequest at hs1
    split at hs1
    · cases hs1
      exact ⟨rfl, rfl⟩
    · split at hs1
      · cases hs1
        exact ⟨rfl, rfl⟩
      · simp only at hs1
        split at hs1
        · split at hs1
          · cases hs1
          · cases hs1
            exact ⟨rfl, rfl⟩
        · cases hs1
          exact ⟨rfl, rfl⟩

theorem getUser_updateCursor_keeps (rm : RoomManager) (t u0 r u : String) (position : Point)
    (h : rm.getUser r u ≠ none) : (rm.updateUserCursor t u0 position).getUser r u ≠ none := by
  by_cases hu : u = u0
  · subst hu
    unfold RoomManager.updateUserCursor
    cases hg : rm.rooms.get? t with
    | none => exact h
    | some room =>
      simp only
      cases hus : room.users.get? u with
      | none => exact h
      | some user =>
        simp only
        unfold RoomManager.getUser at h ⊢
        simp only
        by_cases hr : r = t
        · subst hr
          rw [jsMap_get_set_self]
          simp only
          rw [jsMap_get_set_self]
          exact Option.some_ne_none _
        · rw [jsMap_get_set_other _ _ _ _ hr]
          exact h
  · rw [getUser_updateCursor_other rm t r u u0 position hu]
    exact h

theorem memberOfCurrent_step (s s1 : ServerState) (sid sid2 : String) (ev : ClientEvent)
    (now : Nat) (hs : handle s sid2 ev now = some s1)
    (hlive : sid2 = sid → ev ≠ ClientEvent.disconnect) (h : MemberOfCurrent s sid) :
    MemberOfCurrent s1 sid := by
  cases hled : ev.isLedgerOnly with
  | true =>
    obtain ⟨hrm, hc⟩ := handle_ledgerOnly s s1 sid2 ev now hled hs
    intro r hr
    rw [conn_of_conns_eq s s1 sid hc] at hr
    rw [hrm]
    exact h r hr
  | false =>
    cases ev with
    | drawing_start id point color width tool => cases hled
    | drawing_step strokeId point => cases hled
    | drawing_end strokeId points color width tool => cases hled
    | undo_request => cases hled
    | redo_request => cases hled
    | clear_canvas => cases hled
    | join_room roomId username =>
      cases hs
      by_cases hsid : sid = sid2
      · subst hsid
        intro r hr
        rw [onJoinRoom_conn_self] at hr
        simp only [Option.some.injEq] at hr
        subst hr
        rw [(onJoinRoom_member_self s sid roomId username now).1]
        exact Option.some_ne_none _
      · obtain ⟨hc, hg⟩ := onJoinRoom_other s sid sid2 roomId username now hsid
        intro r hr
        rw [hc] at hr
        rw [hg r]
        exact h r hr
    | cursor_move position =>
      cases hs
      cases hj : (s.conn sid2).isJoined with
      | false =>
        rw [onCursorMove_idle s sid2 position hj]
        exact h
      | true =>
        obtain ⟨r0, ud, hr0, hu0, ht0⟩ := (isJoined_iff _).1 hj
        obtain ⟨hrm, _, hc, _⟩ := onCursorMove_joined s sid2 r0 ud position hr0 hu0 ht0
        intro r hr
        rw [hrm]
        apply getUser_updateCursor_keeps
        apply h r
        by_cases hsid : sid = sid2
        · subst hsid
          unfold ServerState.conn at hr
          rw [hc, jsMap_get_set_self] at hr
          simp only [Option.getD_some, Option.some.injEq] at hr
          subst hr
          exact hr0
        · rw [conn_of_conns_set_other s _ sid sid2 _ hsid hc] at hr
          exact hr
    | disconnect =>
      cases hs
      have hsid : sid ≠ sid2 := fun e => hlive e.symm rfl
      obtain ⟨hc, hg⟩ := onDisconnect_other s sid sid2 hsid
      intro r hr
      rw [hc] at hr
      rw [hg r]
      exact h r hr

theorem memberOfCurrent_run (sid : String) (inputs : List Input) :
    ∀ s s1 : ServerState, run s inputs = some s1 →
      (∀ i ∈ inputs, i.socketId = sid → i.event ≠ ClientEvent.disconnect) →
      MemberOfCurrent s sid → MemberOfCurrent s1 sid := by
  induction inputs with
  | nil =>
    intro s s1 hs _ h
    cases hs
    exact h
  | cons i rest ih =>
    intro s s1 hs hlive h
    unfold run at hs
    cases hstep : handle s i.socketId i.event i.now with
    | none =>
      rw [hstep] at hs
      cases hs
    | some s2 =>
      rw [hstep] at hs
      exact ih s2 s1 hs (fun j hj => hlive j (List.mem_cons_of_mem _ hj))
        (memberOfCurrent_step s s2 sid i.socketId i.event i.now hstep
          (hlive i (List.mem_cons_self _ _)) h)

theorem onUndoRequest_total (s : ServerState) (sid : String) (now : Nat)
    (h : ∀ r, (s.conn sid).currentRoom = some r → ∃ ud, (s.conn sid).userData = some ud) :
    ∃ s1, onUndoRequest s sid now = some s1 := by
  unfold onUndoRequest
  cases hr : (s.conn sid).currentRoom with
  | none => exact ⟨_, rfl⟩
  | some r =>
    obtain ⟨ud, hu⟩ := h r hr
    simp only
    split
    · exact ⟨_, rfl⟩
    · split
      · rw [hu]
        exact ⟨_, rfl⟩
      · exact ⟨_, rfl⟩

theorem onRedoRequest_total (s : ServerState) (sid : String) (now : Nat)
    (h : ∀ r, (s.conn sid).currentRoom = some r → ∃ ud, (s.conn sid).userData = some ud) :
    ∃ s1, onRedoRequest s sid now = some s1 := by
  unfold onRedoRequest
  cases hr : (s.conn sid).currentRoom with
  | none => exact ⟨_, rfl⟩
  | some r =>
    obtain ⟨ud, hu⟩ := h r hr
    simp only
    split
    · exact ⟨_, rfl⟩
    · split
      · rw [hu]
        exact ⟨_, rfl⟩
      · exact ⟨_, rfl⟩

theorem undo_found (m : DrawingStateManager) (r : String) (st : RoomState) (now : Nat)
    (hget : m.roomStates.get? r = some st) :
    (m.undo r now).1 ≠ UndoResult.failure "Room not found" ∧
    (m.redo r now).1 ≠ RedoResult.failure "Room not found" := by
  refine ⟨?_, ?_⟩
  · unfold undo
    rw [hget]
    simp only
    split
    · intro h
      have h2 := UndoResult.failure.inj h
      revert h2
      decide
    · intro h
      cases h
  · unfold redo
    rw [hget]
    simp only
    split
    · intro h
      have h2 := RedoResult.failure.inj h
      revert h2
      decide
    · intro h
      cases h

/-- C23. In every state the server reaches from its start, for every connection that has
not disconnected and whose `currentRoom` is set to `r`: its identity is set, room `r` is in
the room directory and in the ledger registry, and the connection's id is in the member
map of `r`. Hence on `r` the calls `undo` and `redo` do not answer `Room not found`,
`addStroke` finds the room and appends, and the `undo_request` and `redo_request` handlers
of the connection run to completion, never reading `username` from an unset identity. -/
theorem live_connection_state (inputs : List Input) (s : ServerState) (sid r : String)
    (hrun : run ServerState.empty inputs = some s)
    (hlive : ∀ i ∈ inputs, i.socketId = sid → i.event ≠ ClientEvent.disconnect)
    (hr : (s.conn sid).currentRoom = some r) :
    (∃ ud, (s.conn sid).userData = some ud ∧ ud.id = sid) ∧
    s.roomManager.roomExists r = true ∧
    s.drawingStateManager.roomStates.has r = true ∧
    s.roomManager.getUser r sid ≠ none ∧
    (∀ now, (s.drawingStateManager.undo r now).1 ≠ UndoResult.failure "Room not found") ∧
    (∀ now, (s.drawingStateManager.redo r now).1 ≠ RedoResult.failure "Room not found") ∧
    (∀ stroke now, ∃ st, s.drawingStateManager.roomStates.get? r = some st ∧
      (s.drawingStateManager.addStroke r stroke now).2.roomStates.get? r =
        some (addStrokeState st stroke now)) ∧
    (∀ now, ∃ s1, handle s sid ClientEvent.undo_request now = some s1) ∧
    (∀ now, ∃ s1, handle s sid ClientEvent.redo_request now = some s1) := by
  have hinv := inv_of_reachable s ⟨inputs, hrun⟩
  have hmem : MemberOfCurrent s sid := by
    apply memberOfCurrent_run sid inputs ServerState.empty s hrun hlive
    intro q hq
    cases hq
  have hm := hmem r hr
  obtain ⟨_, ud, hu, hid⟩ := hinv.joined sid r hr
  have hex := getUser_some_has _ _ _ hm
  obtain ⟨st, hget, _⟩ := ledger_of_member s r sid hinv hm
  have htot : ∀ q, (s.conn sid).currentRoom = some q →
      ∃ ud, (s.conn sid).userData = some ud := by
    intro q hq
    obtain ⟨_, ud1, hu1, _⟩ := hinv.joined sid q hq
    exact ⟨ud1, hu1⟩
  refine ⟨⟨ud, hu, hid⟩, hex, ?_, hm, fun now => (undo_found _ r st now hget).1,
    fun now => (undo_found _ r st now hget).2, ?_, fun now => onUndoRequest_total s sid now htot,
    fun now => onRedoRequest_total s sid now htot⟩
  · rw [← hinv.lock r]
    exact hex
  · intro stroke now
    refine ⟨st, hget, ?_⟩
    rw [addStroke_of_get _ r st stroke now hget]
    exact jsMap_get_set_self _ _ _

/-- Witness of C23 on the sample traffic: `sock-B` has joined `r1` and not disconnected. -/
theorem live_connection_state_witness :
    run ServerState.empty sampleInputs = some sampleServer ∧
    (∀ i ∈ sampleInputs, i.socketId = "sock-B" → i.event ≠ ClientEvent.disconnect) ∧
    (sampleServer.conn "sock-B").currentRoom = some "r1" ∧
    sampleServer.roomManager.getUser "r1" "sock-B" ≠ none ∧
    (∃ s1, handle sampleServer "sock-B" ClientEvent.undo_request 9 = some s1) :=
  ⟨by decide, by decide, by decide,
    (live_connection_state sampleInputs sampleServer "sock-B" "r1" (by decide) (by decide)
      (by decide)).2.2.2.1,
    (live_connection_state sampleInputs sampleServer "sock-B" "r1" (by decide) (by decide)
      (by decide)).2.2.2.2.2.2.2.1 9⟩

/-! ## The client view -/

theorem addStrokes_on_empty (roomId : String) (l : List (Stroke × Nat))
    (m : DrawingStateManager) (t1 t2 : Nat)
    (hget : m.roomStates.get? roomId =
      some { history := [], historyIndex := -1, createdAt := t1, lastModified := t2 }) :
    ∃ st, (addStrokes m roomId l).roomStates.get? roomId = some st ∧
      st.history = (l.map mkEntry).drop (l.length - 500) ∧
      st.historyIndex = (st.history.length : Int) - 1 := by
  obtain ⟨st, hst, hh, hi⟩ := addStrokes_from_tip roomId l m _ hget rfl (by simp)
  refine ⟨st, hst, ?_, hi⟩
  rw [hh]
  simp

theorem coRun_cons (cid : String) (sc sc1 : ServerState × CanvasManager) (i : Input)
    (rest : List Input) (h : coStep cid sc i = some sc1) :
    coRun cid sc (i :: rest) = coRun cid sc1 rest := by
  rw [coRun, h]

theorem coStep_commit (cid r : String) (ud : UserData) (s : ServerState) (c : CanvasManager)
    (p : DrawPayload) (hr : (s.conn cid).currentRoom = some r)
    (hu : (s.conn cid).userData = some ud) (ht : r ≠ "") (had : (r, cid) ∈ s.adapterRooms) :
    ∃ s1 : ServerState,
      coStep cid (s, c) (p.toInput cid) =
        some (s1, c.remoteStrokeComplete (p.toStroke cid ud).1) ∧
      s1.drawingStateManager =
        (s.drawingStateManager.addStroke r (p.toStroke cid ud).1 (p.toStroke cid ud).2).2 ∧
      s1.conns = s.conns ∧ s1.adapterRooms = s.adapterRooms ∧
      s1.roomManager = s.roomManager := by
  have heff := onDrawingEnd_joined s cid r ud p.strokeId p.points p.color p.width p.tool
    p.now hr hu ht
  refine ⟨onDrawingEnd s cid p.strokeId p.points p.color p.width p.tool p.now, ?_, ?_, ?_,
    ?_, ?_⟩
  · unfold coStep DrawPayload.toInput
    simp only [handle]
    rw [heff]
    simp only [List.drop_left, deliverTo, List.foldl_cons, List.foldl_nil]
    rw [if_pos (mem_recipients_room _ _ _ had)]
    rfl
  · rw [heff]
    rfl
  · rw [heff]
  · rw [heff]
  · rw [heff]

theorem coRun_commits (cid r : String) (ud : UserData) (payloads : List DrawPayload) :
    ∀ (s : ServerState) (c : CanvasManager),
      (s.conn cid).currentRoom = some r → (s.conn cid).userData = some ud → r ≠ "" →
      (r, cid) ∈ s.adapterRooms →
      ∃ (s1 : ServerState) (c1 : CanvasManager),
        coRun cid (s, c) (payloads.map (DrawPayload.toInput cid)) = some (s1, c1) ∧
        s1.drawingStateManager =
          addStrokes s.drawingStateManager r (payloads.map (DrawPayload.toStroke cid ud)) ∧
        s1.conns = s.conns ∧ s1.adapterRooms = s.adapterRooms ∧
        s1.roomManager = s.roomManager ∧
        c1.strokes = c.strokes ++
          payloads.map (fun p => some (CanvasStroke.ofStroke (p.toStroke cid ud).1)) := by
  induction payloads with
  | nil =>
    intro s c _ _ _ _
    exact ⟨s, c, rfl, rfl, rfl, rfl, rfl, by simp⟩
  | cons p rest ih =>
    intro s c hr hu ht had
    obtain ⟨s1, hstep, hd1, hc1, ha1, hrm1⟩ := coStep_commit cid r ud s c p hr hu ht had
    have hconn : s1.conn cid = s.conn cid := conn_of_conns_eq s s1 cid hc1
    obtain ⟨s2, c2, hrun, hd2, hc2, ha2, hrm2, hs2⟩ :=
      ih s1 (c.remoteStrokeComplete (p.toStroke cid ud).1) (by rw [hconn]; exact hr)
        (by rw [hconn]; exact hu) ht (by rw [ha1]; exact had)
    refine ⟨s2, c2, ?_, ?_, hc2.trans hc1, ha2.trans ha1, hrm2.trans hrm1, ?_⟩
    · simp only [List.map_cons, coRun]
      rw [hstep]
      exact hrun
    · rw [hd2, hd1]
      simp [addStrokes]
    · rw [hs2]
      simp [CanvasManager.remoteStrokeComplete]

theorem coStep_undo (cid r : String) (ud : UserData) (s : ServerState) (c : CanvasManager)
    (st : RoomState) (now : Nat) (hr : (s.conn cid).currentRoom = some r)
    (hu : (s.conn cid).userData = some ud) (ht : r ≠ "") (had : (r, cid) ∈ s.adapterRooms)
    (hget : s.drawingStateManager.roomStates.get? r = some st)
    (hpos : 0 ≤ st.historyIndex) :
    ∃ s1 : ServerState,
      coStep cid (s, c) { socketId := cid, event := ClientEvent.undo_request, now := now } =
        some (s1, c.handleUndo (st.historyIndex - 1)) ∧
      s1.drawingStateManager.roomStates.get? r =
        some { st with historyIndex := st.historyIndex - 1, lastModified := now } := by
  have heff := onUndoRequest_joined s cid r ud st now hr hu ht hget hpos
  obtain ⟨s1, hs1⟩ : ∃ s1, onUndoRequest s cid now = some s1 := ⟨_, heff⟩
  have hs2 := hs1
  rw [heff] at hs2
  have e := Option.some.inj hs2
  refine ⟨s1, ?_, ?_⟩
  · unfold coStep
    simp only [handle]
    rw [hs1]
    simp only
    rw [← e]
    simp only [List.drop_left, deliverTo, List.foldl_cons, List.foldl_nil]
    rw [if_pos (mem_recipients_room _ _ _ had)]
    rfl
  · rw [← e]
    exact jsMap_get_set_self _ _ _

theorem overflow_payloads_length :
    overflowPayloads.length = 501 ∧
    overflowPayloads.head? = some
      { strokeId := "0", points := [{ x := 0, y := 0 }], color := "#000000", width := 2,
        tool := "brush", now := 2 } ∧
    overflowPayloads.get? 1 = some
      { strokeId := "1", points := [{ x := 1, y := 1 }], color := "#000000", width := 2,
        tool := "brush", now := 3 } := by
  unfold overflowPayloads
  refine ⟨?_, ?_, ?_⟩
  · rw [List.length_map, List.length_range]
  · rw [List.head?_map, List.head?_range, if_neg (by decide)]
    rfl
  · rw [List.get?_eq_getElem?, List.getElem?_map, List.getElem?_range (by decide)]
    rfl

/-- C21 at the failing input. `sock-A` joins room `r1` and commits 501 strokes with the ids
`0` to `500`; its client applies every message it receives. After the last
`stroke_complete` the client's `strokes` list holds 501 strokes while the server's
`getHistory` holds 500, the server having dropped stroke `0`. After one more `undo_request`
both hold 499 strokes, but the client's begin with stroke `0` and the server's with stroke
`1`: the one undo took the strokes `499` and `500` from the client's view and stroke `500`
from the server's. -/
theorem client_view_diverges :
    ∃ (s : ServerState) (c : CanvasManager) (s2 : ServerState) (c2 : CanvasManager),
      coRun "sock-A" (ServerState.empty, CanvasManager.new) overflowInputs = some (s, c) ∧
      (clientIds c).length = 501 ∧ (serverIds s "r1").length = 500 ∧
      clientIds c ≠ serverIds s "r1" ∧
      coRun "sock-A" (s, c) [overflowUndo] = some (s2, c2) ∧
      (clientIds c2).length = 499 ∧ (serverIds s2 "r1").length = 499 ∧
      (clientIds c2).head? = some (some "0") ∧ (serverIds s2 "r1").head? = some (some "1") ∧
      clientIds c2 ≠ serverIds s2 "r1" := by
  obtain ⟨hlenP, hheadP, hsecondP⟩ := overflow_payloads_length
  have hjoin : coStep "sock-A" (ServerState.empty, CanvasManager.new)
      { socketId := "sock-A", event := ClientEvent.join_room (some "r1") (some "ann"),
        now := 1 } =
      some (onJoinRoom ServerState.empty "sock-A" (some "r1") (some "ann") 1,
        CanvasManager.new) := by
    decide
  have hr0 : ((onJoinRoom ServerState.empty "sock-A" (some "r1") (some "ann") 1).conn
      "sock-A").currentRoom = some "r1" := by decide
  have hu0 : ((onJoinRoom ServerState.empty "sock-A" (some "r1") (some "ann") 1).conn
      "sock-A").userData =
      some (joinUserData ServerState.empty "sock-A" (some "r1") (some "ann")) := by decide
  have had0 : ("r1", "sock-A") ∈
      (onJoinRoom ServerState.empty "sock-A" (some "r1") (some "ann") 1).adapterRooms := by
    decide
  have hget0 : (onJoinRoom ServerState.empty "sock-A" (some "r1") (some "ann")
      1).drawingStateManager.roomStates.get? "r1" =
      some { history := [], historyIndex := -1, createdAt := 1, lastModified := 1 } := by
    decide
  obtain ⟨s1, c1, hrun, hd, hc, ha, _, hst⟩ :=
    coRun_commits "sock-A" "r1" (joinUserData ServerState.empty "sock-A" (some "r1") (some "ann"))
      overflowPayloads _ CanvasManager.new hr0 hu0 (by decide) had0
  obtain ⟨st, hget1, hhist, hidx⟩ :=
    addStrokes_on_empty "r1"
      (overflowPayloads.map (DrawPayload.toStroke "sock-A"
        (joinUserData ServerState.empty "sock-A" (some "r1") (some "ann"))))
      _ 1 1 hget0
  rw [← hd] at hget1
  have hhist2 : st.history = List.drop 1 (List.map mkEntry
      (overflowPayloads.map (DrawPayload.toStroke "sock-A"
        (joinUserData ServerState.empty "sock-A" (some "r1") (some "ann"))))) := by
    rw [hhist, List.length_map, hlenP]
  have hlen : st.history.length = 500 := by
    rw [hhist2, List.length_drop, List.length_map, List.length_map, hlenP]
  have hidx1 : st.historyIndex = 499 := by
    rw [hidx, hlen]
    rfl
  have hvis : s1.drawingStateManager.getHistory "r1" = st.history := by
    rw [getHistory_of_get _ "r1" st hget1 (by rw [hidx1]; decide), hidx1]
    apply List.take_of_length_le
    rw [hlen]
    decide
  have hst2 : c1.strokes = overflowPayloads.map (fun p => some (CanvasStroke.ofStroke
      (DrawPayload.toStroke "sock-A"
        (joinUserData ServerState.empty "sock-A" (some "r1") (some "ann")) p).1)) := by
    have hnew : CanvasManager.new.strokes = [] := rfl
    rw [hst, hnew, List.nil_append]
  have hclen : c1.strokes.length = 501 := by
    rw [hst2, List.length_map, hlenP]
  have hconn1 : s1.conn "sock-A" =
      (onJoinRoom ServerState.empty "sock-A" (some "r1") (some "ann") 1).conn "sock-A" :=
    conn_of_conns_eq _ s1 "sock-A" hc
  obtain ⟨s2, hundo, hget2⟩ :=
    coStep_undo "sock-A" "r1" (joinUserData ServerState.empty "sock-A" (some "r1") (some "ann"))
      s1 c1 st 900 (by rw [hconn1]; exact hr0) (by rw [hconn1]; exact hu0) (by decide)
      (by rw [ha]; exact had0) hget1 (by rw [hidx1]; decide)
  have hvis2 : s2.drawingStateManager.getHistory "r1" = st.history.take 499 := by
    rw [getHistory_of_get _ "r1" _ hget2 (by simp only; rw [hidx1]; decide)]
    simp only
    rw [hidx1]
    rfl
  have hc2 : (c1.handleUndo (st.historyIndex - 1)).strokes = c1.strokes.take 499 := by
    unfold CanvasManager.handleUndo
    simp only
    rw [hidx1, jsSlice_zero_eq_take _ _ (by decide)]
    rfl
  have hL1 : (clientIds c1).length = 501 := by
    unfold clientIds
    rw [List.length_map, hclen]
  have hS1 : (serverIds s1 "r1").length = 500 := by
    unfold serverIds
    rw [List.length_map, hvis, hlen]
  have hH2c : (clientIds (c1.handleUndo (st.historyIndex - 1))).head? = some (some "0") := by
    unfold clientIds
    rw [hc2, hst2, List.head?_map, List.head?_take, if_neg (by decide),
      List.head?_map, hheadP]
    rfl
  have hH2s : (serverIds s2 "r1").head? = some (some "1") := by
    unfold serverIds
    rw [hvis2, hhist2, List.head?_map, List.head?_take, if_neg (by decide), List.head?_drop,
      List.getElem?_map, List.getElem?_map, ← List.get?_eq_getElem?, hsecondP]
    rfl
  refine ⟨s1, c1, s2, c1.handleUndo (st.historyIndex - 1), ?_, hL1, hS1, ?_, ?_, ?_, ?_,
    hH2c, hH2s, ?_⟩
  · unfold overflowInputs
    rw [coRun_cons "sock-A" _ _ _ _ hjoin]
    exact hrun
  · intro h
    have h2 := congrArg List.length h
    rw [hL1, hS1] at h2
    revert h2
    decide
  · unfold overflowUndo
    rw [coRun_cons "sock-A" _ _ _ _ hundo]
    rfl
  · unfold clientIds
    rw [List.length_map, hc2, List.length_take, hclen]
    rfl
  · unfold serverIds
    rw [List.length_map, hvis2, List.length_take, hlen]
    rfl
  · intro h
    have h2 := congrArg List.head? h
    rw [hH2c, hH2s] at h2
    revert h2
    decide

/-- What holds of C21: while no append trims the ledger the client's view follows the
server's. If the client's stroke ids are those of the visible history of a well-formed
room, they still are after a commit onto fewer than 500 visible strokes and its
`stroke_complete`, after a successful undo and its `undo_performed`, after a successful redo
and its `redo_performed`, and after a clear and its `canvas_cleared`; and a fresh client
that receives the snapshot of `room_joined` shows the ids of the visible history. -/
theorem client_view_follows_below_capacity (m : DrawingStateManager) (r : String)
    (st : RoomState) (c : CanvasManager) (stroke : Stroke) (now : Nat)
    (hget : m.roomStates.get? r = some st) (hwf : st.WellFormed)
    (hagree : clientIds c = (m.getHistory r).map (fun e => some e.id)) :
    ((m.getHistory r).length < 500 →
      clientIds (clientReceive c (ServerMsg.stroke_complete stroke
          ((m.addStroke r stroke now).2.getHistoryIndex r))) =
        ((m.addStroke r stroke now).2.getHistory r).map (fun e => some e.id)) ∧
    (0 ≤ st.historyIndex →
      clientIds (clientReceive c (ServerMsg.undo_performed "u" (st.historyIndex - 1)
          (jsIndex st.history st.historyIndex))) =
        ((m.undo r now).2.getHistory r).map (fun e => some e.id)) ∧
    (st.historyIndex < (st.history.length : Int) - 1 →
      clientIds (clientReceive c (ServerMsg.redo_performed "u" (st.historyIndex + 1)
          (jsIndex st.history (st.historyIndex + 1)))) =
        ((m.redo r now).2.getHistory r).map (fun e => some e.id)) ∧
    clientIds (clientReceive c (ServerMsg.canvas_cleared "u" now (-1))) =
      ((m.clearHistory r now).getHistory r).map (fun e => some e.id) ∧
    (∀ (user : UserData) (users : List Member),
      clientIds (clientReceive CanvasManager.new
          (ServerMsg.room_joined r user users (m.getHistory r) (m.getHistoryIndex r))) =
        (m.getHistory r).map (fun e => some e.id)) := by
  obtain ⟨h1, h2, h3⟩ := hwf
  have hvis := getHistory_of_get m r st hget h1
  unfold clientIds at hagree ⊢
  refine ⟨?_, ?_, ?_, ?_, ?_⟩
  · intro hlt
    obtain ⟨hnew, _, _⟩ := getHistory_addStroke m r st stroke now hget ⟨h1, h2, h3⟩
    rw [hnew, if_neg (by omega), List.drop_zero, List.map_append]
    simp only [clientReceive, CanvasManager.remoteStrokeComplete, List.map_append, hagree,
      List.map_cons, List.map_nil]
    rfl
  · intro hpos
    have hundo : (m.undo r now).2.roomStates.get? r =
        some { st with historyIndex := st.historyIndex - 1, lastModified := now } := by
      unfold undo
      rw [hget]
      simp only
      rw [if_neg (by omega)]
      exact jsMap_get_set_self _ _ _
    rw [getHistory_of_get _ r _ hundo (by simp only; omega)]
    simp only [clientReceive, CanvasManager.handleUndo]
    rw [jsSlice_zero_eq_take _ _ (by omega), List.map_take, hagree, hvis]
    simp only [List.map_take, List.take_take]
    have hk : min (st.historyIndex - 1 + 1).toNat (st.historyIndex + 1).toNat =
        (st.historyIndex - 1 + 1).toNat := by omega
    rw [hk]
  · intro hlt
    have hredo : (m.redo r now).2.roomStates.get? r =
        some { st with historyIndex := st.historyIndex + 1, lastModified := now } := by
      unfold redo
      rw [hget]
      simp only
      rw [if_neg (by omega)]
      exact jsMap_get_set_self _ _ _
    have hb : (st.historyIndex + 1).toNat < st.history.length := by omega
    have hi : jsIndex st.history (st.historyIndex + 1) =
        some (st.history.get ⟨(st.historyIndex + 1).toNat, hb⟩) := by
      unfold jsIndex
      rw [if_neg (by omega), List.get?_eq_get hb]
    rw [getHistory_of_get _ r _ hredo (by simp only; omega)]
    simp only [clientReceive, CanvasManager.handleRedo]
    have hk : (st.historyIndex + 1 + 1).toNat = (st.historyIndex + 1).toNat + 1 := by omega
    rw [hk, List.take_succ, List.getElem?_eq_getElem hb, hi, List.map_append, List.map_append,
      hagree, hvis]
    rfl
  · have hclear : (m.clearHistory r now).roomStates.get? r =
        some { st with history := [], historyIndex := -1, lastModified := now } := by
      unfold clearHistory
      rw [hget]
      exact jsMap_get_set_self _ _ _
    unfold getHistory
    rw [hclear]
    rfl
  · intro user users
    simp only [clientReceive]
    split
    · simp [CanvasManager.setStrokes, CanvasStroke.ofEntry]
    · rename_i hzero
      have hnil : m.getHistory r = [] := by
        cases hl : m.getHistory r with
        | nil => rfl
        | cons a tl =>
          rw [hl] at hzero
          simp at hzero
      rw [hnil]
      rfl

/-- Witness of the agreement below capacity on the sample manager, whose room `r1` shows
`s1`: a client showing `s1` receives the commit of `s3`. -/
theorem client_view_follows_below_capacity_witness :
    sampleManager.roomStates.get? "r1" = some sampleRoomState ∧
    sampleRoomState.WellFormed ∧
    clientIds (clientReceive
        (CanvasManager.new.setStrokes [some (CanvasStroke.ofStroke (sampleStroke "s1"))])
        (ServerMsg.stroke_complete (sampleStroke "s3")
          ((sampleManager.addStroke "r1" (sampleStroke "s3") 20).2.getHistoryIndex "r1"))) =
      ((sampleManager.addStroke "r1" (sampleStroke "s3") 20).2.getHistory "r1").map
        (fun e => some e.id) :=
  ⟨by decide, by decide,
    (client_view_follows_below_capacity sampleManager "r1" sampleRoomState
      (CanvasManager.new.setStrokes [some (CanvasStroke.ofStroke (sampleStroke "s1"))])
      (sampleStroke "s3") 20 (by decide) (by decide) (by decide)).1 (by decide)⟩

end CanvasApp
